import Mathlib

/-!
The class `rpl::consumer` of `Telegram/SourceFiles/rpl/consumer.h`.

A shallow embedding of the terminable delivery endpoint `rpl::consumer<Value, Error>`.

* The mutable members of `abstract_consumer_instance` / `consumer_instance`
  (`_lifetime`, `_terminated`, `_mutex`, `_next`, `_error`, `_done`) form the state.
* Every member function is a state-passing function that also returns the list of
  observable events it produced (mutex acquisitions and releases, callback
  invocations, deferred actions run).
* User code (the three callbacks and the deferred actions) may call back into the
  channel it belongs to.  Its behaviour is given by `UserCode`: for every callable the
  list of calls its body makes on its own channel.  Executing such a body needs the
  member functions again, so they take the executor `invoke` as an argument and
  `exec` ties the knot with a bound on the nesting depth of re-entrant calls.
-/

namespace rpl

/-- Modelled from the spec: `rpl/lifetime.h` is not among the sources.  The
scoped-cleanup registry is "a container of zero or more deferred actions"; an action
is named by a value of `A` and its body is given by `UserCode.action`. -/
structure lifetime (A : Type) where
  _callbacks : List A
deriving DecidableEq

/-- Modelled from the spec: the default-constructed registry `lifetime()` of
`rpl/lifetime.h` (not among the sources) holds zero actions. -/
def lifetime.empty {A : Type} : lifetime A := ⟨[]⟩

/-- Modelled from the spec: move construction of a registry (`rpl/lifetime.h`, not
among the sources): "transferring a registry to a new owner must leave the source
empty (no actions)".  Returns the new owner and the state left in the source. -/
def lifetime.move {A : Type} (source : lifetime A) : lifetime A × lifetime A :=
  (source, lifetime.empty)

/-- Modelled from the spec: move assignment of a registry (`rpl/lifetime.h`, not
among the sources): the stored registry is "replaced (not merged) when a new one is
set" and running the previously stored registry's actions "is NOT performed".
Returns the new value of the target and the state left in the source. -/
def lifetime.assign {A : Type} (_target source : lifetime A) : lifetime A × lifetime A :=
  (source, lifetime.empty)

/-- The calls of the public interface of `consumer<Value, Error>`. -/
inductive Call (V E A : Type) where
  | putNext (value : V)
  | putError (error : E)
  | putDone
  | setLifetime (l : lifetime A)
  | terminate
deriving DecidableEq

/-- Observable events, in program order. -/
inductive Event (V E A : Type) where
  /-- The mutex was acquired: `std::unique_lock<std::mutex> lock(_mutex)`. -/
  | lock
  /-- The mutex was released: `lock.unlock()` or the end of the scope of `lock`. -/
  | unlock
  /-- The on-value handler was invoked: `handler(std::move(value))`. -/
  | next (value : V)
  /-- The on-error handler was invoked: `handler(std::move(error))`. -/
  | error (error : E)
  /-- The on-done handler was invoked: `handler()`. -/
  | done
  /-- A deferred action of a registry was run. -/
  | action (a : A)
deriving DecidableEq

/-- Ways in which an execution does not return. -/
inductive Fault where
  /-- `std::mutex::lock` on a mutex that is already held by the running thread. -/
  | deadlock
  /-- The bound on the nesting depth of re-entrant calls was reached. -/
  | depth
deriving DecidableEq

/-- The data members of `consumer_instance<OnNext, OnError, OnDone>` together with
those inherited from `abstract_consumer_instance`. -/
structure consumer_instance (A OnNext OnError OnDone : Type) where
  _lifetime : lifetime A
  _terminated : Bool
  _mutex : Bool
  _next : OnNext
  _error : OnError
  _done : OnDone
deriving DecidableEq

/-- The user code attached to a channel: what the callables of the template
parameter types `OnNext`, `OnError`, `OnDone` and the deferred actions do.  A body
is the list of calls it makes on its own channel, in order.  `movedError` and
`movedDone` give the value `std::move` leaves behind in the source object. -/
structure UserCode (V E A OnNext OnError OnDone : Type) where
  next : OnNext → V → List (Call V E A)
  error : OnError → E → List (Call V E A)
  done : OnDone → List (Call V E A)
  movedError : OnError → OnError
  movedDone : OnDone → OnDone
  action : A → List (Call V E A)

section Members

variable {V E A OnNext OnError OnDone : Type}

/-- What a member function that returns yields: its value, the new state and the
events produced. -/
abbrev Outcome (V E A OnNext OnError OnDone R : Type) : Type :=
  R × consumer_instance A OnNext OnError OnDone × List (Event V E A)

/-- The executor of user code bodies handed to the member functions. -/
abbrev Invoke (V E A OnNext OnError OnDone : Type) : Type :=
  List (Call V E A) → consumer_instance A OnNext OnError OnDone →
    Except Fault (Outcome V E A OnNext OnError OnDone Unit)

/-- Acquire `_mutex` (`std::unique_lock<std::mutex> lock(_mutex)`). -/
def acquire (s : consumer_instance A OnNext OnError OnDone) :
    Except Fault (consumer_instance A OnNext OnError OnDone) :=
  if s._mutex then .error Fault.deadlock else .ok { s with _mutex := true }

/-- Release `_mutex` (`lock.unlock()`, or the destructor of `lock`). -/
def release (s : consumer_instance A OnNext OnError OnDone) :
    consumer_instance A OnNext OnError OnDone :=
  { s with _mutex := false }

/-- Run the given deferred actions one after the other. -/
def runActions (invoke : Invoke V E A OnNext OnError OnDone)
    (body : A → List (Call V E A)) :
    List A → consumer_instance A OnNext OnError OnDone →
      Except Fault (Outcome V E A OnNext OnError OnDone Unit)
  | [], s => .ok ((), s, [])
  | a :: rest, s => do
    let (_, s1, t1) ← invoke (body a) s
    let (_, s2, t2) ← runActions invoke body rest s1
    pure ((), s2, Event.action a :: t1 ++ t2)

/-- Modelled from the spec: `lifetime::destroy()` of `rpl/lifetime.h` (not among
the sources): "runs every retained action", "each must run exactly once", idempotent
"by transferring ownership out on first use, leaving an empty registry behind".  The
order of the actions is left open by the spec; the order of insertion is used.
Returns the state left in the registry. -/
def lifetime.destroy (invoke : Invoke V E A OnNext OnError OnDone)
    (uc : UserCode V E A OnNext OnError OnDone) (l : lifetime A)
    (s : consumer_instance A OnNext OnError OnDone) :
    Except Fault (Outcome V E A OnNext OnError OnDone (lifetime A)) := do
  let (taken, left) := lifetime.move l
  let (_, s1, t1) ← runActions invoke uc.action taken._callbacks s
  pure (left, s1, t1)

/-- The function `abstract_consumer_instance::setLifetime(lifetime &&lifetime)`.  The
value returned is the state left in the caller's registry object. -/
def setLifetime (invoke : Invoke V E A OnNext OnError OnDone)
    (uc : UserCode V E A OnNext OnError OnDone) (l : lifetime A)
    (s : consumer_instance A OnNext OnError OnDone) :
    Except Fault (Outcome V E A OnNext OnError OnDone (lifetime A)) := do
  let s ← acquire s
  if s._terminated then
    let s := release s
    let (l1, s1, t1) ← lifetime.destroy invoke uc l s
    pure (l1, s1, Event.lock :: Event.unlock :: t1)
  else
    let (stored, l1) := lifetime.assign s._lifetime l
    let s := { s with _lifetime := stored }
    let s := release s
    pure (l1, s, [Event.lock, Event.unlock])

/-- The function `abstract_consumer_instance::terminate()`. -/
def terminate (invoke : Invoke V E A OnNext OnError OnDone)
    (uc : UserCode V E A OnNext OnError OnDone)
    (s : consumer_instance A OnNext OnError OnDone) :
    Except Fault (Outcome V E A OnNext OnError OnDone Unit) := do
  let s ← acquire s
  if !s._terminated then
    let s := { s with _terminated := true }
    -- auto handler = std::exchange(_lifetime, lifetime());
    let (handler, left) := lifetime.move s._lifetime
    let (stored, _) := lifetime.assign left lifetime.empty
    let s := { s with _lifetime := stored }
    let s := release s
    let (handler1, s1, t1) ← lifetime.destroy invoke uc handler s
    -- end of scope: the destructor of the local `handler`
    let (_, s2, t2) ← lifetime.destroy invoke uc handler1 s1
    pure ((), s2, Event.lock :: Event.unlock :: t1 ++ t2)
  else
    let s := release s
    pure ((), s, [Event.lock, Event.unlock])

/-- The function `consumer_instance::putNext(Value value)`. -/
def putNext (invoke : Invoke V E A OnNext OnError OnDone)
    (uc : UserCode V E A OnNext OnError OnDone) (value : V)
    (s : consumer_instance A OnNext OnError OnDone) :
    Except Fault (Outcome V E A OnNext OnError OnDone Bool) := do
  let s ← acquire s
  if s._terminated then
    let s := release s
    pure (false, s, [Event.lock, Event.unlock])
  else
    let handler := s._next
    let s := release s
    let (_, s1, t1) ← invoke (uc.next handler value) s
    pure (true, s1, Event.lock :: Event.unlock :: Event.next value :: t1)

/-- The function `consumer_instance::putError(Error error)`. -/
def putError (invoke : Invoke V E A OnNext OnError OnDone)
    (uc : UserCode V E A OnNext OnError OnDone) (error : E)
    (s : consumer_instance A OnNext OnError OnDone) :
    Except Fault (Outcome V E A OnNext OnError OnDone Unit) := do
  let s ← acquire s
  if !s._terminated then
    let handler := s._error
    let s := { s with _error := uc.movedError s._error }
    let s := release s
    let (_, s1, t1) ← invoke (uc.error handler error) s
    let (_, s2, t2) ← terminate invoke uc s1
    pure ((), s2, Event.lock :: Event.unlock :: Event.error error :: t1 ++ t2)
  else
    let s := release s
    pure ((), s, [Event.lock, Event.unlock])

/-- The function `consumer_instance::putDone()`. -/
def putDone (invoke : Invoke V E A OnNext OnError OnDone)
    (uc : UserCode V E A OnNext OnError OnDone)
    (s : consumer_instance A OnNext OnError OnDone) :
    Except Fault (Outcome V E A OnNext OnError OnDone Unit) := do
  let s ← acquire s
  if !s._terminated then
    let handler := s._done
    let s := { s with _done := uc.movedDone s._done }
    let s := release s
    let (_, s1, t1) ← invoke (uc.done handler) s
    let (_, s2, t2) ← terminate invoke uc s1
    pure ((), s2, Event.lock :: Event.unlock :: Event.done :: t1 ++ t2)
  else
    let s := release s
    pure ((), s, [Event.lock, Event.unlock])

/-- Run a sequence of calls one after the other with the executor `step` for a
single call.  Returns what each call returned (`none` for a `void` function), the
final state and the events of all calls. -/
def runCalls
    (step : Call V E A → consumer_instance A OnNext OnError OnDone →
      Except Fault (Outcome V E A OnNext OnError OnDone (Option Bool))) :
    List (Call V E A) → consumer_instance A OnNext OnError OnDone →
      Except Fault (Outcome V E A OnNext OnError OnDone (List (Option Bool)))
  | [], s => .ok ([], s, [])
  | c :: rest, s => do
    let (r, s1, t1) ← step c s
    let (rs, s2, t2) ← runCalls step rest s1
    pure (r :: rs, s2, t1 ++ t2)

/-- Forget what the calls of a user code body returned. -/
def discard (o : Except Fault (Outcome V E A OnNext OnError OnDone (List (Option Bool)))) :
    Except Fault (Outcome V E A OnNext OnError OnDone Unit) :=
  o.map fun x => ((), x.2)

/-- One call on the channel, dispatched as the forwarding members of `consumer`
do (`_instance->putNext(...)` and so on).  The first argument bounds the nesting
depth: user code run by a call executes its own calls with one unit less. -/
def exec (uc : UserCode V E A OnNext OnError OnDone) :
    Nat → Call V E A → consumer_instance A OnNext OnError OnDone →
      Except Fault (Outcome V E A OnNext OnError OnDone (Option Bool))
  | 0, _, _ => .error Fault.depth
  | n + 1, c, s =>
    let invoke : Invoke V E A OnNext OnError OnDone :=
      fun body s0 => discard (runCalls (exec uc n) body s0)
    match c with
    | .putNext value => (putNext invoke uc value s).map fun x => (some x.1, x.2)
    | .putError error => (putError invoke uc error s).map fun x => (none, x.2)
    | .putDone => (putDone invoke uc s).map fun x => (none, x.2)
    | .setLifetime l => (setLifetime invoke uc l s).map fun x => (none, x.2)
    | .terminate => (terminate invoke uc s).map fun x => (none, x.2)

/-- The executor that `exec uc (n + 1)` hands to the member functions. -/
abbrev nested (uc : UserCode V E A OnNext OnError OnDone) (n : Nat) :
    Invoke V E A OnNext OnError OnDone :=
  fun body s0 => discard (runCalls (exec uc n) body s0)

/-- The constructor of `consumer_instance`: the three callables are stored; the
registry is default-constructed, `_terminated = false` and the mutex is free, as the
member initialisers of `abstract_consumer_instance` say. -/
def consumer_instance.construct (next : OnNext) (error : OnError) (done : OnDone) :
    consumer_instance A OnNext OnError OnDone :=
  { _lifetime := lifetime.empty, _terminated := false, _mutex := false,
    _next := next, _error := error, _done := done }

/-- An event that is the invocation of one of the three callbacks. -/
def Event.isCallback : Event V E A → Bool
  | .next _ => true
  | .error _ => true
  | .done => true
  | _ => false

/-- A single-call executor that keeps the mutex free and is without effect on a
terminated channel. -/
def SafeStep
    (step : Call V E A → consumer_instance A OnNext OnError OnDone →
      Except Fault (Outcome V E A OnNext OnError OnDone (Option Bool))) : Prop :=
  ∀ c s r s1 t, s._mutex = false → step c s = .ok (r, s1, t) →
    s1._mutex = false ∧
    (s._terminated = true →
      s1 = s ∧ (∀ ev ∈ t, Event.isCallback ev = false) ∧
        (∀ v, c = Call.putNext v → r = some false))

/-- An executor of bodies that keeps the mutex free and is without effect on a
terminated channel. -/
def SafeInvoke (invoke : Invoke V E A OnNext OnError OnDone) : Prop :=
  ∀ body s r s1 t, s._mutex = false → invoke body s = .ok (r, s1, t) →
    s1._mutex = false ∧
    (s._terminated = true → s1 = s ∧ (∀ ev ∈ t, Event.isCallback ev = false))

end Members

/-! ## A concrete channel

Values, errors and action names are numbers.  The callables carry no data.  The
on-value handler terminates its own channel when it receives `0`; the other bodies
make no call on the channel. -/

/-- User code of the concrete channel. -/
def demoCode : UserCode Nat Nat Nat Unit Unit Unit :=
  { next := fun _ v => if v = 0 then [Call.terminate] else [],
    error := fun _ _ => [],
    done := fun _ => [],
    movedError := fun f => f,
    movedDone := fun f => f,
    action := fun _ => [] }

/-- The concrete channel right after construction. -/
def demoFresh : consumer_instance Nat Unit Unit Unit :=
  consumer_instance.construct () () ()

/-- The concrete channel with the registry `[1, 2]` attached. -/
def demoAttached : consumer_instance Nat Unit Unit Unit :=
  { demoFresh with _lifetime := ⟨[1, 2]⟩ }

/-- The concrete channel after termination. -/
def demoTerminated : consumer_instance Nat Unit Unit Unit :=
  { demoFresh with _terminated := true }

/-! ## Reading traces -/

section Traces

variable {V E A : Type}

/-- An event that is the run of a deferred action. -/
def Event.isAction : Event V E A → Bool
  | .action _ => true
  | _ => false

/-- The value handed to the on-value handler, for an event that is its
invocation. -/
def Event.delivered : Event V E A → Option V
  | .next value => some value
  | _ => none

/-- What an on-value handler that appends its argument to a list has appended
over the given events. -/
def valuesDelivered (t : List (Event V E A)) : List V :=
  t.filterMap Event.delivered

/-- Whether an on-done handler that sets a flag has set it over the given
events. -/
def doneSignalled (t : List (Event V E A)) : Bool :=
  t.any fun ev => match ev with
    | .done => true
    | _ => false

end Traces

/-! ## Scripted channels

A callable is represented by the list of calls its body makes on its own channel, so a
channel whose handlers re-enter it is a value that can be written down and run. -/

/-- User code whose callables are scripts: the body of a handler makes the calls the
handler consists of; a moved-from handler behaves as before the move (as a lambda
whose captures are trivially copyable does); the deferred actions make no call. -/
def scripted :
    UserCode Nat Nat Nat (List (Call Nat Nat Nat)) (List (Call Nat Nat Nat))
      (List (Call Nat Nat Nat)) :=
  { next := fun handler _ => handler,
    error := fun handler _ => handler,
    done := fun handler => handler,
    movedError := fun handler => handler,
    movedDone := fun handler => handler,
    action := fun _ => [] }

/-- A channel with scripted handlers, not terminated, with the actions `r` attached
through `setLifetime`. -/
def scriptedChannel (next error done : List (Call Nat Nat Nat)) (r : List Nat) :
    consumer_instance Nat (List (Call Nat Nat Nat)) (List (Call Nat Nat Nat))
      (List (Call Nat Nat Nat)) :=
  { (consumer_instance.construct next error done :
      consumer_instance Nat (List (Call Nat Nat Nat)) (List (Call Nat Nat Nat))
        (List (Call Nat Nat Nat))) with _lifetime := ⟨r⟩ }

/-! ## The mutex along a trace -/

section MutexTrace

variable {V E A : Type}

/-- An event at which user code runs: the invocation of a callback or the run of a
deferred action. -/
def Event.isUserCode : Event V E A → Bool
  | .lock => false
  | .unlock => false
  | _ => true

/-- Whether the mutex is held after the given events, when `held` tells whether it
was held before them. -/
def heldAfter (held : Bool) : List (Event V E A) → Bool
  | [] => held
  | .lock :: t => heldAfter true t
  | .unlock :: t => heldAfter false t
  | .next _ :: t => heldAfter held t
  | .error _ :: t => heldAfter held t
  | .done :: t => heldAfter held t
  | .action _ :: t => heldAfter held t

/-- Whether the mutex is free at every event of the list at which user code runs,
when `held` tells whether it was held before the list. -/
def freeAtUserCode (held : Bool) : List (Event V E A) → Bool
  | [] => true
  | .lock :: t => freeAtUserCode true t
  | .unlock :: t => freeAtUserCode false t
  | .next _ :: t => !held && freeAtUserCode held t
  | .error _ :: t => !held && freeAtUserCode held t
  | .done :: t => !held && freeAtUserCode held t
  | .action _ :: t => !held && freeAtUserCode held t

/-- A trace that starts and ends with the mutex free and has it free wherever user
code runs. -/
def Released (t : List (Event V E A)) : Prop :=
  freeAtUserCode false t = true ∧ heldAfter false t = false

end MutexTrace

section TerminalCallbacks

variable {V E A : Type}

/-- An event that is the invocation of the on-error or of the on-done handler. -/
def Event.isTerminalCallback : Event V E A → Bool
  | .error _ => true
  | .done => true
  | _ => false

end TerminalCallbacks

section TerminalCalls

variable {V E A OnNext OnError OnDone : Type}

end TerminalCalls

/-- What a call returns when it finds the channel terminated: `putNext` returns
`false`, the other member functions return nothing. -/
def Call.rejected {V E A : Type} : Call V E A → Option Bool
  | .putNext _ => some false
  | _ => none

/-- A call of `setLifetime`. -/
def Call.isSetLifetime {V E A : Type} : Call V E A → Bool
  | .setLifetime _ => true
  | _ => false

/-- User code whose deferred actions call back into their own channel: action `1`
calls `putNext(7)` and then `terminate()`, action `2` calls `putError(3)` and then
`putDone()`; no other body makes a call. -/
def reentering : UserCode Nat Nat Nat Unit Unit Unit :=
  { next := fun _ _ => [],
    error := fun _ _ => [],
    done := fun _ => [],
    movedError := fun handler => handler,
    movedDone := fun handler => handler,
    action := fun a =>
      if a = 1 then [Call.putNext 7, Call.terminate]
      else if a = 2 then [Call.putError 3, Call.putDone]
      else [] }

section Threads

variable {V E A OnNext OnError OnDone : Type}

/-- One thing that a thread has still to do. -/
inductive Op (V E A OnNext OnError OnDone : Type) where
  /-- Call a member function: the next step is its critical section. -/
  | call (c : Call V E A)
  /-- In `putNext`, after `lock.unlock()`: run `handler(std::move(value))`. -/
  | nextHandler (handler : OnNext) (value : V)
  /-- In `putError`, after `lock.unlock()`: run `handler(std::move(error))`;
  `this->terminate()` follows when the handler has returned. -/
  | errorHandler (handler : OnError) (error : E)
  /-- In `putDone`, after `lock.unlock()`: run `handler()`; `this->terminate()` follows
  when the handler has returned. -/
  | doneHandler (handler : OnDone)
  /-- In `putError` or `putDone`, after the handler has returned: `this->terminate()`. -/
  | thisTerminate
  /-- In `destroy()` of a registry that the thread owns: run one action. -/
  | action (a : A)
deriving DecidableEq

/-- What a thread has still to do, the next thing first. -/
abbrev Thread (V E A OnNext OnError OnDone : Type) : Type :=
  List (Op V E A OnNext OnError OnDone)

/-- The critical section of `terminate()`, followed by the thread taking the actions of
the registry it has exchanged out; `rest` is what the thread does afterwards. -/
def Thread.terminate (rest : Thread V E A OnNext OnError OnDone)
    (s : consumer_instance A OnNext OnError OnDone) :
    Thread V E A OnNext OnError OnDone × consumer_instance A OnNext OnError OnDone ×
      List (Event V E A) :=
  if !s._terminated then
    ((lifetime.move s._lifetime).1._callbacks.map Op.action ++ rest,
      { s with _terminated := true,
               _lifetime := (lifetime.assign (lifetime.move s._lifetime).2
                 lifetime.empty).1 },
      [Event.lock, Event.unlock])
  else
    (rest, s, [Event.lock, Event.unlock])

/-- One step of a thread: a critical section of `putNext`, `putError`, `putDone`,
`setLifetime` or `terminate` from `lock` to `unlock`, or the invocation of a handler, or
the start of one deferred action.  A handler or action that is invoked leaves the calls
of its body to the thread as the next things to do. -/
def Thread.step (uc : UserCode V E A OnNext OnError OnDone) :
    Thread V E A OnNext OnError OnDone → consumer_instance A OnNext OnError OnDone →
      Thread V E A OnNext OnError OnDone × consumer_instance A OnNext OnError OnDone ×
        List (Event V E A)
  | [], s => ([], s, [])
  | .call (.putNext value) :: rest, s =>
    if s._terminated then
      (rest, s, [Event.lock, Event.unlock])
    else
      (.nextHandler s._next value :: rest, s, [Event.lock, Event.unlock])
  | .nextHandler handler value :: rest, s =>
    ((uc.next handler value).map Op.call ++ rest, s, [Event.next value])
  | .call (.putError error) :: rest, s =>
    if !s._terminated then
      (.errorHandler s._error error :: rest, { s with _error := uc.movedError s._error },
        [Event.lock, Event.unlock])
    else
      (rest, s, [Event.lock, Event.unlock])
  | .errorHandler handler error :: rest, s =>
    ((uc.error handler error).map Op.call ++ .thisTerminate :: rest, s, [Event.error error])
  | .call .putDone :: rest, s =>
    if !s._terminated then
      (.doneHandler s._done :: rest, { s with _done := uc.movedDone s._done },
        [Event.lock, Event.unlock])
    else
      (rest, s, [Event.lock, Event.unlock])
  | .doneHandler handler :: rest, s =>
    ((uc.done handler).map Op.call ++ .thisTerminate :: rest, s, [Event.done])
  | .call (.setLifetime l) :: rest, s =>
    if s._terminated then
      ((lifetime.move l).1._callbacks.map Op.action ++ rest, s, [Event.lock, Event.unlock])
    else
      (rest, { s with _lifetime := (lifetime.assign s._lifetime l).1 },
        [Event.lock, Event.unlock])
  | .call .terminate :: rest, s => Thread.terminate rest s
  | .thisTerminate :: rest, s => Thread.terminate rest s
  | .action a :: rest, s => ((uc.action a).map Op.call ++ rest, s, [Event.action a])

end Threads

end rpl

/-!
The sticker set boxes of `Telegram/SourceFiles/boxes/stickersetbox.cpp`.

* Sticker set ids (`uint64`) and documents (`DocumentData*`) are natural numbers; no
  arithmetic is done on them.
* `int` and `int32` values are integers; every arithmetic operation whose result can
  leave the 32-bit range is followed by `wrap32`.  A division is `none` when the divisor
  is zero.
* The global sticker data (`Global::StickerSets()`, `Global::StickerSetsOrder()`) is
  passed explicitly.  Network requests, local storage and signals are left out.
-/

/-- The value of a 32-bit two's complement integer that holds `x`. -/
def wrap32 (x : Int) : Int := (x + 2147483648) % 4294967296 - 2147483648

/-- The C++ operator `/` on `int`: the quotient truncated towards zero; `none` when the
divisor is zero. -/
def div32 (a b : Int) : Option Int :=
  if b = 0 then none else some (wrap32 (Int.tdiv a b))

/-- The Qt function `qFloor` applied to an `int`: the conversion to `qreal` is exact and
the floor of an integer is the integer. -/
def qFloor (v : Int) : Int := v

namespace QList

/-- The loop of the Qt function `QList::indexOf`: search forward from position `i`. -/
def indexOfFrom {α : Type} [DecidableEq α] (value : α) : List α → Int → Int
  | [], _ => -1
  | x :: rest, i => if x = value then i else indexOfFrom value rest (i + 1)

/-- The Qt function `QList::indexOf(value)`: the index of the first occurrence of
`value`, searching forward from index `0`; `-1` if no item matched. -/
def indexOf {α : Type} [DecidableEq α] (list : List α) (value : α) : Int :=
  indexOfFrom value list 0

/-- The Qt function `QList::removeAt(i)`: removes the item at index `i`, which must be
a valid index; nothing is removed for any other `i`. -/
def removeAt {α : Type} (list : List α) (i : Int) : List α :=
  if 0 ≤ i ∧ i < list.length then list.eraseIdx i.toNat else list

/-- The Qt function `QList::insert(i, value)`: inserts `value` at index `i`; the value
is prepended when `i` is `0` or less and appended when `i` is the size or more. -/
def insert {α : Type} (list : List α) (i : Int) (value : α) : List α :=
  list.take i.toNat ++ value :: list.drop i.toNat

end QList

/-- The constants that the file takes from other files of the repository, which are not
among the sources: `StickerPanPerRow`, `Stickers::CustomSetId` and the style values
`st::stickersPadding`, `st::stickersSize`, `st::contactsPhotoSize`. -/
structure Constants where
  StickerPanPerRow : Int
  CustomSetId : Nat
  stickersPaddingLeft : Int
  stickersPaddingTop : Int
  stickersSizeWidth : Int
  stickersSizeHeight : Int
  contactsPhotoSize : Int

namespace MTPDstickerSet

/-- The bits of the flags of a sticker set that the file reads or writes, one Boolean
per bit: the values of `MTPDstickerSet::Flag` and `MTPDstickerSet_ClientFlag`. -/
structure Flags where
  f_installed : Bool
  f_disabled : Bool
  f_official : Bool
  f_featured : Bool
  f_not_loaded : Bool
  f_unread : Bool
deriving DecidableEq

end MTPDstickerSet

namespace Stickers

/-- The members of `Stickers::Set` that take part: the id, the flags and the list of
stickers. -/
structure Set where
  id : Nat
  flags : MTPDstickerSet.Flags
  stickers : List Nat
deriving DecidableEq

/-- The map `Stickers::Sets` (a `QMap<uint64, Set>`): `find` is application. -/
abbrev Sets : Type := Nat → Option Stickers.Set

/-- The map after `sets.insert(id, set)`, or after a write through `sets.find(id)`. -/
def Sets.insert (sets : Sets) (id : Nat) (set : Stickers.Set) : Sets :=
  fun key => if key = id then some set else sets key

/-- The map after `sets.erase(sets.find(id))`. -/
def Sets.erase (sets : Sets) (id : Nat) : Sets :=
  fun key => if key = id then none else sets key

end Stickers

/-- The global sticker data: `Global::StickerSets()` and
`Global::StickerSetsOrder()`. -/
structure Global where
  StickerSets : Stickers.Sets
  StickerSetsOrder : List Nat

/-- The block that `StickersInner::installSet` and `StickerSetInner::installDone` both
run on `Global::RefStickerSetsOrder()`:
`int insertAtIndex = 0, currentIndex = order.indexOf(setId);`
`if (currentIndex != insertAtIndex)` then remove the id at `currentIndex` when
`currentIndex > 0`, and insert it at `insertAtIndex`. -/
def installOrder (order : List Nat) (setId : Nat) : List Nat :=
  let insertAtIndex : Int := 0
  let currentIndex : Int := QList.indexOf order setId
  if currentIndex ≠ insertAtIndex then
    let order := if currentIndex > 0 then QList.removeAt order currentIndex else order
    QList.insert order insertAtIndex setId
  else
    order

/-- The block that `StickersInner::installSet` and `StickerSetInner::installDone` both
run on the custom set: every sticker of the installed pack is removed from the custom
set once, and the custom set is erased when it has become empty. -/
def removeFromCustom (k : Constants) (sets : Stickers.Sets) (pack : List Nat) :
    Stickers.Sets :=
  match sets k.CustomSetId with
  | none => sets
  | some custom =>
    let stickers := pack.foldl
      (fun stickers sticker =>
        let removeIndex := QList.indexOf stickers sticker
        if removeIndex ≥ 0 then QList.removeAt stickers removeIndex else stickers)
      custom.stickers
    if stickers.isEmpty then
      Stickers.Sets.erase sets k.CustomSetId
    else
      Stickers.Sets.insert sets k.CustomSetId { custom with stickers := stickers }

namespace StickersInner

/-- The function `StickersInner::installSet(uint64 setId)`, as far as the global sticker
data goes.  When the set is not found only `rebuild()` runs, which reads the global
data. -/
def installSet (k : Constants) (setId : Nat) (g : Global) : Global :=
  match g.StickerSets setId with
  | none => g
  | some it =>
    let it : Stickers.Set :=
      { it with flags := { it.flags with f_disabled := false, f_unread := false } }
    let it : Stickers.Set := { it with flags := { it.flags with f_installed := true } }
    let sets := Stickers.Sets.insert g.StickerSets setId it
    let order := installOrder g.StickerSetsOrder setId
    let sets := removeFromCustom k sets it.stickers
    { StickerSets := sets, StickerSetsOrder := order }

/-- The scaling of the thumbnail of the first sticker of a row in
`StickersInner::rebuild()`: `thumb` is the width and height of `sticker->thumb`, or
`none` when the set has no sticker; the value is `(pixw, pixh)`. -/
def rebuild.pix (k : Constants) (thumb : Option (Int × Int)) : Option (Int × Int) :=
  match thumb with
  | none => some (0, 0)
  | some (width, height) =>
    let pixw := width
    let pixh := height
    if pixw > k.contactsPhotoSize then
      if pixw > pixh then
        (div32 (wrap32 (pixh * k.contactsPhotoSize)) pixw).map fun pixh =>
          (k.contactsPhotoSize, pixh)
      else
        (div32 (wrap32 (pixw * k.contactsPhotoSize)) pixh).map fun pixw =>
          (pixw, k.contactsPhotoSize)
    else if pixh > k.contactsPhotoSize then
      (div32 (wrap32 (pixw * k.contactsPhotoSize)) pixh).map fun pixw =>
        (pixw, k.contactsPhotoSize)
    else
      some (pixw, pixh)

end StickersInner

/-- The members of the widget `StickerSetInner` that take part, and its `width()`. -/
structure StickerSetInner where
  _setId : Nat
  _setFlags : MTPDstickerSet.Flags
  _pack : List Nat
  width : Int

namespace StickerSetInner

/-- The function `StickerSetInner::installDone(const MTPBool &result)`, as far as the
members of the widget and the global sticker data go. -/
def installDone (k : Constants) (w : StickerSetInner) (g : Global) :
    StickerSetInner × Global :=
  let _setFlags : MTPDstickerSet.Flags := { w._setFlags with f_disabled := false }
  let _setFlags : MTPDstickerSet.Flags := { _setFlags with f_installed := true }
  let it : Stickers.Set :=
    match g.StickerSets w._setId with
    | none => { id := w._setId, flags := _setFlags, stickers := [] }
    | some it => { it with flags := _setFlags }
  let it : Stickers.Set := { it with stickers := w._pack }
  let sets := Stickers.Sets.insert g.StickerSets w._setId it
  let order := installOrder g.StickerSetsOrder w._setId
  let sets := removeFromCustom k sets w._pack
  ({ w with _setFlags := _setFlags }, { StickerSets := sets, StickerSetsOrder := order })

/-- The function `StickerSetInner::stickerFromGlobalPos(const QPoint &p)`.  `mapped` is
the point `mapFromGlobal(p)`, as `(x, y)`; `rtl` is the value of `rtl()`. -/
def stickerFromGlobalPos (k : Constants) (rtl : Bool) (w : StickerSetInner)
    (mapped : Int × Int) : Option Int := do
  let lx := if rtl then wrap32 (w.width - mapped.1) else mapped.1
  let ly := mapped.2
  let row ←
    if ly ≥ k.stickersPaddingTop then
      (div32 (wrap32 (ly - k.stickersPaddingTop)) k.stickersSizeHeight).map qFloor
    else some (-1)
  let col ←
    if lx ≥ k.stickersPaddingLeft then
      (div32 (wrap32 (lx - k.stickersPaddingLeft)) k.stickersSizeWidth).map qFloor
    else some (-1)
  if row ≥ 0 ∧ col ≥ 0 ∧ col < k.StickerPanPerRow then
    let result := wrap32 (wrap32 (row * k.StickerPanPerRow) + col)
    pure (if result < w._pack.length then result else -1)
  else
    pure (-1)

end StickerSetInner

/-- The function `stickerPacksCount(bool includeDisabledOfficial)`. -/
def stickerPacksCount (g : Global) (includeDisabledOfficial : Bool) : Int :=
  let order := g.StickerSetsOrder
  let sets := g.StickerSets
  (List.range order.length).foldl
    (fun result i =>
      match order[i]? with
      | none => result
      | some id =>
        match sets id with
        | none => result
        | some it =>
          if !it.flags.f_disabled || (it.flags.f_official && includeDisabledOfficial) then
            wrap32 (result + 1)
          else
            result)
    0

/-- The sets that `stickerPacksCount` is described to count: the id is present in the
sets map and its set is not disabled, or is official while disabled official sets are
included. -/
def isCountedPack (g : Global) (includeDisabledOfficial : Bool) (id : Nat) : Bool :=
  match g.StickerSets id with
  | none => false
  | some it => !it.flags.f_disabled || (it.flags.f_official && includeDisabledOfficial)

/-- Sample flags: a set that is installed and has the given `f_disabled` and
`f_official` bits. -/
def sampleFlags (disabled official : Bool) : MTPDstickerSet.Flags :=
  { f_installed := true, f_disabled := disabled, f_official := official,
    f_featured := false, f_not_loaded := false, f_unread := false }

/-- Sample global data: the order `[3, 7, 9, 11]`; set `3` is enabled, set `7` is
disabled and official, set `9` is disabled and not official, set `11` is not in the
map. -/
def sampleGlobal : Global :=
  { StickerSets := fun id =>
      if id = 3 then some { id := 3, flags := sampleFlags false false, stickers := [30, 31] }
      else if id = 7 then some { id := 7, flags := sampleFlags true true, stickers := [70] }
      else if id = 9 then some { id := 9, flags := sampleFlags true false, stickers := [] }
      else none,
    StickerSetsOrder := [3, 7, 9, 11] }

/-- A sample widget: a pack of twelve stickers in a widget that is 300 pixels wide. -/
def sampleWidget : StickerSetInner :=
  { _setId := 7, _setFlags := sampleFlags false false,
    _pack := [70, 71, 72, 73, 74, 75, 76, 77, 78, 79, 80, 81], width := 300 }

/-- Sample values for the constants: five stickers per row, cells of 64 by 64 pixels
behind a padding of 8 pixels, a photo size of 42 pixels. -/
def sampleConstants : Constants :=
  { StickerPanPerRow := 5, CustomSetId := 18446744073709551615,
    stickersPaddingLeft := 8, stickersPaddingTop := 8,
    stickersSizeWidth := 64, stickersSizeHeight := 64, contactsPhotoSize := 42 }

namespace rpl

/-! ## Basic facts about the member functions -/

section Basic

variable {V E A OnNext OnError OnDone : Type}

theorem discard_nil
    (step : Call V E A → consumer_instance A OnNext OnError OnDone →
      Except Fault (Outcome V E A OnNext OnError OnDone (Option Bool)))
    (s : consumer_instance A OnNext OnError OnDone) :
    discard (runCalls step [] s) = .ok ((), s, []) := rfl

theorem nested_nil (uc : UserCode V E A OnNext OnError OnDone) (n : Nat)
    (s : consumer_instance A OnNext OnError OnDone) :
    nested uc n [] s = .ok ((), s, []) := rfl

theorem runActions_quiet (uc : UserCode V E A OnNext OnError OnDone) (n : Nat)
    (as : List A) (s : consumer_instance A OnNext OnError OnDone)
    (hA : ∀ a ∈ as, uc.action a = []) :
    runActions (nested uc n) uc.action as s = .ok ((), s, as.map Event.action) := by
  induction as with
  | nil => rfl
  | cons a rest ih =>
    have h1 : uc.action a = [] := hA a (List.mem_cons_self _ _)
    have h2 := ih (fun b hb => hA b (List.mem_cons_of_mem _ hb))
    simp [runActions, h1, h2, nested_nil, bind, Except.bind, pure, Except.pure]

theorem destroy_quiet (uc : UserCode V E A OnNext OnError OnDone) (n : Nat)
    (l : lifetime A) (s : consumer_instance A OnNext OnError OnDone)
    (hA : ∀ a ∈ l._callbacks, uc.action a = []) :
    lifetime.destroy (nested uc n) uc l s
      = .ok (lifetime.empty, s, l._callbacks.map Event.action) := by
  simp [lifetime.destroy, lifetime.move, runActions_quiet uc n _ s hA, bind, Except.bind,
    pure, Except.pure]

theorem destroy_empty (invoke : Invoke V E A OnNext OnError OnDone)
    (uc : UserCode V E A OnNext OnError OnDone)
    (s : consumer_instance A OnNext OnError OnDone) :
    lifetime.destroy invoke uc lifetime.empty s = .ok (lifetime.empty, s, []) := rfl

theorem terminate_of_terminated (invoke : Invoke V E A OnNext OnError OnDone)
    (uc : UserCode V E A OnNext OnError OnDone)
    (s : consumer_instance A OnNext OnError OnDone)
    (hT : s._terminated = true) (hM : s._mutex = false) :
    terminate invoke uc s = .ok ((), s, [Event.lock, Event.unlock]) := by
  obtain ⟨l, t, m, nx, er, dn⟩ := s
  simp only at hT hM
  subst hT hM
  simp [terminate, acquire, release, bind, Except.bind, pure, Except.pure]

theorem terminate_quiet (uc : UserCode V E A OnNext OnError OnDone) (n : Nat)
    (s : consumer_instance A OnNext OnError OnDone)
    (hT : s._terminated = false) (hM : s._mutex = false)
    (hA : ∀ a ∈ s._lifetime._callbacks, uc.action a = []) :
    terminate (nested uc n) uc s
      = .ok ((), { s with _terminated := true, _lifetime := lifetime.empty },
          Event.lock :: Event.unlock :: s._lifetime._callbacks.map Event.action) := by
  obtain ⟨l, t, m, nx, er, dn⟩ := s
  simp only at hT hM hA
  subst hT hM
  simp [terminate, acquire, release, lifetime.move, lifetime.assign,
    destroy_quiet uc n l _ hA, destroy_empty, bind, Except.bind, pure, Except.pure]

theorem exec_terminate_terminated (uc : UserCode V E A OnNext OnError OnDone) (n : Nat)
    (s : consumer_instance A OnNext OnError OnDone)
    (hT : s._terminated = true) (hM : s._mutex = false) :
    exec uc (n + 1) .terminate s = .ok (none, s, [Event.lock, Event.unlock]) := by
  simp [exec, terminate_of_terminated _ uc s hT hM, Except.map]

theorem exec_terminate_quiet (uc : UserCode V E A OnNext OnError OnDone) (n : Nat)
    (s : consumer_instance A OnNext OnError OnDone)
    (hT : s._terminated = false) (hM : s._mutex = false)
    (hA : ∀ a ∈ s._lifetime._callbacks, uc.action a = []) :
    exec uc (n + 1) .terminate s
      = .ok (none, { s with _terminated := true, _lifetime := lifetime.empty },
          Event.lock :: Event.unlock :: s._lifetime._callbacks.map Event.action) := by
  have h := terminate_quiet uc n s hT hM hA
  simp only [nested] at h
  simp [exec, h, Except.map]

theorem exec_putNext_terminated (uc : UserCode V E A OnNext OnError OnDone) (n : Nat)
    (value : V) (s : consumer_instance A OnNext OnError OnDone)
    (hT : s._terminated = true) (hM : s._mutex = false) :
    exec uc (n + 1) (.putNext value) s = .ok (some false, s, [Event.lock, Event.unlock]) := by
  obtain ⟨l, t, m, nx, er, dn⟩ := s
  simp only at hT hM
  subst hT hM
  simp [exec, putNext, acquire, release, Except.map, bind, Except.bind, pure, Except.pure]

theorem exec_putNext_active (uc : UserCode V E A OnNext OnError OnDone) (n : Nat)
    (value : V) (s s1 : consumer_instance A OnNext OnError OnDone)
    (rs : List (Option Bool)) (t1 : List (Event V E A))
    (hT : s._terminated = false) (hM : s._mutex = false)
    (hB : runCalls (exec uc n) (uc.next s._next value) s = .ok (rs, s1, t1)) :
    exec uc (n + 1) (.putNext value) s
      = .ok (some true, s1, Event.lock :: Event.unlock :: Event.next value :: t1) := by
  obtain ⟨l, t, m, nx, er, dn⟩ := s
  simp only at hT hM hB
  subst hT hM
  simp [exec, putNext, acquire, release, Except.map, bind, Except.bind, pure, Except.pure,
    discard, hB]

theorem exec_putError_terminated (uc : UserCode V E A OnNext OnError OnDone) (n : Nat)
    (error : E) (s : consumer_instance A OnNext OnError OnDone)
    (hT : s._terminated = true) (hM : s._mutex = false) :
    exec uc (n + 1) (.putError error) s = .ok (none, s, [Event.lock, Event.unlock]) := by
  obtain ⟨l, t, m, nx, er, dn⟩ := s
  simp only at hT hM
  subst hT hM
  simp [exec, putError, acquire, release, Except.map, bind, Except.bind, pure, Except.pure]

theorem exec_putDone_terminated (uc : UserCode V E A OnNext OnError OnDone) (n : Nat)
    (s : consumer_instance A OnNext OnError OnDone)
    (hT : s._terminated = true) (hM : s._mutex = false) :
    exec uc (n + 1) .putDone s = .ok (none, s, [Event.lock, Event.unlock]) := by
  obtain ⟨l, t, m, nx, er, dn⟩ := s
  simp only at hT hM
  subst hT hM
  simp [exec, putDone, acquire, release, Except.map, bind, Except.bind, pure, Except.pure]

theorem exec_putError_quiet (uc : UserCode V E A OnNext OnError OnDone) (n : Nat)
    (error : E) (s : consumer_instance A OnNext OnError OnDone)
    (hT : s._terminated = false) (hM : s._mutex = false)
    (hE : uc.error s._error error = [])
    (hA : ∀ a ∈ s._lifetime._callbacks, uc.action a = []) :
    exec uc (n + 1) (.putError error) s
      = .ok (none,
          { s with _terminated := true, _lifetime := lifetime.empty,
                   _error := uc.movedError s._error },
          Event.lock :: Event.unlock :: Event.error error :: Event.lock :: Event.unlock ::
            s._lifetime._callbacks.map Event.action) := by
  obtain ⟨l, t, m, nx, er, dn⟩ := s
  simp only at hT hM hE hA
  subst hT hM
  have h := terminate_quiet uc n
    (⟨l, false, false, nx, uc.movedError er, dn⟩ : consumer_instance A OnNext OnError OnDone)
    rfl rfl hA
  simp only [nested] at h
  simp [exec, putError, acquire, release, Except.map, bind, Except.bind, pure, Except.pure,
    discard_nil, hE, h]

theorem exec_putDone_quiet (uc : UserCode V E A OnNext OnError OnDone) (n : Nat)
    (s : consumer_instance A OnNext OnError OnDone)
    (hT : s._terminated = false) (hM : s._mutex = false)
    (hD : uc.done s._done = [])
    (hA : ∀ a ∈ s._lifetime._callbacks, uc.action a = []) :
    exec uc (n + 1) .putDone s
      = .ok (none,
          { s with _terminated := true, _lifetime := lifetime.empty,
                   _done := uc.movedDone s._done },
          Event.lock :: Event.unlock :: Event.done :: Event.lock :: Event.unlock ::
            s._lifetime._callbacks.map Event.action) := by
  obtain ⟨l, t, m, nx, er, dn⟩ := s
  simp only at hT hM hD hA
  subst hT hM
  have h := terminate_quiet uc n
    (⟨l, false, false, nx, er, uc.movedDone dn⟩ : consumer_instance A OnNext OnError OnDone)
    rfl rfl hA
  simp only [nested] at h
  simp [exec, putDone, acquire, release, Except.map, bind, Except.bind, pure, Except.pure,
    discard_nil, hD, h]

theorem setLifetime_active (invoke : Invoke V E A OnNext OnError OnDone)
    (uc : UserCode V E A OnNext OnError OnDone)
    (l : lifetime A) (s : consumer_instance A OnNext OnError OnDone)
    (hT : s._terminated = false) (hM : s._mutex = false) :
    setLifetime invoke uc l s
      = .ok (lifetime.empty, { s with _lifetime := l }, [Event.lock, Event.unlock]) := by
  obtain ⟨l0, t, m, nx, er, dn⟩ := s
  simp only at hT hM
  subst hT hM
  simp [setLifetime, acquire, release, lifetime.assign, bind, Except.bind, pure, Except.pure]

theorem exec_setLifetime_active (uc : UserCode V E A OnNext OnError OnDone) (n : Nat)
    (l : lifetime A) (s : consumer_instance A OnNext OnError OnDone)
    (hT : s._terminated = false) (hM : s._mutex = false) :
    exec uc (n + 1) (.setLifetime l) s
      = .ok (none, { s with _lifetime := l }, [Event.lock, Event.unlock]) := by
  simp [exec, setLifetime_active _ uc l s hT hM, Except.map]

theorem setLifetime_terminated_quiet (uc : UserCode V E A OnNext OnError OnDone) (n : Nat)
    (l : lifetime A) (s : consumer_instance A OnNext OnError OnDone)
    (hT : s._terminated = true) (hM : s._mutex = false)
    (hA : ∀ a ∈ l._callbacks, uc.action a = []) :
    setLifetime (nested uc n) uc l s
      = .ok (lifetime.empty, s,
          Event.lock :: Event.unlock :: l._callbacks.map Event.action) := by
  obtain ⟨l0, t, m, nx, er, dn⟩ := s
  simp only at hT hM
  subst hT hM
  simp [setLifetime, acquire, release, destroy_quiet uc n l _ hA, bind, Except.bind, pure,
    Except.pure]

theorem exec_setLifetime_terminated_quiet (uc : UserCode V E A OnNext OnError OnDone)
    (n : Nat) (l : lifetime A) (s : consumer_instance A OnNext OnError OnDone)
    (hT : s._terminated = true) (hM : s._mutex = false)
    (hA : ∀ a ∈ l._callbacks, uc.action a = []) :
    exec uc (n + 1) (.setLifetime l) s
      = .ok (none, s, Event.lock :: Event.unlock :: l._callbacks.map Event.action) := by
  have h := setLifetime_terminated_quiet uc n l s hT hM hA
  simp only [nested] at h
  simp [exec, h, Except.map]

theorem runCalls_cons_ok
    (step : Call V E A → consumer_instance A OnNext OnError OnDone →
      Except Fault (Outcome V E A OnNext OnError OnDone (Option Bool)))
    (c : Call V E A) (rest : List (Call V E A))
    (s s1 s2 : consumer_instance A OnNext OnError OnDone)
    (r : Option Bool) (rs : List (Option Bool)) (t1 t2 : List (Event V E A))
    (h1 : step c s = .ok (r, s1, t1)) (h2 : runCalls step rest s1 = .ok (rs, s2, t2)) :
    runCalls step (c :: rest) s = .ok (r :: rs, s2, t1 ++ t2) := by
  simp [runCalls, h1, h2, bind, Except.bind, pure, Except.pure]

end Basic

/-! ## What holds for arbitrary user code

The facts of this section put no restriction on the user code: callbacks and deferred
actions may call back into the channel to any depth. -/

section Safety

variable {V E A OnNext OnError OnDone : Type}

theorem bind_ok_inv {α β : Type} (x : Except Fault α) (f : α → Except Fault β) (b : β)
    (h : (x >>= f) = .ok b) : ∃ a, x = .ok a ∧ f a = .ok b := by
  cases x with
  | error e => simp [bind, Except.bind] at h
  | ok a => exact ⟨a, rfl, h⟩

theorem runCalls_safe
    (step : Call V E A → consumer_instance A OnNext OnError OnDone →
      Except Fault (Outcome V E A OnNext OnError OnDone (Option Bool)))
    (hstep : SafeStep step) (cs : List (Call V E A)) :
    ∀ (s s2 : consumer_instance A OnNext OnError OnDone) (rs : List (Option Bool))
      (t : List (Event V E A)),
      s._mutex = false → runCalls step cs s = .ok (rs, s2, t) →
      s2._mutex = false ∧
      (s._terminated = true →
        s2 = s ∧ (∀ ev ∈ t, Event.isCallback ev = false) ∧
          (∀ (i : Nat) (v : V), cs[i]? = some (Call.putNext v) → rs[i]? = some (some false))) := by
  induction cs with
  | nil =>
    intro s s2 rs t hM h
    simp only [runCalls, Except.ok.injEq, Prod.mk.injEq] at h
    obtain ⟨h1, h2, h3⟩ := h
    subst h1 h2 h3
    exact ⟨hM, fun _ => ⟨rfl, by simp, by simp⟩⟩
  | cons c rest ih =>
    intro s s2 rs t hM h
    simp only [runCalls] at h
    obtain ⟨⟨r, s1, t1⟩, h1, h⟩ := bind_ok_inv _ _ _ h
    obtain ⟨⟨rs1, s3, t2⟩, h2, h⟩ := bind_ok_inv _ _ _ h
    simp only [pure, Except.pure, Except.ok.injEq, Prod.mk.injEq] at h
    obtain ⟨e1, e2, e3⟩ := h
    subst e1 e2 e3
    obtain ⟨hM1, hT1⟩ := hstep c s r s1 t1 hM h1
    obtain ⟨hM2, hT2⟩ := ih s1 s3 rs1 t2 hM1 h2
    refine ⟨hM2, fun hT => ?_⟩
    obtain ⟨e1, hc1, hr1⟩ := hT1 hT
    subst e1
    obtain ⟨e2, hc2, hr2⟩ := hT2 hT
    subst e2
    refine ⟨rfl, ?_, ?_⟩
    · intro ev hev
      rcases List.mem_append.1 hev with h | h
      · exact hc1 ev h
      · exact hc2 ev h
    · intro i v hi
      cases i with
      | zero =>
        simp only [List.getElem?_cons_zero, Option.some.injEq] at hi
        simp [hr1 v hi]
      | succ j =>
        simp only [List.getElem?_cons_succ] at hi
        simpa using hr2 j v hi

theorem discard_safe
    (step : Call V E A → consumer_instance A OnNext OnError OnDone →
      Except Fault (Outcome V E A OnNext OnError OnDone (Option Bool)))
    (hstep : SafeStep step) :
    SafeInvoke (fun body s0 => discard (runCalls step body s0)) := by
  intro body s r s1 t hM h
  simp only [discard, Except.map] at h
  split at h
  · cases h
  · rename_i v hv
    obtain ⟨rs, s2, t2⟩ := v
    simp only [Except.ok.injEq, Prod.mk.injEq] at h
    obtain ⟨-, e2, e3⟩ := h
    subst e2 e3
    obtain ⟨hM2, hT2⟩ := runCalls_safe step hstep body s s2 rs t2 hM hv
    exact ⟨hM2, fun hT => ⟨(hT2 hT).1, (hT2 hT).2.1⟩⟩

theorem runActions_safe (invoke : Invoke V E A OnNext OnError OnDone)
    (hinv : SafeInvoke invoke) (body : A → List (Call V E A)) (as : List A) :
    ∀ (s s2 : consumer_instance A OnNext OnError OnDone) (r : Unit)
      (t : List (Event V E A)),
      s._mutex = false → runActions invoke body as s = .ok (r, s2, t) →
      s2._mutex = false ∧
      (s._terminated = true → s2 = s ∧ (∀ ev ∈ t, Event.isCallback ev = false)) := by
  induction as with
  | nil =>
    intro s s2 r t hM h
    simp only [runActions, Except.ok.injEq, Prod.mk.injEq] at h
    obtain ⟨-, h2, h3⟩ := h
    subst h2 h3
    exact ⟨hM, fun _ => ⟨rfl, by simp⟩⟩
  | cons a rest ih =>
    intro s s2 r t hM h
    simp only [runActions] at h
    obtain ⟨⟨r1, s1, t1⟩, h1, h⟩ := bind_ok_inv _ _ _ h
    obtain ⟨⟨r2, s3, t2⟩, h2, h⟩ := bind_ok_inv _ _ _ h
    simp only [pure, Except.pure, Except.ok.injEq, Prod.mk.injEq] at h
    obtain ⟨-, e2, e3⟩ := h
    subst e2 e3
    obtain ⟨hM1, hT1⟩ := hinv (body a) s r1 s1 t1 hM h1
    obtain ⟨hM2, hT2⟩ := ih s1 s3 r2 t2 hM1 h2
    refine ⟨hM2, fun hT => ?_⟩
    obtain ⟨e1, hc1⟩ := hT1 hT
    subst e1
    obtain ⟨e2, hc2⟩ := hT2 hT
    subst e2
    refine ⟨rfl, ?_⟩
    intro ev hev
    rcases List.mem_cons.1 hev with h | h
    · subst h; rfl
    · rcases List.mem_append.1 h with h | h
      · exact hc1 ev h
      · exact hc2 ev h

theorem destroy_safe (invoke : Invoke V E A OnNext OnError OnDone)
    (hinv : SafeInvoke invoke) (uc : UserCode V E A OnNext OnError OnDone)
    (l l1 : lifetime A) (s s2 : consumer_instance A OnNext OnError OnDone)
    (t : List (Event V E A))
    (hM : s._mutex = false) (h : lifetime.destroy invoke uc l s = .ok (l1, s2, t)) :
    l1 = lifetime.empty ∧ s2._mutex = false ∧
      (s._terminated = true → s2 = s ∧ (∀ ev ∈ t, Event.isCallback ev = false)) := by
  simp only [lifetime.destroy, lifetime.move] at h
  obtain ⟨⟨r1, s1, t1⟩, h1, h⟩ := bind_ok_inv _ _ _ h
  simp only [pure, Except.pure, Except.ok.injEq, Prod.mk.injEq] at h
  obtain ⟨e1, e2, e3⟩ := h
  subst e1 e2 e3
  exact ⟨rfl, runActions_safe invoke hinv uc.action _ s s1 r1 t1 hM h1⟩

theorem putNext_active_inv (invoke : Invoke V E A OnNext OnError OnDone)
    (uc : UserCode V E A OnNext OnError OnDone) (value : V)
    (s s1 : consumer_instance A OnNext OnError OnDone) (b : Bool) (t : List (Event V E A))
    (hT : s._terminated = false) (hM : s._mutex = false)
    (h : putNext invoke uc value s = .ok (b, s1, t)) :
    ∃ r t1, invoke (uc.next s._next value) s = .ok (r, s1, t1) ∧ b = true ∧
      t = Event.lock :: Event.unlock :: Event.next value :: t1 := by
  obtain ⟨l, tm, m, nx, er, dn⟩ := s
  simp only at hT hM
  subst hT hM
  simp only [putNext, acquire, release] at h
  obtain ⟨s0, h0, h⟩ := bind_ok_inv _ _ _ h
  simp only [Bool.false_eq_true, if_false, Except.ok.injEq] at h0
  subst h0
  simp only [Bool.false_eq_true, if_false] at h
  obtain ⟨⟨r, s2, t1⟩, h1, h⟩ := bind_ok_inv _ _ _ h
  simp only [pure, Except.pure, Except.ok.injEq, Prod.mk.injEq] at h
  obtain ⟨e1, e2, e3⟩ := h
  subst e1 e2 e3
  exact ⟨r, t1, h1, rfl, rfl⟩

theorem putError_active_inv (invoke : Invoke V E A OnNext OnError OnDone)
    (uc : UserCode V E A OnNext OnError OnDone) (error : E)
    (s s2 : consumer_instance A OnNext OnError OnDone) (r : Unit) (t : List (Event V E A))
    (hT : s._terminated = false) (hM : s._mutex = false)
    (h : putError invoke uc error s = .ok (r, s2, t)) :
    ∃ r1 s1 t1 r2 t2,
      invoke (uc.error s._error error) { s with _error := uc.movedError s._error }
          = .ok (r1, s1, t1) ∧
        terminate invoke uc s1 = .ok (r2, s2, t2) ∧
        t = Event.lock :: Event.unlock :: Event.error error :: t1 ++ t2 := by
  obtain ⟨l, tm, m, nx, er, dn⟩ := s
  simp only at hT hM
  subst hT hM
  simp only [putError, acquire, release] at h
  obtain ⟨s0, h0, h⟩ := bind_ok_inv _ _ _ h
  simp only [Bool.false_eq_true, if_false, Except.ok.injEq] at h0
  subst h0
  simp only [Bool.not_false, if_true] at h
  obtain ⟨⟨r1, s1, t1⟩, h1, h⟩ := bind_ok_inv _ _ _ h
  obtain ⟨⟨r2, s3, t2⟩, h2, h⟩ := bind_ok_inv _ _ _ h
  simp only [pure, Except.pure, Except.ok.injEq, Prod.mk.injEq] at h
  obtain ⟨-, e2, e3⟩ := h
  subst e2 e3
  exact ⟨r1, s1, t1, r2, t2, h1, h2, rfl⟩

theorem putDone_active_inv (invoke : Invoke V E A OnNext OnError OnDone)
    (uc : UserCode V E A OnNext OnError OnDone)
    (s s2 : consumer_instance A OnNext OnError OnDone) (r : Unit) (t : List (Event V E A))
    (hT : s._terminated = false) (hM : s._mutex = false)
    (h : putDone invoke uc s = .ok (r, s2, t)) :
    ∃ r1 s1 t1 r2 t2,
      invoke (uc.done s._done) { s with _done := uc.movedDone s._done }
          = .ok (r1, s1, t1) ∧
        terminate invoke uc s1 = .ok (r2, s2, t2) ∧
        t = Event.lock :: Event.unlock :: Event.done :: t1 ++ t2 := by
  obtain ⟨l, tm, m, nx, er, dn⟩ := s
  simp only at hT hM
  subst hT hM
  simp only [putDone, acquire, release] at h
  obtain ⟨s0, h0, h⟩ := bind_ok_inv _ _ _ h
  simp only [Bool.false_eq_true, if_false, Except.ok.injEq] at h0
  subst h0
  simp only [Bool.not_false, if_true] at h
  obtain ⟨⟨r1, s1, t1⟩, h1, h⟩ := bind_ok_inv _ _ _ h
  obtain ⟨⟨r2, s3, t2⟩, h2, h⟩ := bind_ok_inv _ _ _ h
  simp only [pure, Except.pure, Except.ok.injEq, Prod.mk.injEq] at h
  obtain ⟨-, e2, e3⟩ := h
  subst e2 e3
  exact ⟨r1, s1, t1, r2, t2, h1, h2, rfl⟩

theorem terminate_active_inv (invoke : Invoke V E A OnNext OnError OnDone)
    (uc : UserCode V E A OnNext OnError OnDone)
    (s s2 : consumer_instance A OnNext OnError OnDone) (r : Unit) (t : List (Event V E A))
    (hT : s._terminated = false) (hM : s._mutex = false)
    (h : terminate invoke uc s = .ok (r, s2, t)) :
    ∃ l1 s1 t1 l2 t2,
      lifetime.destroy invoke uc s._lifetime
          { s with _terminated := true, _lifetime := lifetime.empty } = .ok (l1, s1, t1) ∧
        lifetime.destroy invoke uc l1 s1 = .ok (l2, s2, t2) ∧
        t = Event.lock :: Event.unlock :: t1 ++ t2 := by
  obtain ⟨l, tm, m, nx, er, dn⟩ := s
  simp only at hT hM
  subst hT hM
  simp only [terminate, acquire, release, lifetime.move, lifetime.assign] at h
  obtain ⟨s0, h0, h⟩ := bind_ok_inv _ _ _ h
  simp only [Bool.false_eq_true, if_false, Except.ok.injEq] at h0
  subst h0
  simp only [Bool.not_false, if_true] at h
  obtain ⟨⟨l1, s1, t1⟩, h1, h⟩ := bind_ok_inv _ _ _ h
  obtain ⟨⟨l2, s3, t2⟩, h2, h⟩ := bind_ok_inv _ _ _ h
  simp only [pure, Except.pure, Except.ok.injEq, Prod.mk.injEq] at h
  obtain ⟨-, e2, e3⟩ := h
  subst e2 e3
  exact ⟨l1, s1, t1, l2, t2, h1, h2, rfl⟩

theorem setLifetime_terminated_inv (invoke : Invoke V E A OnNext OnError OnDone)
    (uc : UserCode V E A OnNext OnError OnDone) (l l1 : lifetime A)
    (s s1 : consumer_instance A OnNext OnError OnDone) (t : List (Event V E A))
    (hT : s._terminated = true) (hM : s._mutex = false)
    (h : setLifetime invoke uc l s = .ok (l1, s1, t)) :
    ∃ t1, lifetime.destroy invoke uc l s = .ok (l1, s1, t1) ∧
      t = Event.lock :: Event.unlock :: t1 := by
  obtain ⟨l0, tm, m, nx, er, dn⟩ := s
  simp only at hT hM
  subst hT hM
  simp only [setLifetime, acquire, release] at h
  obtain ⟨s0, h0, h⟩ := bind_ok_inv _ _ _ h
  simp only [Bool.false_eq_true, if_false, Except.ok.injEq] at h0
  subst h0
  simp only [if_true] at h
  obtain ⟨⟨l2, s2, t1⟩, h1, h⟩ := bind_ok_inv _ _ _ h
  simp only [pure, Except.pure, Except.ok.injEq, Prod.mk.injEq] at h
  obtain ⟨e1, e2, e3⟩ := h
  subst e1 e2 e3
  exact ⟨t1, h1, rfl⟩

theorem terminate_safe (invoke : Invoke V E A OnNext OnError OnDone)
    (hinv : SafeInvoke invoke) (uc : UserCode V E A OnNext OnError OnDone)
    (s s2 : consumer_instance A OnNext OnError OnDone) (r : Unit) (t : List (Event V E A))
    (hM : s._mutex = false) (h : terminate invoke uc s = .ok (r, s2, t)) :
    s2._mutex = false ∧ s2._terminated = true ∧
      (∀ ev ∈ t, Event.isCallback ev = false) ∧ (s._terminated = true → s2 = s) := by
  cases hT : s._terminated with
  | true =>
    rw [terminate_of_terminated invoke uc s hT hM] at h
    simp only [Except.ok.injEq, Prod.mk.injEq] at h
    obtain ⟨-, e2, e3⟩ := h
    subst e2 e3
    exact ⟨hM, hT, by simp [Event.isCallback], fun _ => rfl⟩
  | false =>
    obtain ⟨l1, s1, t1, l2, t2, h1, h2, e⟩ := terminate_active_inv invoke uc s s2 r t hT hM h
    subst e
    obtain ⟨-, -, hT1⟩ := destroy_safe invoke hinv uc _ _
      { s with _terminated := true, _lifetime := lifetime.empty } _ _ hM h1
    obtain ⟨e1b, hc1⟩ := hT1 rfl
    subst e1b
    obtain ⟨-, -, hT2⟩ := destroy_safe invoke hinv uc _ _
      { s with _terminated := true, _lifetime := lifetime.empty } _ _ hM h2
    obtain ⟨e2b, hc2⟩ := hT2 rfl
    subst e2b
    refine ⟨hM, rfl, ?_, fun hc => by simp at hc⟩
    intro ev hev
    rcases List.mem_cons.1 hev with h | h
    · subst h; rfl
    · rcases List.mem_cons.1 h with h | h
      · subst h; rfl
      · rcases List.mem_append.1 h with h | h
        · exact hc1 ev h
        · exact hc2 ev h

theorem map_ok_inv {α β : Type} (x : Except Fault α) (f : α → β) (b : β)
    (h : x.map f = .ok b) : ∃ a, x = .ok a ∧ f a = b := by
  cases x with
  | error e => simp [Except.map] at h
  | ok a =>
    simp only [Except.map, Except.ok.injEq] at h
    exact ⟨a, rfl, h⟩

theorem exec_safe (uc : UserCode V E A OnNext OnError OnDone) :
    ∀ n, SafeStep (exec uc n) := by
  intro n
  induction n with
  | zero =>
    intro c s r s1 t _ h
    simp [exec] at h
  | succ n ih =>
    have hinv : SafeInvoke (nested uc n) := discard_safe (exec uc n) ih
    intro c s r s1 t hM h
    cases hT : s._terminated with
    | true =>
      cases c with
      | putNext value =>
        rw [exec_putNext_terminated uc n value s hT hM] at h
        simp only [Except.ok.injEq, Prod.mk.injEq] at h
        obtain ⟨e1, e2, e3⟩ := h
        subst e1 e2 e3
        exact ⟨hM, fun _ => ⟨rfl, by simp [Event.isCallback], fun _ _ => rfl⟩⟩
      | putError error =>
        rw [exec_putError_terminated uc n error s hT hM] at h
        simp only [Except.ok.injEq, Prod.mk.injEq] at h
        obtain ⟨e1, e2, e3⟩ := h
        subst e1 e2 e3
        exact ⟨hM, fun _ => ⟨rfl, by simp [Event.isCallback], by simp⟩⟩
      | putDone =>
        rw [exec_putDone_terminated uc n s hT hM] at h
        simp only [Except.ok.injEq, Prod.mk.injEq] at h
        obtain ⟨e1, e2, e3⟩ := h
        subst e1 e2 e3
        exact ⟨hM, fun _ => ⟨rfl, by simp [Event.isCallback], by simp⟩⟩
      | terminate =>
        rw [exec_terminate_terminated uc n s hT hM] at h
        simp only [Except.ok.injEq, Prod.mk.injEq] at h
        obtain ⟨e1, e2, e3⟩ := h
        subst e1 e2 e3
        exact ⟨hM, fun _ => ⟨rfl, by simp [Event.isCallback], by simp⟩⟩
      | setLifetime l =>
        simp only [exec] at h
        obtain ⟨⟨l1, s2, t2⟩, h1, h⟩ := map_ok_inv _ _ _ h
        simp only [Prod.mk.injEq] at h
        obtain ⟨e1, e2, e3⟩ := h
        subst e1 e2 e3
        obtain ⟨t1, h2, e⟩ := setLifetime_terminated_inv _ uc l l1 s s2 t2 hT hM h1
        subst e
        obtain ⟨-, hM2, hT2⟩ := destroy_safe _ hinv uc l l1 s s2 t1 hM h2
        refine ⟨hM2, fun _ => ⟨(hT2 hT).1, ?_, by simp⟩⟩
        intro ev hev
        rcases List.mem_cons.1 hev with h | h
        · subst h; rfl
        · rcases List.mem_cons.1 h with h | h
          · subst h; rfl
          · exact (hT2 hT).2 ev h
    | false =>
      refine ⟨?_, fun hc => by simp at hc⟩
      cases c with
      | putNext value =>
        simp only [exec] at h
        obtain ⟨⟨b, s2, t2⟩, h1, h⟩ := map_ok_inv _ _ _ h
        simp only [Prod.mk.injEq] at h
        obtain ⟨e1, e2, e3⟩ := h
        subst e1 e2 e3
        obtain ⟨r1, t1, h2, -, -⟩ := putNext_active_inv _ uc value s s2 b t2 hT hM h1
        exact (hinv _ s r1 s2 t1 hM h2).1
      | putError error =>
        simp only [exec] at h
        obtain ⟨⟨b, s2, t2⟩, h1, h⟩ := map_ok_inv _ _ _ h
        simp only [Prod.mk.injEq] at h
        obtain ⟨e1, e2, e3⟩ := h
        subst e1 e2 e3
        obtain ⟨r1, s3, t1, r2, t3, h2, h3, -⟩ :=
          putError_active_inv _ uc error s s2 b t2 hT hM h1
        have hM3 := (hinv _ { s with _error := uc.movedError s._error } r1 s3 t1 hM h2).1
        exact (terminate_safe _ hinv uc s3 s2 r2 t3 hM3 h3).1
      | putDone =>
        simp only [exec] at h
        obtain ⟨⟨b, s2, t2⟩, h1, h⟩ := map_ok_inv _ _ _ h
        simp only [Prod.mk.injEq] at h
        obtain ⟨e1, e2, e3⟩ := h
        subst e1 e2 e3
        obtain ⟨r1, s3, t1, r2, t3, h2, h3, -⟩ :=
          putDone_active_inv _ uc s s2 b t2 hT hM h1
        have hM3 := (hinv _ { s with _done := uc.movedDone s._done } r1 s3 t1 hM h2).1
        exact (terminate_safe _ hinv uc s3 s2 r2 t3 hM3 h3).1
      | terminate =>
        simp only [exec] at h
        obtain ⟨⟨b, s2, t2⟩, h1, h⟩ := map_ok_inv _ _ _ h
        simp only [Prod.mk.injEq] at h
        obtain ⟨e1, e2, e3⟩ := h
        subst e1 e2 e3
        exact (terminate_safe _ hinv uc s s2 b t2 hM h1).1
      | setLifetime l =>
        rw [exec_setLifetime_active uc n l s hT hM] at h
        simp only [Except.ok.injEq, Prod.mk.injEq] at h
        obtain ⟨e1, e2, e3⟩ := h
        subst e1 e2 e3
        exact hM

/-- A terminal call that returns leaves the channel terminated, whatever the user
code does. -/
theorem exec_terminal (uc : UserCode V E A OnNext OnError OnDone) (n : Nat)
    (c : Call V E A) (s s1 : consumer_instance A OnNext OnError OnDone)
    (r : Option Bool) (t : List (Event V E A))
    (hc : (∃ error, c = Call.putError error) ∨ c = Call.putDone ∨ c = Call.terminate)
    (hM : s._mutex = false) (h : exec uc n c s = .ok (r, s1, t)) :
    s1._terminated = true := by
  cases hT : s._terminated with
  | true =>
    have := ((exec_safe uc n) c s r s1 t hM h).2 hT
    rw [this.1]
    exact hT
  | false =>
    cases n with
    | zero => simp [exec] at h
    | succ n =>
      have hinv : SafeInvoke (nested uc n) := discard_safe (exec uc n) (exec_safe uc n)
      rcases hc with ⟨error, rfl⟩ | rfl | rfl
      · simp only [exec] at h
        obtain ⟨⟨b, s2, t2⟩, h1, h⟩ := map_ok_inv _ _ _ h
        simp only [Prod.mk.injEq] at h
        obtain ⟨e1, e2, e3⟩ := h
        subst e1 e2 e3
        obtain ⟨r1, s3, t1, r2, t3, h2, h3, -⟩ :=
          putError_active_inv _ uc error s s2 b t2 hT hM h1
        have hM3 := (hinv _ { s with _error := uc.movedError s._error } r1 s3 t1 hM h2).1
        exact (terminate_safe _ hinv uc s3 s2 r2 t3 hM3 h3).2.1
      · simp only [exec] at h
        obtain ⟨⟨b, s2, t2⟩, h1, h⟩ := map_ok_inv _ _ _ h
        simp only [Prod.mk.injEq] at h
        obtain ⟨e1, e2, e3⟩ := h
        subst e1 e2 e3
        obtain ⟨r1, s3, t1, r2, t3, h2, h3, -⟩ :=
          putDone_active_inv _ uc s s2 b t2 hT hM h1
        have hM3 := (hinv _ { s with _done := uc.movedDone s._done } r1 s3 t1 hM h2).1
        exact (terminate_safe _ hinv uc s3 s2 r2 t3 hM3 h3).2.1
      · simp only [exec] at h
        obtain ⟨⟨b, s2, t2⟩, h1, h⟩ := map_ok_inv _ _ _ h
        simp only [Prod.mk.injEq] at h
        obtain ⟨e1, e2, e3⟩ := h
        subst e1 e2 e3
        exact (terminate_safe _ hinv uc s s2 b t2 hM h1).2.1

theorem discard_ok_inv
    (o : Except Fault (Outcome V E A OnNext OnError OnDone (List (Option Bool))))
    (r : Unit) (s1 : consumer_instance A OnNext OnError OnDone) (t : List (Event V E A))
    (h : discard o = .ok (r, s1, t)) : ∃ rs, o = .ok (rs, s1, t) := by
  obtain ⟨⟨rs, s2, t2⟩, h1, h2⟩ := map_ok_inv _ _ _ h
  simp only [Prod.mk.injEq] at h2
  obtain ⟨-, e2, e3⟩ := h2
  subst e2 e3
  exact ⟨rs, h1⟩

/-- The termination transition: whatever the deferred actions do, a `terminate()` that
returns on a channel that was not terminated leaves it terminated with an empty
registry and has invoked no callback. -/
theorem terminate_active_general (invoke : Invoke V E A OnNext OnError OnDone)
    (hinv : SafeInvoke invoke) (uc : UserCode V E A OnNext OnError OnDone)
    (s s2 : consumer_instance A OnNext OnError OnDone) (r : Unit) (t : List (Event V E A))
    (hT : s._terminated = false) (hM : s._mutex = false)
    (h : terminate invoke uc s = .ok (r, s2, t)) :
    s2 = { s with _terminated := true, _lifetime := lifetime.empty } ∧
      ∀ ev ∈ t, Event.isCallback ev = false := by
  obtain ⟨l1, s1, t1, l2, t2, h1, h2, e⟩ := terminate_active_inv invoke uc s s2 r t hT hM h
  subst e
  obtain ⟨-, -, hT1⟩ := destroy_safe invoke hinv uc _ _
    { s with _terminated := true, _lifetime := lifetime.empty } _ _ hM h1
  obtain ⟨e1b, -⟩ := hT1 rfl
  subst e1b
  obtain ⟨-, -, hT2⟩ := destroy_safe invoke hinv uc _ _
    { s with _terminated := true, _lifetime := lifetime.empty } _ _ hM h2
  exact ⟨(hT2 rfl).1, (terminate_safe invoke hinv uc s s2 r _ hM h).2.2.1⟩

theorem exec_terminate_general (uc : UserCode V E A OnNext OnError OnDone) (n : Nat)
    (s s2 : consumer_instance A OnNext OnError OnDone) (r : Option Bool)
    (t : List (Event V E A))
    (hT : s._terminated = false) (hM : s._mutex = false)
    (h : exec uc (n + 1) .terminate s = .ok (r, s2, t)) :
    s2 = { s with _terminated := true, _lifetime := lifetime.empty } ∧
      ∀ ev ∈ t, Event.isCallback ev = false := by
  have hinv : SafeInvoke (nested uc n) := discard_safe (exec uc n) (exec_safe uc n)
  simp only [exec] at h
  obtain ⟨⟨b, s3, t3⟩, h1, h⟩ := map_ok_inv _ _ _ h
  simp only [Prod.mk.injEq] at h
  obtain ⟨-, e2, e3⟩ := h
  subst e2 e3
  exact terminate_active_general _ hinv uc s s3 b t3 hT hM h1

/-- Late attachment, whatever the deferred actions do: a `setLifetime` that returns on
a terminated channel leaves the channel as it was, leaves the caller's registry empty
and has invoked no callback. -/
theorem setLifetime_terminated_general (uc : UserCode V E A OnNext OnError OnDone)
    (n : Nat) (l l1 : lifetime A) (s s1 : consumer_instance A OnNext OnError OnDone)
    (t : List (Event V E A))
    (hT : s._terminated = true) (hM : s._mutex = false)
    (h : setLifetime (nested uc n) uc l s = .ok (l1, s1, t)) :
    l1 = lifetime.empty ∧ s1 = s ∧ ∀ ev ∈ t, Event.isCallback ev = false := by
  have hinv : SafeInvoke (nested uc n) := discard_safe (exec uc n) (exec_safe uc n)
  obtain ⟨t1, h2, e⟩ := setLifetime_terminated_inv _ uc l l1 s s1 t hT hM h
  subst e
  obtain ⟨e1, -, hT2⟩ := destroy_safe _ hinv uc l l1 s s1 t1 hM h2
  refine ⟨e1, (hT2 hT).1, ?_⟩
  intro ev hev
  rcases List.mem_cons.1 hev with h | h
  · subst h; rfl
  · rcases List.mem_cons.1 h with h | h
    · subst h; rfl
    · exact (hT2 hT).2 ev h

/-- On a terminated channel every sequence of calls returns, provided the actions of
the registries it supplies make no call themselves; the only events are mutex events
and the actions of those registries. -/
theorem runCalls_terminated_total (uc : UserCode V E A OnNext OnError OnDone) (m : Nat)
    (s : consumer_instance A OnNext OnError OnDone)
    (hT : s._terminated = true) (hM : s._mutex = false) (cs : List (Call V E A)) :
    (∀ l, Call.setLifetime l ∈ cs → ∀ a ∈ l._callbacks, uc.action a = []) →
    ∃ rs t, runCalls (exec uc (m + 1)) cs s = .ok (rs, s, t) ∧
      ∀ ev ∈ t, ev = Event.lock ∨ ev = Event.unlock ∨
        ∃ l, Call.setLifetime l ∈ cs ∧ ∃ a ∈ l._callbacks, ev = Event.action a := by
  induction cs with
  | nil =>
    intro _
    exact ⟨[], [], rfl, by simp⟩
  | cons c rest ih =>
    intro hQ
    obtain ⟨rs, t, h2, ht⟩ := ih (fun l hl => hQ l (List.mem_cons_of_mem _ hl))
    have key : ∃ r t1, exec uc (m + 1) c s = .ok (r, s, t1) ∧
        ∀ ev ∈ t1, ev = Event.lock ∨ ev = Event.unlock ∨
          ∃ l, Call.setLifetime l ∈ c :: rest ∧ ∃ a ∈ l._callbacks, ev = Event.action a := by
      cases c with
      | putNext value =>
        exact ⟨_, _, exec_putNext_terminated uc m value s hT hM, by simp⟩
      | putError error =>
        exact ⟨_, _, exec_putError_terminated uc m error s hT hM, by simp⟩
      | putDone =>
        exact ⟨_, _, exec_putDone_terminated uc m s hT hM, by simp⟩
      | terminate =>
        exact ⟨_, _, exec_terminate_terminated uc m s hT hM, by simp⟩
      | setLifetime l =>
        refine ⟨_, _, exec_setLifetime_terminated_quiet uc m l s hT hM
          (hQ l (List.mem_cons_self _ _)), ?_⟩
        intro ev hev
        rcases List.mem_cons.1 hev with h | h
        · exact Or.inl h
        · rcases List.mem_cons.1 h with h | h
          · exact Or.inr (Or.inl h)
          · obtain ⟨a, ha, e⟩ := List.mem_map.1 h
            exact Or.inr (Or.inr ⟨l, List.mem_cons_self _ _, a, ha, e.symm⟩)
    obtain ⟨r, t1, h1, ht1⟩ := key
    refine ⟨r :: rs, t1 ++ t, runCalls_cons_ok _ c rest s s s r rs t1 t h1 h2, ?_⟩
    intro ev hev
    rcases List.mem_append.1 hev with h | h
    · exact ht1 ev h
    · rcases ht ev h with h | h | ⟨l, hl, a, ha, e⟩
      · exact Or.inl h
      · exact Or.inr (Or.inl h)
      · exact Or.inr (Or.inr ⟨l, List.mem_cons_of_mem _ hl, a, ha, e⟩)

/-- Deliveries to a channel that is not terminated, with on-value bodies that make no
call themselves: every value is accepted and the state does not change. -/
theorem runCalls_putNext_quiet (uc : UserCode V E A OnNext OnError OnDone) (n : Nat)
    (s : consumer_instance A OnNext OnError OnDone)
    (hT : s._terminated = false) (hM : s._mutex = false) (vs : List V)
    (hN : ∀ v ∈ vs, uc.next s._next v = []) :
    runCalls (exec uc (n + 1)) (vs.map Call.putNext) s
      = .ok (vs.map (fun _ => some true), s,
          vs.flatMap (fun v => [Event.lock, Event.unlock, Event.next v])) := by
  induction vs with
  | nil => rfl
  | cons v rest ih =>
    have h1 : exec uc (n + 1) (.putNext v) s
        = .ok (some true, s, [Event.lock, Event.unlock, Event.next v]) := by
      apply exec_putNext_active uc n v s s [] [] hT hM
      rw [hN v (List.mem_cons_self _ _)]
      rfl
    have h2 := ih (fun w hw => hN w (List.mem_cons_of_mem _ hw))
    simpa using runCalls_cons_ok _ _ _ s s s _ _ _ _ h1 h2

end Safety

/-! ## Delivery and termination on a single call -/

section Contracts

variable {V E A OnNext OnError OnDone : Type}

/-- C1: on a channel that is not terminated, `putNext(value)` returns `true` and
produces exactly these events: the mutex is acquired and released, the on-value
handler is invoked once with `value`, and then only the events `t1` of the calls that
the handler's own body makes on the channel.  `putNext` itself invokes neither the
on-error nor the on-done handler; when the body makes no call, nothing else happens and
the state is unchanged. -/
theorem putNext_active_delivers (uc : UserCode V E A OnNext OnError OnDone) (n : Nat)
    (value : V) (s s1 : consumer_instance A OnNext OnError OnDone)
    (rs : List (Option Bool)) (t1 : List (Event V E A))
    (hT : s._terminated = false) (hM : s._mutex = false)
    (hB : runCalls (exec uc n) (uc.next s._next value) s = .ok (rs, s1, t1)) :
    exec uc (n + 1) (.putNext value) s
        = .ok (some true, s1, Event.lock :: Event.unlock :: Event.next value :: t1)
      ∧ (uc.next s._next value = [] → s1 = s ∧ t1 = []) := by
  refine ⟨exec_putNext_active uc n value s s1 rs t1 hT hM hB, fun h0 => ?_⟩
  rw [h0] at hB
  simp only [runCalls, Except.ok.injEq, Prod.mk.injEq] at hB
  exact ⟨hB.2.1.symm, hB.2.2.symm⟩

theorem putNext_active_delivers_witness :
    demoAttached._terminated = false ∧ demoAttached._mutex = false
      ∧ exec demoCode 2 (.putNext 0) demoAttached
          = .ok (some true, demoTerminated,
              [Event.lock, Event.unlock, Event.next 0, Event.lock, Event.unlock,
                Event.action 1, Event.action 2])
      ∧ exec demoCode 2 (.putNext 5) demoAttached
          = .ok (some true, demoAttached, [Event.lock, Event.unlock, Event.next 5]) :=
  ⟨rfl, rfl,
    (putNext_active_delivers demoCode 1 0 demoAttached demoTerminated [none]
      [Event.lock, Event.unlock, Event.action 1, Event.action 2] rfl rfl rfl).1,
    (putNext_active_delivers demoCode 1 5 demoAttached demoAttached [] [] rfl rfl rfl).1⟩

/-- C2: on a channel that is already terminated, `putNext(value)` returns `false`, its
only events are the acquisition and the release of the mutex (no callback, no deferred
action), and the state is unchanged. -/
theorem putNext_terminated_rejects (uc : UserCode V E A OnNext OnError OnDone) (n : Nat)
    (value : V) (s : consumer_instance A OnNext OnError OnDone)
    (hT : s._terminated = true) (hM : s._mutex = false) :
    exec uc (n + 1) (.putNext value) s = .ok (some false, s, [Event.lock, Event.unlock]) :=
  exec_putNext_terminated uc n value s hT hM

theorem putNext_terminated_rejects_witness :
    demoTerminated._terminated = true ∧ demoTerminated._mutex = false
      ∧ exec demoCode 1 (.putNext 5) demoTerminated
          = .ok (some false, demoTerminated, [Event.lock, Event.unlock]) :=
  ⟨rfl, rfl, putNext_terminated_rejects demoCode 0 5 demoTerminated rfl rfl⟩

/-- C5: let a channel be not terminated.  First part, for arbitrary user code: a
`terminate()` that returns has set `_terminated`, has left the stored registry empty
and has invoked none of the three callbacks.  Second part: when the stored actions do
not call back into the channel, `terminate()` returns and, besides acquiring and
releasing the mutex, runs each action of the registry it took exactly once. -/
theorem terminate_active_cleans (uc : UserCode V E A OnNext OnError OnDone)
    (n : Nat) (s : consumer_instance A OnNext OnError OnDone)
    (hT : s._terminated = false) (hM : s._mutex = false) :
    (∀ res s2 t, exec uc (n + 1) .terminate s = .ok (res, s2, t) →
        s2 = { s with _terminated := true, _lifetime := lifetime.empty } ∧
        ∀ ev ∈ t, Event.isCallback ev = false)
      ∧ ((∀ a ∈ s._lifetime._callbacks, uc.action a = []) →
          exec uc (n + 1) .terminate s
            = .ok (none, { s with _terminated := true, _lifetime := lifetime.empty },
                Event.lock :: Event.unlock :: s._lifetime._callbacks.map Event.action)) :=
  ⟨fun res s2 t h => exec_terminate_general uc n s s2 res t hT hM h,
    fun hA => exec_terminate_quiet uc n s hT hM hA⟩

theorem terminate_active_cleans_witness :
    demoAttached._terminated = false ∧ demoAttached._mutex = false
      ∧ exec demoCode 1 .terminate demoAttached
          = .ok (none, demoTerminated,
              [Event.lock, Event.unlock, Event.action 1, Event.action 2]) :=
  ⟨rfl, rfl, (terminate_active_cleans demoCode 0 demoAttached rfl rfl).2 (fun _ _ => rfl)⟩

/-- C6: let a channel be not terminated and let `setLifetime` have attached `r`.  First
part, for arbitrary user code: after a `terminate()` that has returned, a second
`terminate()` returns, only acquires and releases the mutex and leaves the state as the
first call left it.  Second part: when the actions of `r` make no call on the channel,
calling `terminate()` twice after `setLifetime(r)` ends in the same state as calling it
once, and the actions of `r` are run once each in total, all by the first call. -/
theorem terminate_twice_same_as_once (uc : UserCode V E A OnNext OnError OnDone)
    (n : Nat) (r : lifetime A) (s : consumer_instance A OnNext OnError OnDone)
    (hT : s._terminated = false) (hM : s._mutex = false) :
    (∀ res s1 t1, exec uc (n + 1) .terminate { s with _lifetime := r } = .ok (res, s1, t1) →
        exec uc (n + 1) .terminate s1 = .ok (none, s1, [Event.lock, Event.unlock]))
      ∧ ((∀ a ∈ r._callbacks, uc.action a = []) →
          runCalls (exec uc (n + 1)) [.setLifetime r, .terminate] s
              = .ok ([none, none],
                  { s with _terminated := true, _lifetime := lifetime.empty },
                  [Event.lock, Event.unlock] ++
                    (Event.lock :: Event.unlock :: r._callbacks.map Event.action))
            ∧ runCalls (exec uc (n + 1)) [.setLifetime r, .terminate, .terminate] s
              = .ok ([none, none, none],
                  { s with _terminated := true, _lifetime := lifetime.empty },
                  [Event.lock, Event.unlock] ++
                    ((Event.lock :: Event.unlock :: r._callbacks.map Event.action) ++
                      [Event.lock, Event.unlock]))) := by
  refine ⟨fun res s1 t1 h => ?_, fun hA => ?_⟩
  · exact exec_terminate_terminated uc n s1
      (exec_terminal uc _ _ { s with _lifetime := r } s1 res t1 (Or.inr (Or.inr rfl)) hM h)
      ((exec_safe uc _) _ { s with _lifetime := r } res s1 t1 hM h).1
  · have h1 := exec_setLifetime_active uc n r s hT hM
    have h2 := exec_terminate_quiet uc n { s with _lifetime := r } hT hM hA
    have h3 := exec_terminate_terminated uc n
      { s with _terminated := true, _lifetime := lifetime.empty } rfl hM
    constructor
    · have := runCalls_cons_ok _ _ [] _ _ _ _ [] _ [] h2 rfl
      simpa using runCalls_cons_ok _ _ _ _ _ _ _ _ _ _ h1 this
    · have h4 := runCalls_cons_ok _ _ [] _ _ _ _ [] _ [] h3 rfl
      have h5 := runCalls_cons_ok _ _ _ _ _ _ _ _ _ _ h2 h4
      simpa using runCalls_cons_ok _ _ _ _ _ _ _ _ _ _ h1 h5

theorem terminate_twice_same_as_once_witness :
    demoFresh._terminated = false ∧ demoFresh._mutex = false
      ∧ runCalls (exec demoCode 1) [.setLifetime ⟨[1, 2]⟩, .terminate] demoFresh
          = .ok ([none, none], demoTerminated,
              [Event.lock, Event.unlock, Event.lock, Event.unlock,
                Event.action 1, Event.action 2])
      ∧ runCalls (exec demoCode 1) [.setLifetime ⟨[1, 2]⟩, .terminate, .terminate] demoFresh
          = .ok ([none, none, none], demoTerminated,
              [Event.lock, Event.unlock, Event.lock, Event.unlock,
                Event.action 1, Event.action 2, Event.lock, Event.unlock]) :=
  ⟨rfl, rfl,
    (terminate_twice_same_as_once demoCode 0 ⟨[1, 2]⟩ demoFresh rfl rfl).2 (fun _ _ => rfl)⟩

/-- C7: on a channel that is already terminated, `putError(error)` and `putDone()` do
nothing: their only events are the acquisition and the release of the mutex (no
callback, no deferred action) and the state is unchanged. -/
theorem putError_putDone_terminated_ignored (uc : UserCode V E A OnNext OnError OnDone)
    (n : Nat) (error : E) (s : consumer_instance A OnNext OnError OnDone)
    (hT : s._terminated = true) (hM : s._mutex = false) :
    exec uc (n + 1) (.putError error) s = .ok (none, s, [Event.lock, Event.unlock])
      ∧ exec uc (n + 1) .putDone s = .ok (none, s, [Event.lock, Event.unlock]) :=
  ⟨exec_putError_terminated uc n error s hT hM, exec_putDone_terminated uc n s hT hM⟩

theorem putError_putDone_terminated_ignored_witness :
    demoTerminated._terminated = true ∧ demoTerminated._mutex = false
      ∧ exec demoCode 1 (.putError 404) demoTerminated
          = .ok (none, demoTerminated, [Event.lock, Event.unlock])
      ∧ exec demoCode 1 .putDone demoTerminated
          = .ok (none, demoTerminated, [Event.lock, Event.unlock]) :=
  ⟨rfl, rfl, putError_putDone_terminated_ignored demoCode 0 404 demoTerminated rfl rfl⟩

/-- C8: let a terminal call (`putError`, `putDone` or `terminate`) have returned on a
channel, leaving it in state `s1`, with user code that may re-enter the channel in any
way.  For every sequence `cs` of calls executed afterwards: (1) whenever the sequence
returns, the state is still `s1` (so every call of it changed nothing), no callback was
invoked, and every `putNext` returned `false`; (2) the sequence does return when the
actions of the registries it passes to `setLifetime` make no call themselves, and then
the only events besides mutex events are the actions of those registries. -/
theorem after_terminal_call_all_rejected (uc : UserCode V E A OnNext OnError OnDone)
    (n : Nat) (c : Call V E A) (s s1 : consumer_instance A OnNext OnError OnDone)
    (r : Option Bool) (t1 : List (Event V E A))
    (hc : (∃ error, c = Call.putError error) ∨ c = Call.putDone ∨ c = Call.terminate)
    (hM : s._mutex = false) (h1 : exec uc n c s = .ok (r, s1, t1))
    (cs : List (Call V E A)) :
    (∀ (m : Nat) (rs : List (Option Bool))
        (s2 : consumer_instance A OnNext OnError OnDone) (t2 : List (Event V E A)),
        runCalls (exec uc m) cs s1 = .ok (rs, s2, t2) →
          s2 = s1 ∧ (∀ ev ∈ t2, Event.isCallback ev = false) ∧
            (∀ (i : Nat) (v : V), cs[i]? = some (Call.putNext v) →
              rs[i]? = some (some false)))
      ∧ ((∀ l, Call.setLifetime l ∈ cs → ∀ a ∈ l._callbacks, uc.action a = []) →
          ∀ m : Nat, ∃ rs t2, runCalls (exec uc (m + 1)) cs s1 = .ok (rs, s1, t2) ∧
            ∀ ev ∈ t2, ev = Event.lock ∨ ev = Event.unlock ∨
              ∃ l, Call.setLifetime l ∈ cs ∧ ∃ a ∈ l._callbacks, ev = Event.action a) := by
  have hT1 : s1._terminated = true := exec_terminal uc n c s s1 r t1 hc hM h1
  have hM1 : s1._mutex = false := ((exec_safe uc n) c s r s1 t1 hM h1).1
  refine ⟨fun m rs s2 t2 h2 => ?_, fun hQ m => ?_⟩
  · exact (runCalls_safe (exec uc m) (exec_safe uc m) cs s1 s2 rs t2 hM1 h2).2 hT1
  · exact runCalls_terminated_total uc m s1 hT1 hM1 cs hQ

theorem after_terminal_call_all_rejected_witness :
    demoAttached._mutex = false
      ∧ exec demoCode 1 (.putError 404) demoAttached
          = .ok (none, demoTerminated,
              [Event.lock, Event.unlock, Event.error 404, Event.lock, Event.unlock,
                Event.action 1, Event.action 2])
      ∧ ∃ rs t2,
          runCalls (exec demoCode 1)
              [.putNext 5, .putError 7, .putDone, .terminate, .setLifetime ⟨[3]⟩, .putNext 0]
              demoTerminated
            = .ok (rs, demoTerminated, t2) ∧
          ∀ ev ∈ t2, ev = Event.lock ∨ ev = Event.unlock ∨
            ∃ l, Call.setLifetime l ∈
                ([.putNext 5, .putError 7, .putDone, .terminate, .setLifetime ⟨[3]⟩,
                  .putNext 0] : List (Call Nat Nat Nat)) ∧
              ∃ a ∈ l._callbacks, ev = Event.action a :=
  ⟨rfl, rfl,
    (after_terminal_call_all_rejected demoCode 1 (.putError 404) demoAttached
      demoTerminated none _ (Or.inl ⟨404, rfl⟩) rfl rfl _).2 (fun _ _ _ _ => rfl) 0⟩

/-- C9: let a channel be already terminated.  First part, for arbitrary user code: a
`setLifetime(r)` that returns leaves the channel state as it was (`r` is not stored, an
empty stored registry stays empty), leaves the caller's registry empty and has invoked
no callback.  Second part: when the actions of `r` make no call on the channel,
`setLifetime(r)` returns and runs each action of `r` once, at once; and whatever calls
follow, as long as the registries they supply are made of other actions, which make no
call themselves, they return and run no action of `r`. -/
theorem setLifetime_terminated_runs_at_once (uc : UserCode V E A OnNext OnError OnDone)
    (n : Nat) (r : lifetime A) (s : consumer_instance A OnNext OnError OnDone)
    (hT : s._terminated = true) (hM : s._mutex = false) :
    (∀ l1 s1 t, setLifetime (nested uc n) uc r s = .ok (l1, s1, t) →
        l1 = lifetime.empty ∧ s1 = s ∧ ∀ ev ∈ t, Event.isCallback ev = false)
      ∧ ((∀ a ∈ r._callbacks, uc.action a = []) →
          setLifetime (nested uc n) uc r s
              = .ok (lifetime.empty, s,
                  Event.lock :: Event.unlock :: r._callbacks.map Event.action)
            ∧ ∀ (cs : List (Call V E A)),
                (∀ l, Call.setLifetime l ∈ cs →
                  ∀ a ∈ l._callbacks, uc.action a = [] ∧ a ∉ r._callbacks) →
                ∃ rs t, runCalls (exec uc (n + 1)) (Call.setLifetime r :: cs) s
                    = .ok (none :: rs, s,
                        (Event.lock :: Event.unlock :: r._callbacks.map Event.action)
                          ++ t) ∧
                  ∀ a ∈ r._callbacks, Event.action a ∉ t) := by
  refine ⟨fun l1 s1 t h => setLifetime_terminated_general uc n r l1 s s1 t hT hM h,
    fun hA => ⟨setLifetime_terminated_quiet uc n r s hT hM hA, fun cs hQ => ?_⟩⟩
  obtain ⟨rs, t, h2, ht⟩ := runCalls_terminated_total uc n s hT hM cs
    (fun l hl a ha => (hQ l hl a ha).1)
  refine ⟨rs, t, runCalls_cons_ok _ _ _ s s s _ _ _ _
    (exec_setLifetime_terminated_quiet uc n r s hT hM hA) h2, ?_⟩
  intro a ha hmem
  rcases ht _ hmem with h | h | ⟨l, hl, b, hb, e⟩
  · cases h
  · cases h
  · cases e
    exact (hQ l hl a hb).2 ha

theorem setLifetime_terminated_runs_at_once_witness :
    demoTerminated._terminated = true ∧ demoTerminated._mutex = false
      ∧ setLifetime (nested demoCode 0) demoCode ⟨[1, 2]⟩ demoTerminated
          = .ok (lifetime.empty, demoTerminated,
              [Event.lock, Event.unlock, Event.action 1, Event.action 2])
      ∧ ∃ rs t,
          runCalls (exec demoCode 1)
              [.setLifetime ⟨[1, 2]⟩, .terminate, .putDone, .setLifetime ⟨[3]⟩, .putNext 5]
              demoTerminated
            = .ok (none :: rs, demoTerminated,
                ([Event.lock, Event.unlock, Event.action 1, Event.action 2] : List _) ++ t) ∧
          ∀ a ∈ ([1, 2] : List Nat), (Event.action a : Event Nat Nat Nat) ∉ t :=
  ⟨rfl, rfl,
    ((setLifetime_terminated_runs_at_once demoCode 0 ⟨[1, 2]⟩ demoTerminated rfl rfl).2
      (fun _ _ => rfl)).1,
    ((setLifetime_terminated_runs_at_once demoCode 0 ⟨[1, 2]⟩ demoTerminated rfl rfl).2
      (fun _ _ => rfl)).2 [.terminate, .putDone, .setLifetime ⟨[3]⟩, .putNext 5]
      (by
        intro l hl a ha
        simp only [List.mem_cons, List.mem_singleton, Call.setLifetime.injEq,
          List.not_mem_nil, or_false, false_or, reduceCtorEq] at hl
        subst hl
        simp only [List.mem_singleton] at ha
        subst ha
        exact ⟨rfl, by decide⟩)⟩

/-- C10: on a channel that is not terminated, `setLifetime(r)` stores `r` as the
channel's registry, runs no action (its only events are the acquisition and the release
of the mutex), leaves `_terminated` as it was and leaves the caller's registry empty.
Deliveries that follow, with on-value bodies that make no call on the channel, run no
action and keep `r` stored; the termination transition that follows runs the actions of
`r`, each once, when they make no call on the channel. -/
theorem setLifetime_active_stores (uc : UserCode V E A OnNext OnError OnDone)
    (n : Nat) (r : lifetime A) (s : consumer_instance A OnNext OnError OnDone)
    (hT : s._terminated = false) (hM : s._mutex = false) :
    setLifetime (nested uc n) uc r s
        = .ok (lifetime.empty, { s with _lifetime := r }, [Event.lock, Event.unlock])
      ∧ (∀ vs : List V, (∀ v ∈ vs, uc.next s._next v = []) →
          runCalls (exec uc (n + 1)) (vs.map Call.putNext) { s with _lifetime := r }
            = .ok (vs.map (fun _ => some true), { s with _lifetime := r },
                vs.flatMap (fun v => [Event.lock, Event.unlock, Event.next v])))
      ∧ ((∀ a ∈ r._callbacks, uc.action a = []) →
          exec uc (n + 1) .terminate { s with _lifetime := r }
            = .ok (none, { s with _terminated := true, _lifetime := lifetime.empty },
                Event.lock :: Event.unlock :: r._callbacks.map Event.action)) :=
  ⟨setLifetime_active _ uc r s hT hM,
    fun vs hN => runCalls_putNext_quiet uc n { s with _lifetime := r } hT hM vs hN,
    fun hA => exec_terminate_quiet uc n { s with _lifetime := r } hT hM hA⟩

theorem setLifetime_active_stores_witness :
    demoFresh._terminated = false ∧ demoFresh._mutex = false
      ∧ setLifetime (nested demoCode 0) demoCode ⟨[1, 2]⟩ demoFresh
          = .ok (lifetime.empty, demoAttached, [Event.lock, Event.unlock])
      ∧ runCalls (exec demoCode 1) [.putNext 5, .putNext 6] demoAttached
          = .ok ([some true, some true], demoAttached,
              [Event.lock, Event.unlock, Event.next 5, Event.lock, Event.unlock,
                Event.next 6])
      ∧ exec demoCode 1 .terminate demoAttached
          = .ok (none, demoTerminated,
              [Event.lock, Event.unlock, Event.action 1, Event.action 2]) :=
  ⟨rfl, rfl,
    (setLifetime_active_stores demoCode 0 ⟨[1, 2]⟩ demoFresh rfl rfl).1,
    (setLifetime_active_stores demoCode 0 ⟨[1, 2]⟩ demoFresh rfl rfl).2.1 [5, 6] (by decide),
    (setLifetime_active_stores demoCode 0 ⟨[1, 2]⟩ demoFresh rfl rfl).2.2 (fun _ _ => rfl)⟩

end Contracts

/-! ## Sequences of top-level calls -/

section Sequences

variable {V E A OnNext OnError OnDone : Type}

theorem exec_locked (uc : UserCode V E A OnNext OnError OnDone) (n : Nat)
    (c : Call V E A) (s : consumer_instance A OnNext OnError OnDone)
    (x : Outcome V E A OnNext OnError OnDone (Option Bool))
    (hM : s._mutex = true) : exec uc n c s ≠ .ok x := by
  obtain ⟨l, tm, m, nx, er, dn⟩ := s
  simp only at hM
  subst hM
  cases n with
  | zero => simp [exec]
  | succ n =>
    cases c <;>
      simp [exec, putNext, putError, putDone, setLifetime, terminate, acquire, Except.map,
        bind, Except.bind]

theorem exec_monotone (uc : UserCode V E A OnNext OnError OnDone) (n : Nat)
    (c : Call V E A) (s s1 : consumer_instance A OnNext OnError OnDone)
    (r : Option Bool) (t : List (Event V E A))
    (hT : s._terminated = true) (h : exec uc n c s = .ok (r, s1, t)) :
    s1._terminated = true := by
  cases hM : s._mutex with
  | true => exact absurd h (exec_locked uc n c s _ hM)
  | false =>
    have := ((exec_safe uc n) c s r s1 t hM h).2 hT
    rw [this.1]
    exact hT

theorem runCalls_monotone (uc : UserCode V E A OnNext OnError OnDone) (n : Nat)
    (cs : List (Call V E A)) :
    ∀ (s s1 : consumer_instance A OnNext OnError OnDone) (rs : List (Option Bool))
      (t : List (Event V E A)),
      s._terminated = true → runCalls (exec uc n) cs s = .ok (rs, s1, t) →
      s1._terminated = true := by
  induction cs with
  | nil =>
    intro s s1 rs t hT h
    simp only [runCalls, Except.ok.injEq, Prod.mk.injEq] at h
    rw [← h.2.1]
    exact hT
  | cons c rest ih =>
    intro s s1 rs t hT h
    simp only [runCalls] at h
    obtain ⟨⟨r, s2, t1⟩, h1, h⟩ := bind_ok_inv _ _ _ h
    obtain ⟨⟨rs1, s3, t2⟩, h2, h⟩ := bind_ok_inv _ _ _ h
    simp only [pure, Except.pure, Except.ok.injEq, Prod.mk.injEq] at h
    obtain ⟨-, e2, -⟩ := h
    subst e2
    exact ih s2 s3 rs1 t2 (exec_monotone uc n c s s2 r t1 hT h1) h2

theorem runCalls_append_ok
    (step : Call V E A → consumer_instance A OnNext OnError OnDone →
      Except Fault (Outcome V E A OnNext OnError OnDone (Option Bool)))
    (cs1 cs2 : List (Call V E A)) :
    ∀ (s s1 s2 : consumer_instance A OnNext OnError OnDone)
      (rs1 rs2 : List (Option Bool)) (t1 t2 : List (Event V E A)),
      runCalls step cs1 s = .ok (rs1, s1, t1) → runCalls step cs2 s1 = .ok (rs2, s2, t2) →
      runCalls step (cs1 ++ cs2) s = .ok (rs1 ++ rs2, s2, t1 ++ t2) := by
  induction cs1 with
  | nil =>
    intro s s1 s2 rs1 rs2 t1 t2 h1 h2
    simp only [runCalls, Except.ok.injEq, Prod.mk.injEq] at h1
    obtain ⟨e1, e2, e3⟩ := h1
    subst e1 e2 e3
    simpa using h2
  | cons c rest ih =>
    intro s s1 s2 rs1 rs2 t1 t2 h1 h2
    simp only [runCalls] at h1
    obtain ⟨⟨r, s3, t3⟩, h3, h1⟩ := bind_ok_inv _ _ _ h1
    obtain ⟨⟨rs3, s4, t4⟩, h4, h1⟩ := bind_ok_inv _ _ _ h1
    simp only [pure, Except.pure, Except.ok.injEq, Prod.mk.injEq] at h1
    obtain ⟨e1, e2, e3⟩ := h1
    subst e1 e2 e3
    have := runCalls_cons_ok step c (rest ++ cs2) s s3 s2 r (rs3 ++ rs2) t3 (t4 ++ t2) h3
      (ih s3 s4 s2 rs3 rs2 t4 t2 h4 h2)
    simpa using this

/-- Deliveries to a terminated channel: every value is refused and nothing but the
mutex is touched. -/
theorem runCalls_putNext_terminated (uc : UserCode V E A OnNext OnError OnDone) (n : Nat)
    (s : consumer_instance A OnNext OnError OnDone)
    (hT : s._terminated = true) (hM : s._mutex = false) (ws : List V) :
    runCalls (exec uc (n + 1)) (ws.map Call.putNext) s
      = .ok (ws.map (fun _ => some false), s,
          ws.flatMap (fun _ => [Event.lock, Event.unlock])) := by
  induction ws with
  | nil => rfl
  | cons w rest ih =>
    simpa using runCalls_cons_ok _ _ _ s s s _ _ _ _
      (exec_putNext_terminated uc n w s hT hM) ih

/-- Terminal calls on a terminated channel: nothing but the mutex is touched. -/
theorem runCalls_terminal_terminated (uc : UserCode V E A OnNext OnError OnDone) (n : Nat)
    (s : consumer_instance A OnNext OnError OnDone)
    (hT : s._terminated = true) (hM : s._mutex = false) (cs : List (Call V E A))
    (hc : ∀ c ∈ cs, (∃ error, c = Call.putError error) ∨ c = Call.putDone ∨
      c = Call.terminate) :
    runCalls (exec uc (n + 1)) cs s
      = .ok (cs.map (fun _ => none), s,
          cs.flatMap (fun _ => [Event.lock, Event.unlock])) := by
  induction cs with
  | nil => rfl
  | cons c rest ih =>
    have h1 : exec uc (n + 1) c s = .ok (none, s, [Event.lock, Event.unlock]) := by
      rcases hc c (List.mem_cons_self _ _) with ⟨error, rfl⟩ | rfl | rfl
      · exact exec_putError_terminated uc n error s hT hM
      · exact exec_putDone_terminated uc n s hT hM
      · exact exec_terminate_terminated uc n s hT hM
    simpa using runCalls_cons_ok _ _ _ s s s _ _ _ _ h1
      (ih (fun c hc1 => hc c (List.mem_cons_of_mem _ hc1)))

theorem countP_isCallback_map_action (as : List A) :
    List.countP Event.isCallback (as.map (Event.action : A → Event V E A)) = 0 := by
  induction as with
  | nil => rfl
  | cons a rest ih => simp [Event.isCallback]

theorem filter_isAction_map_action (as : List A) :
    List.filter Event.isAction (as.map (Event.action : A → Event V E A))
      = as.map Event.action := by
  induction as with
  | nil => rfl
  | cons a rest ih => simp [Event.isAction]

theorem countP_isCallback_mutex (k : List (Call V E A)) :
    List.countP Event.isCallback
      (k.flatMap (fun _ => [(Event.lock : Event V E A), Event.unlock])) = 0 := by
  induction k with
  | nil => rfl
  | cons c rest ih => simpa [Event.isCallback] using ih

theorem filter_isAction_mutex (k : List (Call V E A)) :
    List.filter Event.isAction
      (k.flatMap (fun _ => [(Event.lock : Event V E A), Event.unlock])) = [] := by
  induction k with
  | nil => rfl
  | cons c rest ih => simpa [Event.isAction] using ih

end Sequences

/-! ## Invariants and scenarios -/

section Scenarios

variable {V E A OnNext OnError OnDone : Type}

/-- C11: the flag `_terminated` is monotonic.  A channel starts with
`_terminated = false`.  For arbitrary user code, every call (`putNext`, `putError`,
`putDone`, `setLifetime`, `terminate`) and every sequence of calls that returns on a
channel whose flag is set leaves the flag set, so nothing re-arms the channel.  And
such a call does return on a terminated channel with a free mutex, leaving the state as
it was, as soon as the actions of a registry it supplies make no call themselves. -/
theorem terminated_is_monotonic (uc : UserCode V E A OnNext OnError OnDone)
    (next : OnNext) (error : OnError) (done : OnDone) :
    (consumer_instance.construct next error done :
        consumer_instance A OnNext OnError OnDone)._terminated = false
      ∧ (∀ (n : Nat) (c : Call V E A) (s s1 : consumer_instance A OnNext OnError OnDone)
          (r : Option Bool) (t : List (Event V E A)),
          s._terminated = true → exec uc n c s = .ok (r, s1, t) → s1._terminated = true)
      ∧ (∀ (n : Nat) (cs : List (Call V E A))
          (s s1 : consumer_instance A OnNext OnError OnDone)
          (rs : List (Option Bool)) (t : List (Event V E A)),
          s._terminated = true → runCalls (exec uc n) cs s = .ok (rs, s1, t) →
          s1._terminated = true)
      ∧ (∀ (n : Nat) (c : Call V E A) (s : consumer_instance A OnNext OnError OnDone),
          s._terminated = true → s._mutex = false →
          (∀ l, c = Call.setLifetime l → ∀ a ∈ l._callbacks, uc.action a = []) →
          ∃ r t, exec uc (n + 1) c s = .ok (r, s, t)) := by
  refine ⟨rfl, fun n c s s1 r t hT h => exec_monotone uc n c s s1 r t hT h,
    fun n cs s s1 rs t hT h => runCalls_monotone uc n cs s s1 rs t hT h,
    fun n c s hT hM hQ => ?_⟩
  cases c with
  | putNext value => exact ⟨_, _, exec_putNext_terminated uc n value s hT hM⟩
  | putError error => exact ⟨_, _, exec_putError_terminated uc n error s hT hM⟩
  | putDone => exact ⟨_, _, exec_putDone_terminated uc n s hT hM⟩
  | terminate => exact ⟨_, _, exec_terminate_terminated uc n s hT hM⟩
  | setLifetime l =>
    exact ⟨_, _, exec_setLifetime_terminated_quiet uc n l s hT hM (hQ l rfl)⟩

theorem terminated_is_monotonic_witness :
    demoFresh._terminated = false
      ∧ exec demoCode 1 (.setLifetime ⟨[1, 2]⟩) demoTerminated
          = .ok (none, demoTerminated,
              [Event.lock, Event.unlock, Event.action 1, Event.action 2])
      ∧ demoTerminated._terminated = true :=
  ⟨(terminated_is_monotonic demoCode () () ()).1, rfl,
    (terminated_is_monotonic demoCode () () ()).2.1 1 (.setLifetime ⟨[1, 2]⟩)
      demoTerminated demoTerminated none _ rfl rfl⟩

/-- C12: let a channel be not terminated (a fresh one in particular) with the registry
`r` attached, and let `c :: cs` be a non-empty sequence of top-level calls, each of them
`putError`, `putDone` or `terminate`, with on-error and on-done bodies and actions of
`r` that make no call on the channel.  Then the sequence returns; the calls after the
first one only acquire and release the mutex; over the whole sequence at most one
callback invocation occurs (by the first call, when it is `putError` or `putDone`) and
the actions run are exactly those of `r`, each once. -/
theorem terminal_calls_fire_once (uc : UserCode V E A OnNext OnError OnDone)
    (n : Nat) (r : lifetime A) (s : consumer_instance A OnNext OnError OnDone)
    (c : Call V E A) (cs : List (Call V E A))
    (hT : s._terminated = false) (hM : s._mutex = false)
    (hc : ∀ c1 ∈ c :: cs, (∃ error, c1 = Call.putError error) ∨ c1 = Call.putDone ∨
      c1 = Call.terminate)
    (hE : ∀ error, uc.error s._error error = []) (hD : uc.done s._done = [])
    (hA : ∀ a ∈ r._callbacks, uc.action a = []) :
    ∃ s1 t0,
      exec uc (n + 1) c { s with _lifetime := r } = .ok (none, s1, t0) ∧
      runCalls (exec uc (n + 1)) (c :: cs) { s with _lifetime := r }
        = .ok (none :: cs.map (fun _ => none), s1,
            t0 ++ cs.flatMap (fun _ => [Event.lock, Event.unlock])) ∧
      s1._terminated = true ∧
      List.countP Event.isCallback
        (t0 ++ cs.flatMap (fun _ => [Event.lock, Event.unlock])) ≤ 1 ∧
      ((c = Call.terminate) →
        List.countP Event.isCallback
          (t0 ++ cs.flatMap (fun _ => [Event.lock, Event.unlock])) = 0) ∧
      List.filter Event.isAction
        (t0 ++ cs.flatMap (fun _ => [Event.lock, Event.unlock]))
        = r._callbacks.map Event.action := by
  have hrest : ∀ s1 : consumer_instance A OnNext OnError OnDone,
      s1._terminated = true → s1._mutex = false →
      runCalls (exec uc (n + 1)) cs s1
        = .ok (cs.map (fun _ => none), s1,
            cs.flatMap (fun _ => [Event.lock, Event.unlock])) :=
    fun s1 h1 h2 => runCalls_terminal_terminated uc n s1 h1 h2 cs
      (fun c1 h => hc c1 (List.mem_cons_of_mem _ h))
  rcases hc c (List.mem_cons_self _ _) with ⟨error, rfl⟩ | rfl | rfl
  · have h1 := exec_putError_quiet uc n error { s with _lifetime := r } hT hM (hE error) hA
    refine ⟨_, _, h1, runCalls_cons_ok _ _ _ _ _ _ _ _ _ _ h1 (hrest _ rfl hM), rfl, ?_, ?_, ?_⟩
    · simp [List.countP_cons, Event.isCallback, countP_isCallback_map_action,
        countP_isCallback_mutex]
    · intro h
      cases h
    · simp [List.filter_cons, Event.isAction, filter_isAction_map_action,
        filter_isAction_mutex]
  · have h1 := exec_putDone_quiet uc n { s with _lifetime := r } hT hM hD hA
    refine ⟨_, _, h1, runCalls_cons_ok _ _ _ _ _ _ _ _ _ _ h1 (hrest _ rfl hM), rfl, ?_, ?_, ?_⟩
    · simp [List.countP_cons, Event.isCallback, countP_isCallback_map_action,
        countP_isCallback_mutex]
    · intro h
      cases h
    · simp [List.filter_cons, Event.isAction, filter_isAction_map_action,
        filter_isAction_mutex]
  · have h1 := exec_terminate_quiet uc n { s with _lifetime := r } hT hM hA
    have h0 : List.countP Event.isCallback
        ((Event.lock :: Event.unlock :: r._callbacks.map (Event.action : A → Event V E A))
          ++ cs.flatMap (fun _ => [Event.lock, Event.unlock])) = 0 := by
      simp [List.countP_cons, Event.isCallback, countP_isCallback_map_action,
        countP_isCallback_mutex]
    refine ⟨_, _, h1, runCalls_cons_ok _ _ _ _ _ _ _ _ _ _ h1 (hrest _ rfl hM), rfl, ?_, ?_, ?_⟩
    · rw [h0]
      exact Nat.zero_le _
    · intro _
      exact h0
    · simp [List.filter_cons, Event.isAction, filter_isAction_map_action,
        filter_isAction_mutex]

theorem terminal_calls_fire_once_witness :
    demoFresh._terminated = false ∧ demoFresh._mutex = false
      ∧ ∃ s1 t0,
          exec demoCode 1 (.putError 404) demoAttached = .ok (none, s1, t0) ∧
          runCalls (exec demoCode 1) [.putError 404, .putDone, .terminate, .putError 5]
              demoAttached
            = .ok ([none, none, none, none], s1,
                t0 ++ [Event.lock, Event.unlock, Event.lock, Event.unlock,
                  Event.lock, Event.unlock]) ∧
          s1._terminated = true ∧
          List.countP Event.isCallback
            (t0 ++ [Event.lock, Event.unlock, Event.lock, Event.unlock,
              Event.lock, Event.unlock]) ≤ 1 ∧
          List.filter Event.isAction
            (t0 ++ [Event.lock, Event.unlock, Event.lock, Event.unlock,
              Event.lock, Event.unlock])
            = [Event.action 1, Event.action 2] := by
  obtain ⟨s1, t0, h1, h2, h3, h4, -, h6⟩ :=
    terminal_calls_fire_once demoCode 0 ⟨[1, 2]⟩ demoFresh (.putError 404)
      [.putDone, .terminate, .putError 5] rfl rfl
      (by
        intro c1 h
        simp only [List.mem_cons, List.mem_singleton, List.not_mem_nil, or_false] at h
        rcases h with rfl | rfl | rfl | rfl
        · exact Or.inl ⟨404, rfl⟩
        · exact Or.inr (Or.inl rfl)
        · exact Or.inr (Or.inr rfl)
        · exact Or.inl ⟨5, rfl⟩)
      (fun _ => rfl) rfl (fun _ _ => rfl)
  exact ⟨rfl, rfl, s1, t0, h1, h2, h3, h4, h6⟩

theorem valuesDelivered_append (t1 t2 : List (Event V E A)) :
    valuesDelivered (t1 ++ t2) = valuesDelivered t1 ++ valuesDelivered t2 := by
  simp [valuesDelivered, List.filterMap_append]

theorem valuesDelivered_deliveries (vs : List V) :
    valuesDelivered
      (vs.flatMap (fun v => [(Event.lock : Event V E A), Event.unlock, Event.next v]))
      = vs := by
  induction vs with
  | nil => rfl
  | cons v rest ih =>
    have h : valuesDelivered [(Event.lock : Event V E A), Event.unlock, Event.next v] = [v] :=
      rfl
    rw [List.flatMap_cons, valuesDelivered_append, h, ih]
    rfl

theorem valuesDelivered_mutex (ws : List V) :
    valuesDelivered
      (ws.flatMap (fun _ => [(Event.lock : Event V E A), Event.unlock])) = [] := by
  induction ws with
  | nil => rfl
  | cons w rest ih =>
    have h : valuesDelivered [(Event.lock : Event V E A), Event.unlock] = [] := rfl
    rw [List.flatMap_cons, valuesDelivered_append, h, ih]
    rfl

theorem doneSignalled_deliveries (vs : List V) :
    doneSignalled
      (vs.flatMap (fun v => [(Event.lock : Event V E A), Event.unlock, Event.next v]))
      = false := by
  induction vs with
  | nil => rfl
  | cons v rest ih =>
    unfold doneSignalled at ih ⊢
    simp only [List.flatMap_cons, List.any_append, ih]
    rfl

/-- C13: on a fresh channel whose on-value and on-done bodies make no call on the
channel (an on-value handler that appends to a list `L`, an on-done handler that sets a
flag `D`): `putNext` on each element of `vs` in order returns `true` every time and the
values handed to the on-value handler are exactly `vs`, in order, with `D` not set; the
following `putDone()` invokes the on-done handler; every later `putNext` returns
`false`, and over the whole run the values handed to the on-value handler are still
exactly `vs`. -/
theorem deliveries_then_done (uc : UserCode V E A OnNext OnError OnDone) (n : Nat)
    (next : OnNext) (error : OnError) (done : OnDone) (vs ws : List V)
    (hN : ∀ v ∈ vs, uc.next next v = []) (hD : uc.done done = []) :
    ∃ t1 t2,
      runCalls (exec uc (n + 1)) (vs.map Call.putNext)
          (consumer_instance.construct next error done)
        = .ok (vs.map (fun _ => some true), consumer_instance.construct next error done, t1)
      ∧ valuesDelivered t1 = vs ∧ doneSignalled t1 = false
      ∧ runCalls (exec uc (n + 1))
          (vs.map Call.putNext ++ Call.putDone :: ws.map Call.putNext)
          (consumer_instance.construct next error done)
        = .ok (vs.map (fun _ => some true) ++ none :: ws.map (fun _ => some false),
            { (consumer_instance.construct next error done :
                consumer_instance A OnNext OnError OnDone) with
              _terminated := true, _done := uc.movedDone done },
            t1 ++ t2)
      ∧ t1 = vs.flatMap (fun v => [Event.lock, Event.unlock, Event.next v])
      ∧ t2 = [Event.lock, Event.unlock, Event.done, Event.lock, Event.unlock]
              ++ ws.flatMap (fun _ => [Event.lock, Event.unlock])
      ∧ valuesDelivered (t1 ++ t2) = vs ∧ doneSignalled (t1 ++ t2) = true := by
  have h1 := runCalls_putNext_quiet uc n
    (consumer_instance.construct next error done : consumer_instance A OnNext OnError OnDone)
    rfl rfl vs hN
  have h2 := exec_putDone_quiet uc n
    (consumer_instance.construct next error done : consumer_instance A OnNext OnError OnDone)
    rfl rfl hD (fun a ha => by cases ha)
  have h3 := runCalls_putNext_terminated uc n
    ({ (consumer_instance.construct next error done :
          consumer_instance A OnNext OnError OnDone) with
        _terminated := true, _done := uc.movedDone done }) rfl rfl ws
  have h4 := runCalls_cons_ok _ _ _ _ _ _ _ _ _ _ h2 h3
  have h5 := runCalls_append_ok _ _ _ _ _ _ _ _ _ _ h1 h4
  refine ⟨_, _, h1, valuesDelivered_deliveries vs, doneSignalled_deliveries vs, h5, rfl, ?_,
    ?_, ?_⟩
  · simp [consumer_instance.construct, lifetime.empty]
  · rw [valuesDelivered_append, valuesDelivered_deliveries, valuesDelivered_append]
    have h : valuesDelivered
        ((Event.lock : Event V E A) :: Event.unlock :: Event.done :: Event.lock ::
          Event.unlock :: List.map Event.action
            (consumer_instance.construct next error done :
              consumer_instance A OnNext OnError OnDone)._lifetime._callbacks) = [] := rfl
    rw [h, valuesDelivered_mutex]
    simp
  · simp [doneSignalled]

theorem deliveries_then_done_witness :
    (∀ v ∈ [1, 2], demoCode.next () v = []) ∧ demoCode.done () = [] ∧ ∃ t1 t2,
      runCalls (exec demoCode 1) [.putNext 1, .putNext 2] demoFresh
        = .ok ([some true, some true], demoFresh, t1)
      ∧ valuesDelivered t1 = [1, 2] ∧ doneSignalled t1 = false
      ∧ runCalls (exec demoCode 1) [.putNext 1, .putNext 2, .putDone, .putNext 3] demoFresh
        = .ok ([some true, some true, none, some false], demoTerminated, t1 ++ t2)
      ∧ valuesDelivered (t1 ++ t2) = [1, 2] ∧ doneSignalled (t1 ++ t2) = true := by
  obtain ⟨t1, t2, h1, h2, h3, h4, -, -, h7, h8⟩ :=
    deliveries_then_done demoCode 0 () () () [1, 2] [3] (by decide) rfl
  exact ⟨by decide, rfl, t1, t2, h1, h2, h3, h4, h7, h8⟩

end Scenarios

/-! ## Handlers that call back into their channel -/

section Reentrant

variable {V E A OnNext OnError OnDone : Type}

theorem discard_ok (x : Outcome V E A OnNext OnError OnDone (List (Option Bool))) :
    discard (.ok x) = .ok ((), x.2) := rfl

theorem exec_putError_active (uc : UserCode V E A OnNext OnError OnDone) (n : Nat)
    (error : E) (s s1 s2 : consumer_instance A OnNext OnError OnDone)
    (rs : List (Option Bool)) (t1 t2 : List (Event V E A))
    (hT : s._terminated = false) (hM : s._mutex = false)
    (hB : runCalls (exec uc n) (uc.error s._error error)
      { s with _error := uc.movedError s._error } = .ok (rs, s1, t1))
    (hF : terminate (nested uc n) uc s1 = .ok ((), s2, t2)) :
    exec uc (n + 1) (.putError error) s
      = .ok (none, s2, Event.lock :: Event.unlock :: Event.error error :: t1 ++ t2) := by
  obtain ⟨l, t, m, nx, er, dn⟩ := s
  simp only at hT hM hB
  subst hT hM
  have hF1 : terminate (fun body s0 => discard (runCalls (exec uc n) body s0)) uc s1
      = .ok ((), s2, t2) := hF
  simp [exec, putError, acquire, release, Except.map, bind, Except.bind, pure, Except.pure,
    hB, hF1, discard_ok]

theorem exec_putDone_active (uc : UserCode V E A OnNext OnError OnDone) (n : Nat)
    (s s1 s2 : consumer_instance A OnNext OnError OnDone)
    (rs : List (Option Bool)) (t1 t2 : List (Event V E A))
    (hT : s._terminated = false) (hM : s._mutex = false)
    (hB : runCalls (exec uc n) (uc.done s._done)
      { s with _done := uc.movedDone s._done } = .ok (rs, s1, t1))
    (hF : terminate (nested uc n) uc s1 = .ok ((), s2, t2)) :
    exec uc (n + 1) .putDone s
      = .ok (none, s2, Event.lock :: Event.unlock :: Event.done :: t1 ++ t2) := by
  obtain ⟨l, t, m, nx, er, dn⟩ := s
  simp only at hT hM hB
  subst hT hM
  have hF1 : terminate (fun body s0 => discard (runCalls (exec uc n) body s0)) uc s1
      = .ok ((), s2, t2) := hF
  simp [exec, putDone, acquire, release, Except.map, bind, Except.bind, pure, Except.pure,
    hB, hF1, discard_ok]

/-- A body that consists of the single call `terminate()`, run on a channel that is
not terminated, with stored actions that make no call. -/
theorem runCalls_terminate_quiet (uc : UserCode V E A OnNext OnError OnDone) (n : Nat)
    (s : consumer_instance A OnNext OnError OnDone)
    (hT : s._terminated = false) (hM : s._mutex = false)
    (hA : ∀ a ∈ s._lifetime._callbacks, uc.action a = []) :
    runCalls (exec uc (n + 1)) [Call.terminate] s
      = .ok ([none], { s with _terminated := true, _lifetime := lifetime.empty },
          Event.lock :: Event.unlock :: s._lifetime._callbacks.map Event.action) := by
  simpa using runCalls_cons_ok _ _ [] _ _ _ _ [] _ []
    (exec_terminate_quiet uc n s hT hM hA) rfl

/-- Every `putError` that returns on a channel that was not terminated decomposes
into the run of the handler's body followed by the call of `terminate()`. -/
theorem exec_putError_shape (uc : UserCode V E A OnNext OnError OnDone) (n : Nat)
    (error : E) (s s2 : consumer_instance A OnNext OnError OnDone) (r : Option Bool)
    (t : List (Event V E A))
    (hT : s._terminated = false) (hM : s._mutex = false)
    (h : exec uc (n + 1) (.putError error) s = .ok (r, s2, t)) :
    ∃ rs s1 t1 t2,
      runCalls (exec uc n) (uc.error s._error error)
          { s with _error := uc.movedError s._error } = .ok (rs, s1, t1) ∧
        terminate (nested uc n) uc s1 = .ok ((), s2, t2) ∧
        t = Event.lock :: Event.unlock :: Event.error error :: t1 ++ t2 := by
  simp only [exec] at h
  obtain ⟨⟨b, s3, t3⟩, h1, h⟩ := map_ok_inv _ _ _ h
  simp only [Prod.mk.injEq] at h
  obtain ⟨-, e2, e3⟩ := h
  subst e2 e3
  obtain ⟨r1, s1, t1, r2, t2, h2, h3, e⟩ := putError_active_inv _ uc error s s3 b t3 hT hM h1
  obtain ⟨rs, h4⟩ := discard_ok_inv _ _ _ _ h2
  exact ⟨rs, s1, t1, t2, h4, h3, e⟩

/-- Every `putDone` that returns on a channel that was not terminated decomposes into
the run of the handler's body followed by the call of `terminate()`. -/
theorem exec_putDone_shape (uc : UserCode V E A OnNext OnError OnDone) (n : Nat)
    (s s2 : consumer_instance A OnNext OnError OnDone) (r : Option Bool)
    (t : List (Event V E A))
    (hT : s._terminated = false) (hM : s._mutex = false)
    (h : exec uc (n + 1) .putDone s = .ok (r, s2, t)) :
    ∃ rs s1 t1 t2,
      runCalls (exec uc n) (uc.done s._done)
          { s with _done := uc.movedDone s._done } = .ok (rs, s1, t1) ∧
        terminate (nested uc n) uc s1 = .ok ((), s2, t2) ∧
        t = Event.lock :: Event.unlock :: Event.done :: t1 ++ t2 := by
  simp only [exec] at h
  obtain ⟨⟨b, s3, t3⟩, h1, h⟩ := map_ok_inv _ _ _ h
  simp only [Prod.mk.injEq] at h
  obtain ⟨-, e2, e3⟩ := h
  subst e2 e3
  obtain ⟨r1, s1, t1, r2, t2, h2, h3, e⟩ := putDone_active_inv _ uc s s3 b t3 hT hM h1
  obtain ⟨rs, h4⟩ := discard_ok_inv _ _ _ _ h2
  exact ⟨rs, s1, t1, t2, h4, h3, e⟩

/-- A body that consists of the single call `putNext(value)`, run on a channel that
is not terminated, with an on-value body that makes no call. -/
theorem runCalls_putNext_single (uc : UserCode V E A OnNext OnError OnDone) (n : Nat)
    (value : V) (s : consumer_instance A OnNext OnError OnDone)
    (hT : s._terminated = false) (hM : s._mutex = false)
    (hN : uc.next s._next value = []) :
    runCalls (exec uc (n + 1)) [Call.putNext value] s
      = .ok ([some true], s, [Event.lock, Event.unlock, Event.next value]) := by
  have h := runCalls_putNext_quiet uc n s hT hM [value]
    (fun v hv => by rw [List.mem_singleton.1 hv]; exact hN)
  simpa using h

/-- C15: let a channel be not terminated, with a stored registry whose actions make
no call on the channel.  If the body of the on-value handler (invoked by `putNext`), of
the on-error handler (invoked by `putError`) or of the on-done handler (invoked by
`putDone`) calls `terminate()` on its own channel, the enclosing call returns (`putNext`
returns `true`), the channel ends terminated with an empty registry, and each stored
action has been run exactly once: by the `terminate()` of the handler; the `terminate()`
that `putError` and `putDone` make afterwards only acquires and releases the mutex. -/
theorem handler_may_terminate (uc : UserCode V E A OnNext OnError OnDone) (n : Nat)
    (s : consumer_instance A OnNext OnError OnDone)
    (hT : s._terminated = false) (hM : s._mutex = false)
    (hA : ∀ a ∈ s._lifetime._callbacks, uc.action a = []) :
    (∀ value, uc.next s._next value = [Call.terminate] →
        exec uc (n + 2) (.putNext value) s
          = .ok (some true, { s with _terminated := true, _lifetime := lifetime.empty },
              Event.lock :: Event.unlock :: Event.next value ::
                Event.lock :: Event.unlock :: s._lifetime._callbacks.map Event.action))
      ∧ (∀ error, uc.error s._error error = [Call.terminate] →
          exec uc (n + 2) (.putError error) s
            = .ok (none,
                { s with _terminated := true, _lifetime := lifetime.empty,
                         _error := uc.movedError s._error },
                Event.lock :: Event.unlock :: Event.error error ::
                  (Event.lock :: Event.unlock :: s._lifetime._callbacks.map Event.action)
                    ++ [Event.lock, Event.unlock]))
      ∧ (uc.done s._done = [Call.terminate] →
          exec uc (n + 2) .putDone s
            = .ok (none,
                { s with _terminated := true, _lifetime := lifetime.empty,
                         _done := uc.movedDone s._done },
                Event.lock :: Event.unlock :: Event.done ::
                  (Event.lock :: Event.unlock :: s._lifetime._callbacks.map Event.action)
                    ++ [Event.lock, Event.unlock])) := by
  refine ⟨fun value hN => ?_, fun error hE => ?_, fun hD => ?_⟩
  · apply exec_putNext_active uc (n + 1) value s _ [none] _ hT hM
    rw [hN]
    exact runCalls_terminate_quiet uc n s hT hM hA
  · apply exec_putError_active uc (n + 1) error s _ _ [none] _ _ hT hM
    · rw [hE]
      exact runCalls_terminate_quiet uc n { s with _error := uc.movedError s._error } hT hM hA
    · exact terminate_of_terminated _ uc _ rfl hM
  · apply exec_putDone_active uc (n + 1) s _ _ [none] _ _ hT hM
    · rw [hD]
      exact runCalls_terminate_quiet uc n { s with _done := uc.movedDone s._done } hT hM hA
    · exact terminate_of_terminated _ uc _ rfl hM

theorem handler_may_terminate_witness :
    (scriptedChannel [.terminate] [.terminate] [.terminate] [1, 2])._terminated = false
      ∧ (scriptedChannel [.terminate] [.terminate] [.terminate] [1, 2])._mutex = false
      ∧ exec scripted 2 (.putNext 5)
            (scriptedChannel [.terminate] [.terminate] [.terminate] [1, 2])
          = .ok (some true,
              { scriptedChannel [.terminate] [.terminate] [.terminate] [] with
                _terminated := true },
              [Event.lock, Event.unlock, Event.next 5, Event.lock, Event.unlock,
                Event.action 1, Event.action 2])
      ∧ exec scripted 2 (.putError 404)
            (scriptedChannel [.terminate] [.terminate] [.terminate] [1, 2])
          = .ok (none,
              { scriptedChannel [.terminate] [.terminate] [.terminate] [] with
                _terminated := true },
              [Event.lock, Event.unlock, Event.error 404, Event.lock, Event.unlock,
                Event.action 1, Event.action 2, Event.lock, Event.unlock])
      ∧ exec scripted 2 .putDone
            (scriptedChannel [.terminate] [.terminate] [.terminate] [1, 2])
          = .ok (none,
              { scriptedChannel [.terminate] [.terminate] [.terminate] [] with
                _terminated := true },
              [Event.lock, Event.unlock, Event.done, Event.lock, Event.unlock,
                Event.action 1, Event.action 2, Event.lock, Event.unlock]) :=
  ⟨rfl, rfl,
    (handler_may_terminate scripted 0
      (scriptedChannel [.terminate] [.terminate] [.terminate] [1, 2]) rfl rfl
      (fun _ _ => rfl)).1 5 rfl,
    (handler_may_terminate scripted 0
      (scriptedChannel [.terminate] [.terminate] [.terminate] [1, 2]) rfl rfl
      (fun _ _ => rfl)).2.1 404 rfl,
    (handler_may_terminate scripted 0
      (scriptedChannel [.terminate] [.terminate] [.terminate] [1, 2]) rfl rfl
      (fun _ _ => rfl)).2.2 rfl⟩

end Reentrant

/-! ## The registry and the order of effects -/

section Registry

variable {V E A OnNext OnError OnDone : Type}

/-- C17: on a channel that is not terminated, `setLifetime(a)` followed by
`setLifetime(b)` leaves `b` as the stored registry (it replaces `a`, the two are not
merged); neither call runs an action, so the second call does not run the actions of
`a`; and a later `terminate()` runs exactly the actions of `b`, each once, when they
make no call on the channel. -/
theorem second_setLifetime_supersedes (uc : UserCode V E A OnNext OnError OnDone)
    (n : Nat) (a b : lifetime A) (s : consumer_instance A OnNext OnError OnDone)
    (hT : s._terminated = false) (hM : s._mutex = false) :
    runCalls (exec uc (n + 1)) [.setLifetime a, .setLifetime b] s
        = .ok ([none, none], { s with _lifetime := b },
            [Event.lock, Event.unlock, Event.lock, Event.unlock])
      ∧ ((∀ x ∈ b._callbacks, uc.action x = []) →
          runCalls (exec uc (n + 1)) [.setLifetime a, .setLifetime b, .terminate] s
            = .ok ([none, none, none],
                { s with _terminated := true, _lifetime := lifetime.empty },
                [Event.lock, Event.unlock, Event.lock, Event.unlock] ++
                  (Event.lock :: Event.unlock :: b._callbacks.map Event.action))) := by
  have h1 := exec_setLifetime_active uc n a s hT hM
  have h2 := exec_setLifetime_active uc n b { s with _lifetime := a } hT hM
  refine ⟨?_, fun hB => ?_⟩
  · have h3 := runCalls_cons_ok _ _ [] _ _ _ _ [] _ [] h2 rfl
    simpa using runCalls_cons_ok _ _ _ _ _ _ _ _ _ _ h1 h3
  · have h3 := exec_terminate_quiet uc n { s with _lifetime := b } hT hM hB
    have h4 := runCalls_cons_ok _ _ [] _ _ _ _ [] _ [] h3 rfl
    have h5 := runCalls_cons_ok _ _ _ _ _ _ _ _ _ _ h2 h4
    simpa using runCalls_cons_ok _ _ _ _ _ _ _ _ _ _ h1 h5

theorem second_setLifetime_supersedes_witness :
    demoFresh._terminated = false ∧ demoFresh._mutex = false
      ∧ runCalls (exec demoCode 1) [.setLifetime ⟨[7, 8]⟩, .setLifetime ⟨[1, 2]⟩] demoFresh
          = .ok ([none, none], demoAttached,
              [Event.lock, Event.unlock, Event.lock, Event.unlock])
      ∧ runCalls (exec demoCode 1)
            [.setLifetime ⟨[7, 8]⟩, .setLifetime ⟨[1, 2]⟩, .terminate] demoFresh
          = .ok ([none, none, none], demoTerminated,
              [Event.lock, Event.unlock, Event.lock, Event.unlock, Event.lock, Event.unlock,
                Event.action 1, Event.action 2]) :=
  ⟨rfl, rfl,
    (second_setLifetime_supersedes demoCode 0 ⟨[7, 8]⟩ ⟨[1, 2]⟩ demoFresh rfl rfl).1,
    (second_setLifetime_supersedes demoCode 0 ⟨[7, 8]⟩ ⟨[1, 2]⟩ demoFresh rfl rfl).2
      (fun _ _ => rfl)⟩

/-- C19: moving a registry hands all its actions to the new owner and leaves the
source holding 0 actions.  Destroying the moved-from source runs nothing.  Destroying
the new owner runs each of the actions exactly once (for actions that make no call on
the channel) and leaves it empty too.  This is what `terminate()` relies on: on a
channel that is not terminated and stores the registry, it runs each action once and
leaves an empty registry stored. -/
theorem moved_registry_runs_once (uc : UserCode V E A OnNext OnError OnDone) (n : Nat)
    (l : lifetime A) (s : consumer_instance A OnNext OnError OnDone) :
    (lifetime.move l).1 = l
      ∧ (lifetime.move l).2._callbacks.length = 0
      ∧ lifetime.destroy (nested uc n) uc (lifetime.move l).2 s
          = .ok (lifetime.empty, s, [])
      ∧ ((∀ a ∈ l._callbacks, uc.action a = []) →
          lifetime.destroy (nested uc n) uc (lifetime.move l).1 s
              = .ok (lifetime.empty, s, l._callbacks.map Event.action)
            ∧ (s._terminated = false → s._mutex = false →
                exec uc (n + 1) .terminate { s with _lifetime := l }
                  = .ok (none, { s with _terminated := true, _lifetime := lifetime.empty },
                      Event.lock :: Event.unlock :: l._callbacks.map Event.action))) :=
  ⟨rfl, rfl, rfl, fun hA => ⟨destroy_quiet uc n l s hA,
    fun hT hM => exec_terminate_quiet uc n { s with _lifetime := l } hT hM hA⟩⟩

theorem moved_registry_runs_once_witness :
    (lifetime.move (⟨[1, 2]⟩ : lifetime Nat)).1 = ⟨[1, 2]⟩
      ∧ (lifetime.move (⟨[1, 2]⟩ : lifetime Nat)).2._callbacks.length = 0
      ∧ lifetime.destroy (nested demoCode 0) demoCode
            (lifetime.move (⟨[1, 2]⟩ : lifetime Nat)).2 demoFresh
          = .ok (lifetime.empty, demoFresh, [])
      ∧ lifetime.destroy (nested demoCode 0) demoCode
            (lifetime.move (⟨[1, 2]⟩ : lifetime Nat)).1 demoFresh
          = .ok (lifetime.empty, demoFresh, [Event.action 1, Event.action 2]) :=
  ⟨(moved_registry_runs_once demoCode 0 ⟨[1, 2]⟩ demoFresh).1,
    (moved_registry_runs_once demoCode 0 ⟨[1, 2]⟩ demoFresh).2.1,
    (moved_registry_runs_once demoCode 0 ⟨[1, 2]⟩ demoFresh).2.2.1,
    ((moved_registry_runs_once demoCode 0 ⟨[1, 2]⟩ demoFresh).2.2.2 (fun _ _ => rfl)).1⟩

/-- C20: in `putError` and `putDone` on a channel that is not terminated the handler
comes first.  For arbitrary user code, a call that returns consists of: the handler
invoked; its body run to its end, starting on the channel as it was (flag not set,
registry still stored) except for the moved-from handler; and only then `terminate()`,
run on the state the body left.  With a body and actions that make no call on the
channel the events are exactly: handler, then the termination transition with each
stored action.  A handler body that calls `putNext(value)` finds the channel not
terminated: the value is delivered to the on-value handler, before any action runs. -/
theorem handler_runs_before_termination (uc : UserCode V E A OnNext OnError OnDone)
    (n : Nat) (s : consumer_instance A OnNext OnError OnDone)
    (hT : s._terminated = false) (hM : s._mutex = false) :
    (∀ error res s2 t, exec uc (n + 1) (.putError error) s = .ok (res, s2, t) →
        ∃ rs s1 t1 t2,
          runCalls (exec uc n) (uc.error s._error error)
              { s with _error := uc.movedError s._error } = .ok (rs, s1, t1) ∧
            terminate (nested uc n) uc s1 = .ok ((), s2, t2) ∧
            t = Event.lock :: Event.unlock :: Event.error error :: t1 ++ t2)
      ∧ (∀ res s2 t, exec uc (n + 1) .putDone s = .ok (res, s2, t) →
          ∃ rs s1 t1 t2,
            runCalls (exec uc n) (uc.done s._done)
                { s with _done := uc.movedDone s._done } = .ok (rs, s1, t1) ∧
              terminate (nested uc n) uc s1 = .ok ((), s2, t2) ∧
              t = Event.lock :: Event.unlock :: Event.done :: t1 ++ t2)
      ∧ ((∀ a ∈ s._lifetime._callbacks, uc.action a = []) →
          (∀ error, uc.error s._error error = [] →
              exec uc (n + 1) (.putError error) s
                = .ok (none,
                    { s with _terminated := true, _lifetime := lifetime.empty,
                             _error := uc.movedError s._error },
                    Event.lock :: Event.unlock :: Event.error error ::
                      Event.lock :: Event.unlock ::
                        s._lifetime._callbacks.map Event.action))
            ∧ (uc.done s._done = [] →
                exec uc (n + 1) .putDone s
                  = .ok (none,
                      { s with _terminated := true, _lifetime := lifetime.empty,
                               _done := uc.movedDone s._done },
                      Event.lock :: Event.unlock :: Event.done ::
                        Event.lock :: Event.unlock ::
                          s._lifetime._callbacks.map Event.action))
            ∧ (∀ error value, uc.error s._error error = [Call.putNext value] →
                uc.next s._next value = [] →
                exec uc (n + 2) (.putError error) s
                  = .ok (none,
                      { s with _terminated := true, _lifetime := lifetime.empty,
                               _error := uc.movedError s._error },
                      Event.lock :: Event.unlock :: Event.error error ::
                        [Event.lock, Event.unlock, Event.next value] ++
                          (Event.lock :: Event.unlock ::
                            s._lifetime._callbacks.map Event.action)))
            ∧ (∀ value, uc.done s._done = [Call.putNext value] →
                uc.next s._next value = [] →
                exec uc (n + 2) .putDone s
                  = .ok (none,
                      { s with _terminated := true, _lifetime := lifetime.empty,
                               _done := uc.movedDone s._done },
                      Event.lock :: Event.unlock :: Event.done ::
                        [Event.lock, Event.unlock, Event.next value] ++
                          (Event.lock :: Event.unlock ::
                            s._lifetime._callbacks.map Event.action)))) := by
  refine ⟨fun error res s2 t h => exec_putError_shape uc n error s s2 res t hT hM h,
    fun res s2 t h => exec_putDone_shape uc n s s2 res t hT hM h,
    fun hA => ⟨fun error hE => exec_putError_quiet uc n error s hT hM hE hA,
      fun hD => exec_putDone_quiet uc n s hT hM hD hA,
      fun error value hE hN => ?_, fun value hD hN => ?_⟩⟩
  · apply exec_putError_active uc (n + 1) error s _ _ [some true] _ _ hT hM
    · rw [hE]
      exact runCalls_putNext_single uc n value
        { s with _error := uc.movedError s._error } hT hM hN
    · exact terminate_quiet uc (n + 1) { s with _error := uc.movedError s._error } hT hM hA
  · apply exec_putDone_active uc (n + 1) s _ _ [some true] _ _ hT hM
    · rw [hD]
      exact runCalls_putNext_single uc n value
        { s with _done := uc.movedDone s._done } hT hM hN
    · exact terminate_quiet uc (n + 1) { s with _done := uc.movedDone s._done } hT hM hA

theorem handler_runs_before_termination_witness :
    (scriptedChannel [] [.putNext 7] [.putNext 8] [1, 2])._terminated = false
      ∧ (scriptedChannel [] [.putNext 7] [.putNext 8] [1, 2])._mutex = false
      ∧ exec scripted 2 (.putError 404) (scriptedChannel [] [.putNext 7] [.putNext 8] [1, 2])
          = .ok (none,
              { scriptedChannel [] [.putNext 7] [.putNext 8] [] with _terminated := true },
              [Event.lock, Event.unlock, Event.error 404,
                Event.lock, Event.unlock, Event.next 7,
                Event.lock, Event.unlock, Event.action 1, Event.action 2])
      ∧ exec scripted 2 .putDone (scriptedChannel [] [.putNext 7] [.putNext 8] [1, 2])
          = .ok (none,
              { scriptedChannel [] [.putNext 7] [.putNext 8] [] with _terminated := true },
              [Event.lock, Event.unlock, Event.done,
                Event.lock, Event.unlock, Event.next 8,
                Event.lock, Event.unlock, Event.action 1, Event.action 2]) :=
  ⟨rfl, rfl,
    ((handler_runs_before_termination scripted 0
      (scriptedChannel [] [.putNext 7] [.putNext 8] [1, 2]) rfl rfl).2.2
        (fun _ _ => rfl)).2.2.1 404 7 rfl rfl,
    ((handler_runs_before_termination scripted 0
      (scriptedChannel [] [.putNext 7] [.putNext 8] [1, 2]) rfl rfl).2.2
        (fun _ _ => rfl)).2.2.2 8 rfl rfl⟩

end Registry

/-! ## The mutex is never held while user code runs -/

section Mutex

variable {V E A OnNext OnError OnDone : Type}

theorem heldAfter_append (t1 t2 : List (Event V E A)) :
    ∀ held, heldAfter held (t1 ++ t2) = heldAfter (heldAfter held t1) t2 := by
  induction t1 with
  | nil => intro held; rfl
  | cons ev rest ih =>
    intro held
    cases ev <;> simp [heldAfter, ih]

theorem freeAtUserCode_append (t1 t2 : List (Event V E A)) :
    ∀ held, freeAtUserCode held (t1 ++ t2)
      = (freeAtUserCode held t1 && freeAtUserCode (heldAfter held t1) t2) := by
  induction t1 with
  | nil => intro held; simp [freeAtUserCode, heldAfter]
  | cons ev rest ih =>
    intro held
    cases ev <;> simp [freeAtUserCode, heldAfter, ih, Bool.and_assoc]

theorem released_nil : Released ([] : List (Event V E A)) := ⟨rfl, rfl⟩

theorem released_append (t1 t2 : List (Event V E A)) (h1 : Released t1) (h2 : Released t2) :
    Released (t1 ++ t2) := by
  constructor
  · rw [freeAtUserCode_append, h1.1, h1.2, h2.1]
    rfl
  · rw [heldAfter_append, h1.2, h2.2]

/-- A critical section followed by events with the mutex free. -/
theorem released_section (t : List (Event V E A)) (h : Released t) :
    Released (Event.lock :: Event.unlock :: t) := h

theorem released_user (ev : Event V E A) (hev : Event.isUserCode ev = true)
    (t : List (Event V E A)) (h : Released t) : Released (ev :: t) := by
  cases ev with
  | lock => cases hev
  | unlock => cases hev
  | next v => exact ⟨by simpa [freeAtUserCode] using h.1, by simpa [heldAfter] using h.2⟩
  | error e => exact ⟨by simpa [freeAtUserCode] using h.1, by simpa [heldAfter] using h.2⟩
  | done => exact ⟨by simpa [freeAtUserCode] using h.1, by simpa [heldAfter] using h.2⟩
  | action a => exact ⟨by simpa [freeAtUserCode] using h.1, by simpa [heldAfter] using h.2⟩

theorem runCalls_released
    (step : Call V E A → consumer_instance A OnNext OnError OnDone →
      Except Fault (Outcome V E A OnNext OnError OnDone (Option Bool)))
    (hsafe : SafeStep step)
    (hstep : ∀ c s r s1 t, s._mutex = false → step c s = .ok (r, s1, t) → Released t)
    (cs : List (Call V E A)) :
    ∀ (s s2 : consumer_instance A OnNext OnError OnDone) (rs : List (Option Bool))
      (t : List (Event V E A)),
      s._mutex = false → runCalls step cs s = .ok (rs, s2, t) → Released t := by
  induction cs with
  | nil =>
    intro s s2 rs t _ h
    simp only [runCalls, Except.ok.injEq, Prod.mk.injEq] at h
    rw [← h.2.2]
    exact released_nil
  | cons c rest ih =>
    intro s s2 rs t hM h
    simp only [runCalls] at h
    obtain ⟨⟨r, s1, t1⟩, h1, h⟩ := bind_ok_inv _ _ _ h
    obtain ⟨⟨rs1, s3, t2⟩, h2, h⟩ := bind_ok_inv _ _ _ h
    simp only [pure, Except.pure, Except.ok.injEq, Prod.mk.injEq] at h
    obtain ⟨-, -, e3⟩ := h
    subst e3
    exact released_append _ _ (hstep c s r s1 t1 hM h1)
      (ih s1 s3 rs1 t2 (hsafe c s r s1 t1 hM h1).1 h2)

theorem discard_released
    (step : Call V E A → consumer_instance A OnNext OnError OnDone →
      Except Fault (Outcome V E A OnNext OnError OnDone (Option Bool)))
    (hsafe : SafeStep step)
    (hstep : ∀ c s r s1 t, s._mutex = false → step c s = .ok (r, s1, t) → Released t)
    (body : List (Call V E A)) (s s1 : consumer_instance A OnNext OnError OnDone)
    (r : Unit) (t : List (Event V E A)) (hM : s._mutex = false)
    (h : discard (runCalls step body s) = .ok (r, s1, t)) : Released t := by
  obtain ⟨rs, h1⟩ := discard_ok_inv _ _ _ _ h
  exact runCalls_released step hsafe hstep body s s1 rs t hM h1

theorem runActions_released (invoke : Invoke V E A OnNext OnError OnDone)
    (hsafe : SafeInvoke invoke)
    (hinv : ∀ body s r s1 t, s._mutex = false → invoke body s = .ok (r, s1, t) → Released t)
    (body : A → List (Call V E A)) (as : List A) :
    ∀ (s s2 : consumer_instance A OnNext OnError OnDone) (r : Unit)
      (t : List (Event V E A)),
      s._mutex = false → runActions invoke body as s = .ok (r, s2, t) → Released t := by
  induction as with
  | nil =>
    intro s s2 r t _ h
    simp only [runActions, Except.ok.injEq, Prod.mk.injEq] at h
    rw [← h.2.2]
    exact released_nil
  | cons a rest ih =>
    intro s s2 r t hM h
    simp only [runActions] at h
    obtain ⟨⟨r1, s1, t1⟩, h1, h⟩ := bind_ok_inv _ _ _ h
    obtain ⟨⟨r2, s3, t2⟩, h2, h⟩ := bind_ok_inv _ _ _ h
    simp only [pure, Except.pure, Except.ok.injEq, Prod.mk.injEq] at h
    obtain ⟨-, -, e3⟩ := h
    subst e3
    exact released_user (Event.action a) rfl _ (released_append _ _ (hinv _ s r1 s1 t1 hM h1)
      (ih s1 s3 r2 t2 (hsafe _ s r1 s1 t1 hM h1).1 h2))

theorem destroy_released (invoke : Invoke V E A OnNext OnError OnDone)
    (hsafe : SafeInvoke invoke)
    (hinv : ∀ body s r s1 t, s._mutex = false → invoke body s = .ok (r, s1, t) → Released t)
    (uc : UserCode V E A OnNext OnError OnDone)
    (l l1 : lifetime A) (s s2 : consumer_instance A OnNext OnError OnDone)
    (t : List (Event V E A))
    (hM : s._mutex = false) (h : lifetime.destroy invoke uc l s = .ok (l1, s2, t)) :
    Released t := by
  simp only [lifetime.destroy, lifetime.move] at h
  obtain ⟨⟨r1, s1, t1⟩, h1, h⟩ := bind_ok_inv _ _ _ h
  simp only [pure, Except.pure, Except.ok.injEq, Prod.mk.injEq] at h
  obtain ⟨-, -, e3⟩ := h
  subst e3
  exact runActions_released invoke hsafe hinv uc.action _ s s1 r1 t1 hM h1

theorem terminate_released (invoke : Invoke V E A OnNext OnError OnDone)
    (hsafe : SafeInvoke invoke)
    (hinv : ∀ body s r s1 t, s._mutex = false → invoke body s = .ok (r, s1, t) → Released t)
    (uc : UserCode V E A OnNext OnError OnDone)
    (s s2 : consumer_instance A OnNext OnError OnDone) (r : Unit) (t : List (Event V E A))
    (hM : s._mutex = false) (h : terminate invoke uc s = .ok (r, s2, t)) :
    Released t := by
  cases hT : s._terminated with
  | true =>
    rw [terminate_of_terminated invoke uc s hT hM] at h
    simp only [Except.ok.injEq, Prod.mk.injEq] at h
    rw [← h.2.2]
    exact released_section _ released_nil
  | false =>
    obtain ⟨l1, s1, t1, l2, t2, h1, h2, e⟩ := terminate_active_inv invoke uc s s2 r t hT hM h
    subst e
    have hM1 := (destroy_safe invoke hsafe uc _ _
      { s with _terminated := true, _lifetime := lifetime.empty } _ _ hM h1).2.1
    exact released_section _ (released_append _ _
      (destroy_released invoke hsafe hinv uc _ _
        { s with _terminated := true, _lifetime := lifetime.empty } _ _ hM h1)
      (destroy_released invoke hsafe hinv uc _ _ s1 _ _ hM1 h2))

theorem exec_released (uc : UserCode V E A OnNext OnError OnDone) :
    ∀ (n : Nat) (c : Call V E A) (s s1 : consumer_instance A OnNext OnError OnDone)
      (r : Option Bool) (t : List (Event V E A)),
      s._mutex = false → exec uc n c s = .ok (r, s1, t) → Released t := by
  intro n
  induction n with
  | zero =>
    intro c s s1 r t _ h
    simp [exec] at h
  | succ n ih =>
    have hsafe : SafeInvoke (nested uc n) := discard_safe (exec uc n) (exec_safe uc n)
    have hinv : ∀ body s r s1 t, s._mutex = false → nested uc n body s = .ok (r, s1, t) →
        Released t :=
      fun body s r s1 t hM h => discard_released (exec uc n) (exec_safe uc n)
        (fun c s r s1 t => ih c s s1 r t) body s s1 r t hM h
    intro c s s1 r t hM h
    cases c with
    | putNext value =>
      cases hT : s._terminated with
      | true =>
        rw [exec_putNext_terminated uc n value s hT hM] at h
        simp only [Except.ok.injEq, Prod.mk.injEq] at h
        rw [← h.2.2]
        exact released_section _ released_nil
      | false =>
        simp only [exec] at h
        obtain ⟨⟨b, s2, t2⟩, h1, h⟩ := map_ok_inv _ _ _ h
        simp only [Prod.mk.injEq] at h
        obtain ⟨-, -, e3⟩ := h
        subst e3
        obtain ⟨r1, t1, h2, -, e⟩ := putNext_active_inv _ uc value s s2 b t2 hT hM h1
        subst e
        exact released_section _
          (released_user (Event.next value) rfl _ (hinv _ s r1 s2 t1 hM h2))
    | putError error =>
      cases hT : s._terminated with
      | true =>
        rw [exec_putError_terminated uc n error s hT hM] at h
        simp only [Except.ok.injEq, Prod.mk.injEq] at h
        rw [← h.2.2]
        exact released_section _ released_nil
      | false =>
        simp only [exec] at h
        obtain ⟨⟨b, s2, t2⟩, h1, h⟩ := map_ok_inv _ _ _ h
        simp only [Prod.mk.injEq] at h
        obtain ⟨-, -, e3⟩ := h
        subst e3
        obtain ⟨r1, s3, t1, r2, t3, h2, h3, e⟩ :=
          putError_active_inv _ uc error s s2 b t2 hT hM h1
        subst e
        have hM3 := (hsafe _ { s with _error := uc.movedError s._error } r1 s3 t1 hM h2).1
        exact released_section _ (released_user (Event.error error) rfl _ (released_append _ _
          (hinv _ { s with _error := uc.movedError s._error } r1 s3 t1 hM h2)
          (terminate_released _ hsafe hinv uc s3 s2 r2 t3 hM3 h3)))
    | putDone =>
      cases hT : s._terminated with
      | true =>
        rw [exec_putDone_terminated uc n s hT hM] at h
        simp only [Except.ok.injEq, Prod.mk.injEq] at h
        rw [← h.2.2]
        exact released_section _ released_nil
      | false =>
        simp only [exec] at h
        obtain ⟨⟨b, s2, t2⟩, h1, h⟩ := map_ok_inv _ _ _ h
        simp only [Prod.mk.injEq] at h
        obtain ⟨-, -, e3⟩ := h
        subst e3
        obtain ⟨r1, s3, t1, r2, t3, h2, h3, e⟩ :=
          putDone_active_inv _ uc s s2 b t2 hT hM h1
        subst e
        have hM3 := (hsafe _ { s with _done := uc.movedDone s._done } r1 s3 t1 hM h2).1
        exact released_section _ (released_user Event.done rfl _ (released_append _ _
          (hinv _ { s with _done := uc.movedDone s._done } r1 s3 t1 hM h2)
          (terminate_released _ hsafe hinv uc s3 s2 r2 t3 hM3 h3)))
    | terminate =>
      simp only [exec] at h
      obtain ⟨⟨b, s2, t2⟩, h1, h⟩ := map_ok_inv _ _ _ h
      simp only [Prod.mk.injEq] at h
      obtain ⟨-, -, e3⟩ := h
      subst e3
      exact terminate_released _ hsafe hinv uc s s2 b t2 hM h1
    | setLifetime l =>
      cases hT : s._terminated with
      | true =>
        simp only [exec] at h
        obtain ⟨⟨l1, s2, t2⟩, h1, h⟩ := map_ok_inv _ _ _ h
        simp only [Prod.mk.injEq] at h
        obtain ⟨-, -, e3⟩ := h
        subst e3
        obtain ⟨t1, h2, e⟩ := setLifetime_terminated_inv _ uc l l1 s s2 t2 hT hM h1
        subst e
        exact released_section _ (destroy_released _ hsafe hinv uc l l1 s s2 t1 hM h2)
      | false =>
        rw [exec_setLifetime_active uc n l s hT hM] at h
        simp only [Except.ok.injEq, Prod.mk.injEq] at h
        rw [← h.2.2]
        exact released_section _ released_nil

theorem bind_error_inv {α β : Type} (x : Except Fault α) (f : α → Except Fault β)
    (e : Fault) (h : (x >>= f) = .error e) :
    x = .error e ∨ ∃ a, x = .ok a ∧ f a = .error e := by
  cases x with
  | error e1 =>
    simp only [bind, Except.bind, Except.error.injEq] at h
    exact Or.inl (by rw [h])
  | ok a => exact Or.inr ⟨a, rfl, h⟩

theorem map_error_inv {α β : Type} (x : Except Fault α) (f : α → β) (e : Fault)
    (h : x.map f = .error e) : x = .error e := by
  cases x with
  | error e1 =>
    simp only [Except.map, Except.error.injEq] at h
    rw [h]
  | ok a => simp [Except.map] at h

theorem runCalls_no_deadlock
    (step : Call V E A → consumer_instance A OnNext OnError OnDone →
      Except Fault (Outcome V E A OnNext OnError OnDone (Option Bool)))
    (hsafe : SafeStep step)
    (hstep : ∀ c s, s._mutex = false → step c s ≠ .error Fault.deadlock)
    (cs : List (Call V E A)) :
    ∀ s : consumer_instance A OnNext OnError OnDone,
      s._mutex = false → runCalls step cs s ≠ .error Fault.deadlock := by
  induction cs with
  | nil =>
    intro s _ h
    simp [runCalls] at h
  | cons c rest ih =>
    intro s hM h
    simp only [runCalls] at h
    rcases bind_error_inv _ _ _ h with h1 | ⟨⟨r, s1, t1⟩, h1, h⟩
    · exact hstep c s hM h1
    · rcases bind_error_inv _ _ _ h with h2 | ⟨⟨rs, s2, t2⟩, -, h⟩
      · exact ih s1 (hsafe c s r s1 t1 hM h1).1 h2
      · simp [pure, Except.pure] at h

theorem discard_no_deadlock
    (step : Call V E A → consumer_instance A OnNext OnError OnDone →
      Except Fault (Outcome V E A OnNext OnError OnDone (Option Bool)))
    (hsafe : SafeStep step)
    (hstep : ∀ c s, s._mutex = false → step c s ≠ .error Fault.deadlock)
    (body : List (Call V E A)) (s : consumer_instance A OnNext OnError OnDone)
    (hM : s._mutex = false) :
    discard (runCalls step body s) ≠ .error Fault.deadlock :=
  fun h => runCalls_no_deadlock step hsafe hstep body s hM (map_error_inv _ _ _ h)

theorem runActions_no_deadlock (invoke : Invoke V E A OnNext OnError OnDone)
    (hsafe : SafeInvoke invoke)
    (hinv : ∀ body s, s._mutex = false → invoke body s ≠ .error Fault.deadlock)
    (body : A → List (Call V E A)) (as : List A) :
    ∀ s : consumer_instance A OnNext OnError OnDone,
      s._mutex = false → runActions invoke body as s ≠ .error Fault.deadlock := by
  induction as with
  | nil =>
    intro s _ h
    simp [runActions] at h
  | cons a rest ih =>
    intro s hM h
    simp only [runActions] at h
    rcases bind_error_inv _ _ _ h with h1 | ⟨⟨r, s1, t1⟩, h1, h⟩
    · exact hinv _ s hM h1
    · rcases bind_error_inv _ _ _ h with h2 | ⟨⟨r2, s2, t2⟩, -, h⟩
      · exact ih s1 (hsafe _ s r s1 t1 hM h1).1 h2
      · simp [pure, Except.pure] at h

theorem destroy_no_deadlock (invoke : Invoke V E A OnNext OnError OnDone)
    (hsafe : SafeInvoke invoke)
    (hinv : ∀ body s, s._mutex = false → invoke body s ≠ .error Fault.deadlock)
    (uc : UserCode V E A OnNext OnError OnDone) (l : lifetime A)
    (s : consumer_instance A OnNext OnError OnDone) (hM : s._mutex = false) :
    lifetime.destroy invoke uc l s ≠ .error Fault.deadlock := by
  intro h
  simp only [lifetime.destroy, lifetime.move] at h
  rcases bind_error_inv _ _ _ h with h1 | ⟨⟨r, s1, t1⟩, -, h⟩
  · exact runActions_no_deadlock invoke hsafe hinv uc.action _ s hM h1
  · simp [pure, Except.pure] at h

theorem terminate_no_deadlock (invoke : Invoke V E A OnNext OnError OnDone)
    (hsafe : SafeInvoke invoke)
    (hinv : ∀ body s, s._mutex = false → invoke body s ≠ .error Fault.deadlock)
    (uc : UserCode V E A OnNext OnError OnDone)
    (s : consumer_instance A OnNext OnError OnDone) (hM : s._mutex = false) :
    terminate invoke uc s ≠ .error Fault.deadlock := by
  cases hT : s._terminated with
  | true =>
    rw [terminate_of_terminated invoke uc s hT hM]
    simp
  | false =>
    obtain ⟨l, tm, m, nx, er, dn⟩ := s
    simp only at hT hM
    subst hT hM
    intro h
    simp only [terminate, acquire, release, lifetime.move, lifetime.assign] at h
    rcases bind_error_inv _ _ _ h with h0 | ⟨s0, h0, h⟩
    · simp at h0
    · simp only [Bool.false_eq_true, if_false, Except.ok.injEq] at h0
      subst h0
      simp only [Bool.not_false, if_true] at h
      rcases bind_error_inv _ _ _ h with h1 | ⟨⟨l1, s1, t1⟩, h1, h⟩
      · exact destroy_no_deadlock invoke hsafe hinv uc _ _ rfl h1
      · rcases bind_error_inv _ _ _ h with h2 | ⟨⟨l2, s2, t2⟩, -, h⟩
        · exact destroy_no_deadlock invoke hsafe hinv uc _ s1
            (destroy_safe invoke hsafe uc _ _ _ _ _ rfl h1).2.1 h2
        · simp [pure, Except.pure] at h

theorem exec_no_deadlock (uc : UserCode V E A OnNext OnError OnDone) :
    ∀ (n : Nat) (c : Call V E A) (s : consumer_instance A OnNext OnError OnDone),
      s._mutex = false → exec uc n c s ≠ .error Fault.deadlock := by
  intro n
  induction n with
  | zero =>
    intro c s _ h
    simp [exec] at h
  | succ n ih =>
    have hsafe : SafeInvoke (nested uc n) := discard_safe (exec uc n) (exec_safe uc n)
    have hinv : ∀ body s, s._mutex = false → nested uc n body s ≠ .error Fault.deadlock :=
      fun body s hM => discard_no_deadlock (exec uc n) (exec_safe uc n) ih body s hM
    intro c s hM h
    cases c with
    | terminate =>
      simp only [exec] at h
      exact terminate_no_deadlock _ hsafe hinv uc s hM (map_error_inv _ _ _ h)
    | putNext value =>
      cases hT : s._terminated with
      | true =>
        rw [exec_putNext_terminated uc n value s hT hM] at h
        simp at h
      | false =>
        simp only [exec] at h
        have h := map_error_inv _ _ _ h
        obtain ⟨l, tm, m, nx, er, dn⟩ := s
        simp only at hT hM
        subst hT hM
        simp only [putNext, acquire, release] at h
        rcases bind_error_inv _ _ _ h with h0 | ⟨s0, h0, h⟩
        · simp at h0
        · simp only [Bool.false_eq_true, if_false, Except.ok.injEq] at h0
          subst h0
          simp only [Bool.false_eq_true, if_false] at h
          rcases bind_error_inv _ _ _ h with h1 | ⟨⟨r1, s1, t1⟩, -, h⟩
          · exact hinv _ _ rfl h1
          · simp [pure, Except.pure] at h
    | putError error =>
      cases hT : s._terminated with
      | true =>
        rw [exec_putError_terminated uc n error s hT hM] at h
        simp at h
      | false =>
        simp only [exec] at h
        have h := map_error_inv _ _ _ h
        obtain ⟨l, tm, m, nx, er, dn⟩ := s
        simp only at hT hM
        subst hT hM
        simp only [putError, acquire, release] at h
        rcases bind_error_inv _ _ _ h with h0 | ⟨s0, h0, h⟩
        · simp at h0
        · simp only [Bool.false_eq_true, if_false, Except.ok.injEq] at h0
          subst h0
          simp only [Bool.not_false, if_true] at h
          rcases bind_error_inv _ _ _ h with h1 | ⟨⟨r1, s1, t1⟩, h1, h⟩
          · exact hinv _ _ rfl h1
          · rcases bind_error_inv _ _ _ h with h2 | ⟨⟨r2, s2, t2⟩, -, h⟩
            · exact terminate_no_deadlock _ hsafe hinv uc s1
                (hsafe _ _ r1 s1 t1 rfl h1).1 h2
            · simp [pure, Except.pure] at h
    | putDone =>
      cases hT : s._terminated with
      | true =>
        rw [exec_putDone_terminated uc n s hT hM] at h
        simp at h
      | false =>
        simp only [exec] at h
        have h := map_error_inv _ _ _ h
        obtain ⟨l, tm, m, nx, er, dn⟩ := s
        simp only at hT hM
        subst hT hM
        simp only [putDone, acquire, release] at h
        rcases bind_error_inv _ _ _ h with h0 | ⟨s0, h0, h⟩
        · simp at h0
        · simp only [Bool.false_eq_true, if_false, Except.ok.injEq] at h0
          subst h0
          simp only [Bool.not_false, if_true] at h
          rcases bind_error_inv _ _ _ h with h1 | ⟨⟨r1, s1, t1⟩, h1, h⟩
          · exact hinv _ _ rfl h1
          · rcases bind_error_inv _ _ _ h with h2 | ⟨⟨r2, s2, t2⟩, -, h⟩
            · exact terminate_no_deadlock _ hsafe hinv uc s1
                (hsafe _ _ r1 s1 t1 rfl h1).1 h2
            · simp [pure, Except.pure] at h
    | setLifetime l =>
      cases hT : s._terminated with
      | false =>
        rw [exec_setLifetime_active uc n l s hT hM] at h
        simp at h
      | true =>
        simp only [exec] at h
        have h := map_error_inv _ _ _ h
        obtain ⟨l0, tm, m, nx, er, dn⟩ := s
        simp only at hT hM
        subst hT hM
        simp only [setLifetime, acquire, release] at h
        rcases bind_error_inv _ _ _ h with h0 | ⟨s0, h0, h⟩
        · simp at h0
        · simp only [Bool.false_eq_true, if_false, Except.ok.injEq] at h0
          subst h0
          simp only [if_true] at h
          rcases bind_error_inv _ _ _ h with h1 | ⟨⟨l1, s1, t1⟩, -, h⟩
          · exact destroy_no_deadlock _ hsafe hinv uc _ _ rfl h1
          · simp [pure, Except.pure] at h

/-- C16: in every call (`putNext`, `putError`, `putDone`, `setLifetime`, `terminate`)
started with the mutex free, whatever the user code does and to whatever depth it calls
back into the channel: in the events of a call that returns, the mutex has been released
before every invocation of a callback and before every run of a deferred action, and it
is free again at the end; and no call ever blocks on a mutex that its own thread holds. -/
theorem mutex_released_at_user_code (uc : UserCode V E A OnNext OnError OnDone)
    (n : Nat) (c : Call V E A) (s : consumer_instance A OnNext OnError OnDone)
    (hM : s._mutex = false) :
    (∀ r s1 t, exec uc n c s = .ok (r, s1, t) →
        freeAtUserCode false t = true ∧ heldAfter false t = false ∧ s1._mutex = false)
      ∧ exec uc n c s ≠ .error Fault.deadlock := by
  refine ⟨fun r s1 t h => ?_, exec_no_deadlock uc n c s hM⟩
  obtain ⟨h1, h2⟩ := exec_released uc n c s s1 r t hM h
  exact ⟨h1, h2, ((exec_safe uc n) c s r s1 t hM h).1⟩

theorem mutex_released_at_user_code_witness :
    (scriptedChannel [.terminate] [.putNext 7] [] [1, 2])._mutex = false
      ∧ exec scripted 3 (.putError 404) (scriptedChannel [.terminate] [.putNext 7] [] [1, 2])
          = .ok (none,
              { scriptedChannel [.terminate] [.putNext 7] [] [] with _terminated := true },
              [Event.lock, Event.unlock, Event.error 404,
                Event.lock, Event.unlock, Event.next 7,
                Event.lock, Event.unlock, Event.action 1, Event.action 2,
                Event.lock, Event.unlock])
      ∧ freeAtUserCode false
          ([Event.lock, Event.unlock, Event.error 404,
            Event.lock, Event.unlock, Event.next 7,
            Event.lock, Event.unlock, Event.action 1, Event.action 2,
            Event.lock, Event.unlock] : List (Event Nat Nat Nat)) = true
      ∧ freeAtUserCode false
          ([Event.lock, Event.action 1, Event.unlock] : List (Event Nat Nat Nat)) = false :=
  ⟨rfl, rfl,
    ((mutex_released_at_user_code scripted 3 (.putError 404)
      (scriptedChannel [.terminate] [.putNext 7] [] [1, 2]) rfl).1 _ _ _ rfl).1,
    rfl⟩

end Mutex

/-! ## A handler that makes a terminal call -/

section TerminalInsideHandler

end TerminalInsideHandler

/-! ## Calls that invoke no callback -/

section Once

variable {V E A OnNext OnError OnDone : Type}

theorem isCallback_of_isTerminalCallback (ev : Event V E A)
    (h : Event.isTerminalCallback ev = true) : Event.isCallback ev = true := by
  cases ev <;> simp_all [Event.isTerminalCallback, Event.isCallback]

theorem countP_terminal_of_no_callback (t : List (Event V E A))
    (h : ∀ ev ∈ t, Event.isCallback ev = false) :
    List.countP Event.isTerminalCallback t = 0 := by
  rw [List.countP_eq_zero]
  intro ev hev hterm
  have := isCallback_of_isTerminalCallback ev hterm
  rw [h ev hev] at this
  cases this

/-- A call of `terminate()` or `setLifetime` that returns has invoked no callback. -/
theorem exec_cleanup_only (uc : UserCode V E A OnNext OnError OnDone) (n : Nat)
    (c : Call V E A) (s s1 : consumer_instance A OnNext OnError OnDone)
    (r : Option Bool) (t : List (Event V E A))
    (hc : c = Call.terminate ∨ ∃ l, c = Call.setLifetime l)
    (hM : s._mutex = false) (h : exec uc n c s = .ok (r, s1, t)) :
    ∀ ev ∈ t, Event.isCallback ev = false := by
  cases n with
  | zero => simp [exec] at h
  | succ n =>
    have hinv : SafeInvoke (nested uc n) := discard_safe (exec uc n) (exec_safe uc n)
    rcases hc with rfl | ⟨l, rfl⟩
    · simp only [exec] at h
      obtain ⟨⟨b, s2, t2⟩, h1, h⟩ := map_ok_inv _ _ _ h
      simp only [Prod.mk.injEq] at h
      obtain ⟨-, -, e3⟩ := h
      subst e3
      exact (terminate_safe _ hinv uc s s2 b t2 hM h1).2.2.1
    · cases hT : s._terminated with
      | true => exact (((exec_safe uc (n + 1)) _ s r s1 t hM h).2 hT).2.1
      | false =>
        rw [exec_setLifetime_active uc n l s hT hM] at h
        simp only [Except.ok.injEq, Prod.mk.injEq] at h
        rw [← h.2.2]
        simp [Event.isCallback]

end Once

/-! ## Deferred actions that call back into their channel -/

section ActionsReenter

variable {V E A OnNext OnError OnDone : Type}

theorem runCalls_rejected (uc : UserCode V E A OnNext OnError OnDone) (n : Nat)
    (s : consumer_instance A OnNext OnError OnDone)
    (hT : s._terminated = true) (hM : s._mutex = false) (cs : List (Call V E A))
    (hc : ∀ c ∈ cs, Call.isSetLifetime c = false) :
    runCalls (exec uc (n + 1)) cs s
      = .ok (cs.map Call.rejected, s,
          cs.flatMap (fun _ => [Event.lock, Event.unlock])) := by
  induction cs with
  | nil => rfl
  | cons c rest ih =>
    have h1 : exec uc (n + 1) c s = .ok (Call.rejected c, s, [Event.lock, Event.unlock]) := by
      cases c with
      | putNext value => exact exec_putNext_terminated uc n value s hT hM
      | putError error => exact exec_putError_terminated uc n error s hT hM
      | putDone => exact exec_putDone_terminated uc n s hT hM
      | terminate => exact exec_terminate_terminated uc n s hT hM
      | setLifetime l => exact absurd (hc _ (List.mem_cons_self _ _)) (by simp [Call.isSetLifetime])
    simpa using runCalls_cons_ok _ _ _ s s s _ _ _ _ h1
      (ih (fun c hc1 => hc c (List.mem_cons_of_mem _ hc1)))

theorem runActions_rejected (uc : UserCode V E A OnNext OnError OnDone) (n : Nat)
    (s : consumer_instance A OnNext OnError OnDone)
    (hT : s._terminated = true) (hM : s._mutex = false) (as : List A)
    (hA : ∀ a ∈ as, ∀ c ∈ uc.action a, Call.isSetLifetime c = false) :
    runActions (nested uc (n + 1)) uc.action as s
      = .ok ((), s, as.flatMap fun a =>
          Event.action a :: (uc.action a).flatMap fun _ => [Event.lock, Event.unlock]) := by
  induction as with
  | nil => rfl
  | cons a rest ih =>
    have h1 : nested uc (n + 1) (uc.action a) s
        = .ok ((), s, (uc.action a).flatMap fun _ => [Event.lock, Event.unlock]) := by
      show discard (runCalls (exec uc (n + 1)) (uc.action a) s) = _
      rw [runCalls_rejected uc n s hT hM _ (hA a (List.mem_cons_self _ _))]
      rfl
    have h2 := ih (fun b hb => hA b (List.mem_cons_of_mem _ hb))
    simp only [runActions, h1, h2, bind, Except.bind, pure, Except.pure,
      List.flatMap_cons, List.cons_append]

theorem terminate_rejected (uc : UserCode V E A OnNext OnError OnDone) (n : Nat)
    (s : consumer_instance A OnNext OnError OnDone)
    (hT : s._terminated = false) (hM : s._mutex = false)
    (hA : ∀ a ∈ s._lifetime._callbacks, ∀ c ∈ uc.action a, Call.isSetLifetime c = false) :
    terminate (nested uc (n + 1)) uc s
      = .ok ((), { s with _terminated := true, _lifetime := lifetime.empty },
          Event.lock :: Event.unlock :: s._lifetime._callbacks.flatMap fun a =>
            Event.action a :: (uc.action a).flatMap fun _ => [Event.lock, Event.unlock]) := by
  obtain ⟨l, tm, m, nx, er, dn⟩ := s
  simp only at hT hM hA
  subst hT hM
  have h := runActions_rejected uc n
    (⟨lifetime.empty, true, false, nx, er, dn⟩ : consumer_instance A OnNext OnError OnDone)
    rfl rfl l._callbacks hA
  simp [terminate, acquire, release, lifetime.move, lifetime.assign, lifetime.destroy, h,
    runActions, bind, Except.bind, pure, Except.pure]

/-- Actions run on a terminated channel: each body is executed from the same state,
which it leaves unchanged. -/
theorem runActions_terminated_shape (invoke : Invoke V E A OnNext OnError OnDone)
    (hinv : SafeInvoke invoke) (body : A → List (Call V E A)) (as : List A) :
    ∀ (s s2 : consumer_instance A OnNext OnError OnDone) (r : Unit)
      (t : List (Event V E A)),
      s._mutex = false → s._terminated = true →
      runActions invoke body as s = .ok (r, s2, t) →
      s2 = s ∧ ∃ ts : List (List (Event V E A)),
        List.Forall₂ (fun a ta => invoke (body a) s = .ok ((), s, ta)) as ts ∧
        t = (as.zip ts).flatMap fun p => Event.action p.1 :: p.2 := by
  induction as with
  | nil =>
    intro s s2 r t _ _ h
    simp only [runActions, Except.ok.injEq, Prod.mk.injEq] at h
    obtain ⟨-, h2, h3⟩ := h
    subst h2 h3
    exact ⟨rfl, [], List.Forall₂.nil, rfl⟩
  | cons a rest ih =>
    intro s s2 r t hM hT h
    simp only [runActions] at h
    obtain ⟨⟨r1, s1, t1⟩, h1, h⟩ := bind_ok_inv _ _ _ h
    obtain ⟨⟨r2, s3, t2⟩, h2, h⟩ := bind_ok_inv _ _ _ h
    simp only [pure, Except.pure, Except.ok.injEq, Prod.mk.injEq] at h
    obtain ⟨-, e2, e3⟩ := h
    subst e2 e3
    obtain ⟨-, hT1⟩ := hinv (body a) s r1 s1 t1 hM h1
    obtain ⟨e1, -⟩ := hT1 hT
    subst e1
    obtain ⟨e2, ts, hts, et⟩ := ih s1 s3 r2 t2 hM hT h2
    subst e2 et
    exact ⟨rfl, t1 :: ts, List.Forall₂.cons h1 hts, by simp⟩

/-- C21: the termination transition sets `_terminated` and empties the stored registry
before it runs the first deferred action.  For arbitrary user code, every `terminate()`
that returns on a channel that was not terminated has run the body of each action of the
stored registry, once each and in order, from the state in which the channel is
terminated and its registry empty, and each body has left that state unchanged.  When
the bodies of the actions call `putNext`, `putError`, `putDone` or `terminate` on their
own channel, each such call only acquires and releases the mutex, `putNext` returns
`false`, no callback is invoked and no action is run a second time, and `terminate()`
returns. -/
theorem actions_observe_terminated_channel (uc : UserCode V E A OnNext OnError OnDone)
    (n : Nat) (s : consumer_instance A OnNext OnError OnDone)
    (hT : s._terminated = false) (hM : s._mutex = false) :
    (∀ r s2 t, exec uc (n + 1) .terminate s = .ok (r, s2, t) →
        s2 = { s with _terminated := true, _lifetime := lifetime.empty } ∧
        ∃ ts : List (List (Event V E A)),
          List.Forall₂
            (fun a ta =>
              nested uc n (uc.action a)
                  { s with _terminated := true, _lifetime := lifetime.empty }
                = .ok ((), { s with _terminated := true, _lifetime := lifetime.empty }, ta))
            s._lifetime._callbacks ts ∧
          t = Event.lock :: Event.unlock ::
            ((s._lifetime._callbacks.zip ts).flatMap fun p => Event.action p.1 :: p.2)) ∧
      ((∀ a ∈ s._lifetime._callbacks, ∀ c ∈ uc.action a, Call.isSetLifetime c = false) →
        (∀ a ∈ s._lifetime._callbacks,
          runCalls (exec uc (n + 1)) (uc.action a)
              { s with _terminated := true, _lifetime := lifetime.empty }
            = .ok ((uc.action a).map Call.rejected,
                { s with _terminated := true, _lifetime := lifetime.empty },
                (uc.action a).flatMap fun _ => [Event.lock, Event.unlock])) ∧
        exec uc (n + 2) .terminate s
          = .ok (none, { s with _terminated := true, _lifetime := lifetime.empty },
              Event.lock :: Event.unlock :: s._lifetime._callbacks.flatMap fun a =>
                Event.action a ::
                  (uc.action a).flatMap fun _ => [Event.lock, Event.unlock])) := by
  refine ⟨?_, ?_⟩
  · intro r s2 t h
    have hinv : SafeInvoke (nested uc n) := discard_safe (exec uc n) (exec_safe uc n)
    simp only [exec] at h
    obtain ⟨⟨b, s3, t3⟩, h1, h⟩ := map_ok_inv _ _ _ h
    simp only [Prod.mk.injEq] at h
    obtain ⟨-, e2, e3⟩ := h
    subst e2 e3
    have h1a : terminate (nested uc n) uc s = .ok (b, s3, t3) := h1
    obtain ⟨l1, s1, t1, l2, t2, h2, h3, e⟩ :=
      terminate_active_inv (nested uc n) uc s s3 b t3 hT hM h1a
    subst e
    obtain ⟨el, -, -⟩ := destroy_safe (nested uc n) hinv uc _ _
      { s with _terminated := true, _lifetime := lifetime.empty } _ _ hM h2
    subst el
    simp only [lifetime.destroy, lifetime.move] at h2
    obtain ⟨⟨r1, s4, t4⟩, h4, h2⟩ := bind_ok_inv _ _ _ h2
    simp only [pure, Except.pure, Except.ok.injEq, Prod.mk.injEq] at h2
    obtain ⟨-, e2, e3⟩ := h2
    subst e2 e3
    obtain ⟨e4, ts, hts, et⟩ := runActions_terminated_shape (nested uc n) hinv uc.action _
      { s with _terminated := true, _lifetime := lifetime.empty } s4 r1 t4 hM rfl h4
    subst e4 et
    rw [destroy_empty] at h3
    simp only [Except.ok.injEq, Prod.mk.injEq] at h3
    obtain ⟨-, e5, e6⟩ := h3
    subst e5 e6
    exact ⟨rfl, ts, hts, by simp⟩
  · intro hA
    refine ⟨fun a ha => runCalls_rejected uc n
      { s with _terminated := true, _lifetime := lifetime.empty } rfl hM _ (hA a ha), ?_⟩
    have e : exec uc (n + 2) .terminate s
        = (terminate (nested uc (n + 1)) uc s).map fun x => (none, x.2) := rfl
    rw [e, terminate_rejected uc n s hT hM hA]
    rfl

theorem actions_observe_terminated_channel_witness :
    demoAttached._terminated = false ∧ demoAttached._mutex = false
      ∧ exec reentering 2 .terminate demoAttached
          = .ok (none, demoTerminated,
              [Event.lock, Event.unlock,
                Event.action 1, Event.lock, Event.unlock, Event.lock, Event.unlock,
                Event.action 2, Event.lock, Event.unlock, Event.lock, Event.unlock])
      ∧ runCalls (exec reentering 1) [Call.putNext 7, Call.terminate] demoTerminated
          = .ok ([some false, none], demoTerminated,
              [Event.lock, Event.unlock, Event.lock, Event.unlock]) :=
  ⟨rfl, rfl,
    ((actions_observe_terminated_channel reentering 0 demoAttached rfl rfl).2
      (by decide)).2,
    ((actions_observe_terminated_channel reentering 0 demoAttached rfl rfl).2
      (by decide)).1 1 (by decide)⟩

end ActionsReenter

/-! ## The registry of a terminated channel -/

section RegistryInvariant

variable {V E A OnNext OnError OnDone : Type}

theorem runCalls_registry
    (step : Call V E A → consumer_instance A OnNext OnError OnDone →
      Except Fault (Outcome V E A OnNext OnError OnDone (Option Bool)))
    (hsafe : SafeStep step)
    (hstep : ∀ c s r s1 t, s._mutex = false →
      (s._terminated = true → s._lifetime = lifetime.empty) →
      step c s = .ok (r, s1, t) →
      (s1._terminated = true → s1._lifetime = lifetime.empty))
    (cs : List (Call V E A)) :
    ∀ (s s1 : consumer_instance A OnNext OnError OnDone) (rs : List (Option Bool))
      (t : List (Event V E A)),
      s._mutex = false → (s._terminated = true → s._lifetime = lifetime.empty) →
      runCalls step cs s = .ok (rs, s1, t) →
      (s1._terminated = true → s1._lifetime = lifetime.empty) := by
  induction cs with
  | nil =>
    intro s s1 rs t _ hI h
    simp only [runCalls, Except.ok.injEq, Prod.mk.injEq] at h
    rw [← h.2.1]
    exact hI
  | cons c rest ih =>
    intro s s1 rs t hM hI h
    simp only [runCalls] at h
    obtain ⟨⟨r, s2, t1⟩, h1, h⟩ := bind_ok_inv _ _ _ h
    obtain ⟨⟨rs1, s3, t2⟩, h2, h⟩ := bind_ok_inv _ _ _ h
    simp only [pure, Except.pure, Except.ok.injEq, Prod.mk.injEq] at h
    obtain ⟨-, e2, -⟩ := h
    subst e2
    exact ih s2 s3 rs1 t2 (hsafe c s r s2 t1 hM h1).1 (hstep c s r s2 t1 hM hI h1) h2

theorem terminate_registry (invoke : Invoke V E A OnNext OnError OnDone)
    (hinv : SafeInvoke invoke) (uc : UserCode V E A OnNext OnError OnDone)
    (s s2 : consumer_instance A OnNext OnError OnDone) (r : Unit) (t : List (Event V E A))
    (hM : s._mutex = false) (hI : s._terminated = true → s._lifetime = lifetime.empty)
    (h : terminate invoke uc s = .ok (r, s2, t)) :
    s2._lifetime = lifetime.empty := by
  cases hT : s._terminated with
  | true =>
    rw [(terminate_safe invoke hinv uc s s2 r t hM h).2.2.2 hT]
    exact hI hT
  | false =>
    rw [(terminate_active_general invoke hinv uc s s2 r t hT hM h).1]

theorem exec_registry (uc : UserCode V E A OnNext OnError OnDone) :
    ∀ (n : Nat) (c : Call V E A) (s : consumer_instance A OnNext OnError OnDone)
      (r : Option Bool) (s1 : consumer_instance A OnNext OnError OnDone)
      (t : List (Event V E A)),
      s._mutex = false → (s._terminated = true → s._lifetime = lifetime.empty) →
      exec uc n c s = .ok (r, s1, t) →
      (s1._terminated = true → s1._lifetime = lifetime.empty) := by
  intro n
  induction n with
  | zero =>
    intro c s r s1 t _ _ h
    simp [exec] at h
  | succ n ih =>
    intro c s r s1 t hM hI h
    have hinv : SafeInvoke (nested uc n) := discard_safe (exec uc n) (exec_safe uc n)
    cases hT : s._terminated with
    | true =>
      rw [(((exec_safe uc (n + 1)) c s r s1 t hM h).2 hT).1]
      exact hI
    | false =>
      cases c with
      | putNext value =>
        simp only [exec] at h
        obtain ⟨⟨b, s2, t2⟩, h1, h⟩ := map_ok_inv _ _ _ h
        simp only [Prod.mk.injEq] at h
        obtain ⟨-, e2, -⟩ := h
        subst e2
        obtain ⟨r1, t1, h2, -, -⟩ := putNext_active_inv _ uc value s s2 b t2 hT hM h1
        obtain ⟨rs, h3⟩ := discard_ok_inv _ _ _ _ h2
        exact runCalls_registry (exec uc n) (exec_safe uc n) ih _ s s2 rs t1 hM hI h3
      | putError error =>
        simp only [exec] at h
        obtain ⟨⟨b, s2, t2⟩, h1, h⟩ := map_ok_inv _ _ _ h
        simp only [Prod.mk.injEq] at h
        obtain ⟨-, e2, -⟩ := h
        subst e2
        obtain ⟨r1, s3, t1, r2, t3, h2, h3, -⟩ :=
          putError_active_inv _ uc error s s2 b t2 hT hM h1
        obtain ⟨rs, h4⟩ := discard_ok_inv _ _ _ _ h2
        have hM3 := (hinv _ { s with _error := uc.movedError s._error } r1 s3 t1 hM h2).1
        have hI3 := runCalls_registry (exec uc n) (exec_safe uc n) ih _
          { s with _error := uc.movedError s._error } s3 rs t1 hM hI h4
        exact fun _ => terminate_registry _ hinv uc s3 s2 r2 t3 hM3 hI3 h3
      | putDone =>
        simp only [exec] at h
        obtain ⟨⟨b, s2, t2⟩, h1, h⟩ := map_ok_inv _ _ _ h
        simp only [Prod.mk.injEq] at h
        obtain ⟨-, e2, -⟩ := h
        subst e2
        obtain ⟨r1, s3, t1, r2, t3, h2, h3, -⟩ :=
          putDone_active_inv _ uc s s2 b t2 hT hM h1
        obtain ⟨rs, h4⟩ := discard_ok_inv _ _ _ _ h2
        have hM3 := (hinv _ { s with _done := uc.movedDone s._done } r1 s3 t1 hM h2).1
        have hI3 := runCalls_registry (exec uc n) (exec_safe uc n) ih _
          { s with _done := uc.movedDone s._done } s3 rs t1 hM hI h4
        exact fun _ => terminate_registry _ hinv uc s3 s2 r2 t3 hM3 hI3 h3
      | terminate =>
        simp only [exec] at h
        obtain ⟨⟨b, s2, t2⟩, h1, h⟩ := map_ok_inv _ _ _ h
        simp only [Prod.mk.injEq] at h
        obtain ⟨-, e2, -⟩ := h
        subst e2
        exact fun _ => terminate_registry _ hinv uc s s2 b t2 hM hI h1
      | setLifetime l =>
        rw [exec_setLifetime_active uc n l s hT hM] at h
        simp only [Except.ok.injEq, Prod.mk.injEq] at h
        obtain ⟨-, e2, -⟩ := h
        subst e2
        intro hc
        simp [hT] at hc

/-- C22: starting from a freshly constructed channel, after every sequence of top-level
calls (`putNext`, `putError`, `putDone`, `setLifetime`, `terminate`) that has returned,
whatever the callbacks and deferred actions do on the channel: if `_terminated` is set,
the stored registry `_lifetime` is empty. -/
theorem terminated_channel_registry_empty (uc : UserCode V E A OnNext OnError OnDone)
    (n : Nat) (next : OnNext) (error : OnError) (done : OnDone) (cs : List (Call V E A))
    (rs : List (Option Bool)) (s1 : consumer_instance A OnNext OnError OnDone)
    (t : List (Event V E A))
    (h : runCalls (exec uc n) cs (consumer_instance.construct next error done)
      = .ok (rs, s1, t))
    (hT : s1._terminated = true) :
    s1._lifetime = lifetime.empty :=
  runCalls_registry (exec uc n) (exec_safe uc n) (exec_registry uc n) cs
    (consumer_instance.construct next error done) s1 rs t rfl
    (fun hc => by simp [consumer_instance.construct] at hc) h hT

theorem terminated_channel_registry_empty_witness :
    runCalls (exec demoCode 2)
        [.setLifetime ⟨[1, 2]⟩, .putNext 5, .putNext 0, .setLifetime ⟨[3]⟩, .putDone]
        (consumer_instance.construct () () ())
      = .ok ([none, some true, some true, none, none], demoTerminated,
          [Event.lock, Event.unlock,
            Event.lock, Event.unlock, Event.next 5,
            Event.lock, Event.unlock, Event.next 0,
            Event.lock, Event.unlock, Event.action 1, Event.action 2,
            Event.lock, Event.unlock, Event.action 3,
            Event.lock, Event.unlock])
      ∧ demoTerminated._terminated = true
      ∧ demoTerminated._lifetime = lifetime.empty :=
  ⟨rfl, rfl,
    terminated_channel_registry_empty demoCode 2 () () ()
      [.setLifetime ⟨[1, 2]⟩, .putNext 5, .putNext 0, .setLifetime ⟨[3]⟩, .putDone]
      _ demoTerminated _ rfl rfl⟩

end RegistryInvariant

/-! ## Terminal calls whose handler or actions call back -/

section TerminalCallsReenter

variable {V E A OnNext OnError OnDone : Type}

end TerminalCallsReenter

/-! ## Threads: a thread alone does what the sequential execution does -/

section ThreadAlone

variable {V E A OnNext OnError OnDone : Type}

end ThreadAlone

/-! ## Threads: what every step keeps -/

section ThreadSteps

variable {V E A OnNext OnError OnDone : Type}

end ThreadSteps

/-! ## Threads: what every interleaving keeps -/

section Interleavings

variable {V E A OnNext OnError OnDone : Type}

end Interleavings

/-! ## Terminal calls that overlap -/

section Overlap

variable {V E A OnNext OnError OnDone : Type}

end Overlap

end rpl

/-! # Sticker set boxes -/

/-! ## The order of the installed sets -/

section InstallOrder

theorem indexOfFrom_not_mem (id : Nat) (order : List Nat) :
    ∀ i : Int, id ∉ order → QList.indexOfFrom id order i = -1 := by
  induction order with
  | nil => intro i _; rfl
  | cons x rest ih =>
    intro i h
    have hx : x ≠ id := fun e => h (e ▸ List.mem_cons_self _ _)
    simp only [QList.indexOfFrom, hx, if_false]
    exact ih (i + 1) (fun hm => h (List.mem_cons_of_mem _ hm))

theorem indexOfFrom_mem (id : Nat) (order : List Nat) :
    ∀ i : Int, id ∈ order →
      ∃ n : Nat, QList.indexOfFrom id order i = i + n ∧ n < order.length ∧
        (n = 0 → order.head? = some id) ∧
        (order.count id ≤ 1 → order.eraseIdx n = order.filter fun x => x != id) := by
  induction order with
  | nil => intro i h; simp at h
  | cons x rest ih =>
    intro i h
    by_cases hx : x = id
    · subst hx
      refine ⟨0, by simp [QList.indexOfFrom], by simp, fun _ => rfl, ?_⟩
      intro hc
      have hn : x ∉ rest := by
        rw [← List.count_eq_zero]
        simp only [List.count_cons_self] at hc
        omega
      have hf : rest.filter (fun y => y != x) = rest := by
        rw [List.filter_eq_self]
        intro y hy
        have : y ≠ x := fun e => hn (e ▸ hy)
        simpa using this
      simp [hf]
    · have hm : id ∈ rest := by
        rcases List.mem_cons.1 h with e | e
        · exact absurd e.symm hx
        · exact e
      obtain ⟨n, h1, h2, -, h4⟩ := ih (i + 1) hm
      refine ⟨n + 1, ?_, by simpa using h2, fun e => by omega, ?_⟩
      · simp only [QList.indexOfFrom, hx, if_false, h1]
        push_cast
        ring
      · intro hc
        have hc1 : rest.count id ≤ 1 := by
          rw [List.count_cons_of_ne (fun e => hx e.symm)] at hc
          exact hc
        have hxb : (x != id) = true := by simpa using hx
        simp [List.filter_cons, hxb, h4 hc1]

/-- The closed form of the block on the order list: when the id occurs at most once, the
id comes first and the other ids follow in their order. -/
theorem installOrder_eq (order : List Nat) (setId : Nat) (h : order.count setId ≤ 1) :
    installOrder order setId = setId :: order.filter fun x => x != setId := by
  by_cases hm : setId ∈ order
  · obtain ⟨n, h1, h2, h3, h4⟩ := indexOfFrom_mem setId order 0 hm
    have hidx : QList.indexOf order setId = (n : Int) := by
      simp [QList.indexOf, h1]
    cases n with
    | zero =>
      have hh := h3 rfl
      cases order with
      | nil => simp at hm
      | cons x rest =>
        simp only [List.head?_cons, Option.some.injEq] at hh
        subst hh
        have := h4 h
        simp only [List.eraseIdx_cons_zero] at this
        simp only [installOrder, hidx]
        simp [← this]
    | succ m =>
      have hlt : ((m + 1 : Nat) : Int) < (order.length : Int) := by exact_mod_cast h2
      have hpos : (0 : Int) < ((m + 1 : Nat) : Int) := by positivity
      simp only [installOrder, hidx]
      have hne : ((m + 1 : Nat) : Int) ≠ 0 := by omega
      simp only [ne_eq, hne, not_false_eq_true, if_true, gt_iff_lt, hpos, QList.removeAt,
        hlt, le_of_lt hpos, and_self, Int.toNat_ofNat, h4 h, QList.insert]
      simp
  · have hidx : QList.indexOf order setId = -1 := indexOfFrom_not_mem setId order 0 hm
    have hf : order.filter (fun x => x != setId) = order := by
      rw [List.filter_eq_self]
      intro y hy
      have : y ≠ setId := fun e => hm (e ▸ hy)
      simpa using this
    simp [installOrder, hidx, QList.insert, hf]

theorem installSet_order (k : Constants) (setId : Nat) (g : Global) (it : Stickers.Set)
    (h : g.StickerSets setId = some it) :
    (StickersInner.installSet k setId g).StickerSetsOrder
      = installOrder g.StickerSetsOrder setId := by
  simp [StickersInner.installSet, h]

theorem installDone_order (k : Constants) (w : StickerSetInner) (g : Global) :
    (StickerSetInner.installDone k w g).2.StickerSetsOrder
      = installOrder g.StickerSetsOrder w._setId := rfl

theorem front_facts (order : List Nat) (setId : Nat) :
    (setId :: order.filter fun x => x != setId)[0]? = some setId ∧
      (setId :: order.filter fun x => x != setId).count setId = 1 ∧
      ((setId :: order.filter fun x => x != setId).filter fun x => x != setId)
        = order.filter fun x => x != setId := by
  refine ⟨by simp, ?_, ?_⟩
  · have : (order.filter fun x => x != setId).count setId = 0 := by
      rw [List.count_eq_zero]
      intro hm
      have := (List.mem_filter.1 hm).2
      simp at this
    simp [this]
  · simp [List.filter_cons, List.filter_filter]

theorem front_length (order : List Nat) (setId : Nat) (h : order.count setId ≤ 1) :
    (setId :: order.filter fun x => x != setId).length
      = if setId ∈ order then order.length else order.length + 1 := by
  induction order with
  | nil => simp
  | cons x rest ih =>
    by_cases hx : x = setId
    · subst hx
      have hn : x ∉ rest := by
        rw [← List.count_eq_zero]
        simp only [List.count_cons_self] at h
        omega
      have hf : rest.filter (fun y => y != x) = rest := by
        rw [List.filter_eq_self]
        intro y hy
        have : y ≠ x := fun e => hn (e ▸ hy)
        simpa using this
      simp [hf]
    · have hc1 : rest.count setId ≤ 1 := by
        rw [List.count_cons_of_ne (fun e => hx e.symm)] at h
        exact h
      have hxb : (x != setId) = true := by simpa using hx
      have ih1 := ih hc1
      have hmem : setId ∈ x :: rest ↔ setId ∈ rest := by
        constructor
        · intro hm
          rcases List.mem_cons.1 hm with e | e
          · exact absurd e.symm hx
          · exact e
        · exact List.mem_cons_of_mem _
      simp only [List.filter_cons, hxb, if_true, List.length_cons] at ih1 ⊢
      by_cases hm : setId ∈ rest
      · simp only [hm, if_true] at ih1
        simp only [hmem, hm, if_true]
        omega
      · simp only [hm, if_false] at ih1
        simp only [hmem, hm, if_false]
        omega

/-- C23: let the id of the installed set occur at most once in the global order.  After
`StickersInner::installSet` for a set that is found, and after
`StickerSetInner::installDone`, the id is at index `0` of the global order and occurs
exactly once in it, the other ids are the same and in the same relative order, and the
length of the order has grown by one if the id was absent and is unchanged otherwise. -/
theorem installed_set_comes_first (k : Constants) (g : Global) (setId : Nat)
    (hOnce : g.StickerSetsOrder.count setId ≤ 1) :
    (∀ it, g.StickerSets setId = some it →
        (StickersInner.installSet k setId g).StickerSetsOrder[0]? = some setId ∧
        (StickersInner.installSet k setId g).StickerSetsOrder.count setId = 1 ∧
        ((StickersInner.installSet k setId g).StickerSetsOrder.filter fun x => x != setId)
          = (g.StickerSetsOrder.filter fun x => x != setId) ∧
        (StickersInner.installSet k setId g).StickerSetsOrder.length
          = if setId ∈ g.StickerSetsOrder then g.StickerSetsOrder.length
            else g.StickerSetsOrder.length + 1) ∧
      (∀ w : StickerSetInner, w._setId = setId →
        (StickerSetInner.installDone k w g).2.StickerSetsOrder[0]? = some setId ∧
        (StickerSetInner.installDone k w g).2.StickerSetsOrder.count setId = 1 ∧
        ((StickerSetInner.installDone k w g).2.StickerSetsOrder.filter fun x => x != setId)
          = (g.StickerSetsOrder.filter fun x => x != setId) ∧
        (StickerSetInner.installDone k w g).2.StickerSetsOrder.length
          = if setId ∈ g.StickerSetsOrder then g.StickerSetsOrder.length
            else g.StickerSetsOrder.length + 1) := by
  obtain ⟨f1, f2, f3⟩ := front_facts g.StickerSetsOrder setId
  have f4 := front_length g.StickerSetsOrder setId hOnce
  refine ⟨fun it hit => ?_, fun w hw => ?_⟩
  · rw [installSet_order k setId g it hit, installOrder_eq _ _ hOnce]
    exact ⟨f1, f2, f3, f4⟩
  · subst hw
    rw [installDone_order k w g, installOrder_eq _ _ hOnce]
    exact ⟨f1, f2, f3, f4⟩

theorem installed_set_comes_first_witness :
    sampleGlobal.StickerSetsOrder.count 7 ≤ 1
      ∧ (StickersInner.installSet sampleConstants 7 sampleGlobal).StickerSetsOrder
          = [7, 3, 9, 11]
      ∧ (StickersInner.installSet sampleConstants 7 sampleGlobal).StickerSetsOrder.length
          = if 7 ∈ sampleGlobal.StickerSetsOrder then sampleGlobal.StickerSetsOrder.length
            else sampleGlobal.StickerSetsOrder.length + 1 :=
  ⟨by decide, by decide,
    ((installed_set_comes_first sampleConstants sampleGlobal 7 (by decide)).1
      { id := 7, flags := sampleFlags true true, stickers := [70] } rfl).2.2.2⟩

end InstallOrder

/-! ## Counting the sticker packs -/

section PacksCount

theorem foldl_range_offset {α β : Type} (whole : List α) (f : β → α → β) :
    ∀ (l : List α) (start : Nat) (init : β), whole.drop start = l →
      (List.range' start l.length).foldl
          (fun acc i => match whole[i]? with
            | none => acc
            | some x => f acc x) init
        = l.foldl f init := by
  intro l
  induction l with
  | nil => intro start init _; rfl
  | cons x rest ih =>
    intro start init h
    have hx : whole[start]? = some x := by
      have := congrArg List.head? h
      simpa [List.head?_drop] using this
    have hrest : whole.drop (start + 1) = rest := by
      have := congrArg List.tail h
      simpa [List.tail_drop] using this
    simp only [List.length_cons, List.range'_succ, List.foldl_cons, hx]
    exact ih (start + 1) (f init x) hrest

theorem foldl_range_getElem {α β : Type} (l : List α) (f : β → α → β) (init : β) :
    (List.range l.length).foldl
        (fun acc i => match l[i]? with
          | none => acc
          | some x => f acc x) init
      = l.foldl f init := by
  rw [List.range_eq_range']
  exact foldl_range_offset l f l 0 init rfl

theorem packStep_eq (g : Global) (b : Bool) :
    (fun (result : Int) (id : Nat) =>
      match g.StickerSets id with
      | none => result
      | some it =>
        if !it.flags.f_disabled || (it.flags.f_official && b) then wrap32 (result + 1)
        else result)
      = fun result id => if isCountedPack g b id then wrap32 (result + 1) else result := by
  funext result id
  unfold isCountedPack
  cases g.StickerSets id <;> simp

theorem foldl_count (p : Nat → Bool) :
    ∀ (order : List Nat) (init : Int), 0 ≤ init → init + order.length < 2147483648 →
      order.foldl (fun result id => if p id then wrap32 (result + 1) else result) init
        = init + (order.countP p : Nat) := by
  intro order
  induction order with
  | nil => intro init _ _; simp
  | cons id rest ih =>
    intro init h0 hb
    simp only [List.length_cons, Nat.cast_add, Nat.cast_one] at hb
    simp only [List.foldl_cons, List.countP_cons]
    cases hp : p id with
    | false =>
      simp only [Bool.false_eq_true, if_false]
      rw [ih init h0 (by omega)]
      simp
    | true =>
      have hw : wrap32 (init + 1) = init + 1 := by
        unfold wrap32
        omega
      simp only [if_true, hw]
      rw [ih (init + 1) (by omega) (by omega)]
      push_cast
      ring

theorem stickerPacksCount_eq (g : Global) (b : Bool)
    (hlen : (g.StickerSetsOrder.length : Int) < 2147483648) :
    stickerPacksCount g b = (g.StickerSetsOrder.countP (isCountedPack g b) : Nat) := by
  have h := foldl_range_getElem g.StickerSetsOrder
    (fun (result : Int) id =>
      match g.StickerSets id with
      | none => result
      | some it =>
        if !it.flags.f_disabled || (it.flags.f_official && b) then wrap32 (result + 1)
        else result) 0
  have h2 := foldl_count (isCountedPack g b) g.StickerSetsOrder 0 (le_refl _) (by omega)
  rw [zero_add, ← packStep_eq g b] at h2
  rw [← h2, ← h]
  unfold stickerPacksCount
  show List.foldl _ 0 (List.range g.StickerSetsOrder.length) = _
  congr 1
  funext acc i
  cases g.StickerSetsOrder[i]? with
  | none => rfl
  | some x => cases g.StickerSets x <;> rfl

/-- C24: for every global order list (of a length that an `int` holds) and every sets
map, `stickerPacksCount(b)` is the number of positions of the order list whose id is
present in the sets map and whose set is not disabled, or is official while `b` holds.
Hence `0 ≤ stickerPacksCount(false) ≤ stickerPacksCount(true) ≤` the length of the
order list. -/
theorem stickerPacksCount_counts (g : Global)
    (hlen : (g.StickerSetsOrder.length : Int) < 2147483648) :
    (∀ b, stickerPacksCount g b
        = (g.StickerSetsOrder.countP (isCountedPack g b) : Nat)) ∧
      0 ≤ stickerPacksCount g false ∧
      stickerPacksCount g false ≤ stickerPacksCount g true ∧
      stickerPacksCount g true ≤ g.StickerSetsOrder.length := by
  refine ⟨fun b => stickerPacksCount_eq g b hlen, ?_, ?_, ?_⟩
  · rw [stickerPacksCount_eq g false hlen]
    exact Int.natCast_nonneg _
  · rw [stickerPacksCount_eq g false hlen, stickerPacksCount_eq g true hlen]
    have : g.StickerSetsOrder.countP (isCountedPack g false)
        ≤ g.StickerSetsOrder.countP (isCountedPack g true) := by
      apply List.countP_mono_left
      intro id _ h
      unfold isCountedPack at h ⊢
      cases hs : g.StickerSets id with
      | none => simp [hs] at h
      | some it =>
        simp only [hs] at h ⊢
        cases hd : it.flags.f_disabled <;> simp [hd] at h ⊢
    exact_mod_cast this
  · rw [stickerPacksCount_eq g true hlen]
    exact_mod_cast List.countP_le_length _

theorem stickerPacksCount_counts_witness :
    (sampleGlobal.StickerSetsOrder.length : Int) < 2147483648
      ∧ stickerPacksCount sampleGlobal false = 1
      ∧ stickerPacksCount sampleGlobal true = 2
      ∧ stickerPacksCount sampleGlobal true
          = (sampleGlobal.StickerSetsOrder.countP (isCountedPack sampleGlobal true) : Nat) :=
  ⟨by decide, by decide, by decide,
    (stickerPacksCount_counts sampleGlobal (by decide)).1 true⟩

end PacksCount

/-! ## The sticker under a point -/

section StickerFromPos

theorem wrap32_range (x : Int) : -2147483648 ≤ wrap32 x ∧ wrap32 x < 2147483648 := by
  unfold wrap32
  omega

theorem wrap32_id (x : Int) (h0 : -2147483648 ≤ x) (h1 : x < 2147483648) : wrap32 x = x := by
  unfold wrap32
  omega

theorem div32_nonneg (a b : Int) (ha : 0 ≤ a) (ha1 : a < 2147483648) (hb : 0 < b) :
    div32 a b = some (a / b) ∧ 0 ≤ a / b ∧ a / b ≤ a := by
  have hq0 : 0 ≤ a / b := Int.ediv_nonneg ha (le_of_lt hb)
  have hq1 : a / b ≤ a := Int.ediv_le_self b ha
  have hne : b ≠ 0 := ne_of_gt hb
  refine ⟨?_, hq0, hq1⟩
  simp only [div32, hne, if_false, Int.tdiv_eq_ediv ha (le_of_lt hb)]
  rw [wrap32_id _ (by omega) (by omega)]

/-- C25: let the cells have a positive width and height, let the padding be
non-negative, and let `StickerPanPerRow` times the largest possible number of rows be
within the 32-bit range.  For every mapped point with 32-bit coordinates and every pack,
`StickerSetInner::stickerFromGlobalPos` divides by no zero and returns `r` with `r = -1`
or `0 ≤ r <` the size of the pack.  When `r ≥ 0` the point is not above or left of the
padding and `r = row * StickerPanPerRow + col` with `0 ≤ col < StickerPanPerRow`, where
`row` and `col` are the integer quotients of the padding-relative `y` and `x` (with `x`
mirrored in a right-to-left layout) by the height and width of a cell. -/
theorem stickerFromGlobalPos_valid_index (k : Constants) (rtl : Bool)
    (w : StickerSetInner) (mapped : Int × Int)
    (hH : 0 < k.stickersSizeHeight) (hW : 0 < k.stickersSizeWidth)
    (hT : 0 ≤ k.stickersPaddingTop) (hL : 0 ≤ k.stickersPaddingLeft)
    (hB : k.StickerPanPerRow * (2147483647 / k.stickersSizeHeight + 1) ≤ 2147483648)
    (hx : -2147483648 ≤ mapped.1 ∧ mapped.1 < 2147483648)
    (hy : -2147483648 ≤ mapped.2 ∧ mapped.2 < 2147483648) :
    ∃ r, StickerSetInner.stickerFromGlobalPos k rtl w mapped = some r ∧
      (r = -1 ∨ (0 ≤ r ∧ r < w._pack.length)) ∧
      (0 ≤ r →
        k.stickersPaddingTop ≤ mapped.2 ∧
        k.stickersPaddingLeft ≤ (if rtl then wrap32 (w.width - mapped.1) else mapped.1) ∧
        r = (mapped.2 - k.stickersPaddingTop) / k.stickersSizeHeight * k.StickerPanPerRow
              + ((if rtl then wrap32 (w.width - mapped.1) else mapped.1)
                  - k.stickersPaddingLeft) / k.stickersSizeWidth ∧
        0 ≤ ((if rtl then wrap32 (w.width - mapped.1) else mapped.1)
                - k.stickersPaddingLeft) / k.stickersSizeWidth ∧
        ((if rtl then wrap32 (w.width - mapped.1) else mapped.1)
                - k.stickersPaddingLeft) / k.stickersSizeWidth < k.StickerPanPerRow) := by
  obtain ⟨x, y⟩ := mapped
  simp only at hx hy ⊢
  generalize hlx : (if rtl then wrap32 (w.width - x) else x) = lx
  have hlxr : -2147483648 ≤ lx ∧ lx < 2147483648 := by
    subst hlx
    cases rtl
    · simpa using hx
    · simpa using wrap32_range _
  unfold StickerSetInner.stickerFromGlobalPos
  simp only [hlx, ge_iff_le, bind, Option.bind, pure]
  by_cases h1 : k.stickersPaddingTop ≤ y
  · have hy1 : wrap32 (y - k.stickersPaddingTop) = y - k.stickersPaddingTop :=
      wrap32_id _ (by omega) (by omega)
    obtain ⟨dr, hr0, hr1⟩ := div32_nonneg (y - k.stickersPaddingTop) k.stickersSizeHeight
      (by omega) (by omega) hH
    by_cases h2 : k.stickersPaddingLeft ≤ lx
    · have hx1 : wrap32 (lx - k.stickersPaddingLeft) = lx - k.stickersPaddingLeft :=
        wrap32_id _ (by omega) (by omega)
      obtain ⟨dc, hc0, hc1⟩ := div32_nonneg (lx - k.stickersPaddingLeft) k.stickersSizeWidth
        (by omega) (by omega) hW
      simp only [h1, h2, if_true, hy1, hx1, dr, dc, Option.map, qFloor]
      by_cases h3 : (lx - k.stickersPaddingLeft) / k.stickersSizeWidth < k.StickerPanPerRow
      · have hP : 0 < k.StickerPanPerRow := by omega
        have hq : (y - k.stickersPaddingTop) / k.stickersSizeHeight
            ≤ 2147483647 / k.stickersSizeHeight := Int.ediv_le_ediv hH (by omega)
        have hm : (y - k.stickersPaddingTop) / k.stickersSizeHeight * k.StickerPanPerRow
            ≤ 2147483647 / k.stickersSizeHeight * k.StickerPanPerRow :=
          mul_le_mul_of_nonneg_right hq (le_of_lt hP)
        have hm0 : 0 ≤ (y - k.stickersPaddingTop) / k.stickersSizeHeight * k.StickerPanPerRow :=
          mul_nonneg hr0 (le_of_lt hP)
        have hB1 : 2147483647 / k.stickersSizeHeight * k.StickerPanPerRow
            + k.StickerPanPerRow ≤ 2147483648 := by
          have : k.StickerPanPerRow * (2147483647 / k.stickersSizeHeight + 1)
              = 2147483647 / k.stickersSizeHeight * k.StickerPanPerRow
                + k.StickerPanPerRow := by ring
          rw [← this]
          exact hB
        have hw1 : wrap32 ((y - k.stickersPaddingTop) / k.stickersSizeHeight
            * k.StickerPanPerRow)
            = (y - k.stickersPaddingTop) / k.stickersSizeHeight * k.StickerPanPerRow :=
          wrap32_id _ (by omega) (by omega)
        have hw2 : wrap32 ((y - k.stickersPaddingTop) / k.stickersSizeHeight
            * k.StickerPanPerRow + (lx - k.stickersPaddingLeft) / k.stickersSizeWidth)
            = (y - k.stickersPaddingTop) / k.stickersSizeHeight * k.StickerPanPerRow
              + (lx - k.stickersPaddingLeft) / k.stickersSizeWidth :=
          wrap32_id _ (by omega) (by omega)
        simp only [hr0, hc0, h3, and_self, if_true, hw1, hw2]
        by_cases h4 : (y - k.stickersPaddingTop) / k.stickersSizeHeight * k.StickerPanPerRow
            + (lx - k.stickersPaddingLeft) / k.stickersSizeWidth < (w._pack.length : Int)
        · simp only [h4, if_true]
          refine ⟨_, rfl, Or.inr ⟨by omega, h4⟩, fun _ => ?_⟩
          simp
        · simp only [h4, if_false]
          exact ⟨_, rfl, Or.inl rfl, fun h => absurd h (by decide)⟩
      · simp only [h3, and_false, if_false]
        exact ⟨_, rfl, Or.inl rfl, fun h => absurd h (by decide)⟩
    · simp only [h1, h2, if_true, if_false, hy1, dr, Option.map, qFloor]
      have : ¬ ((0 : Int) ≤ -1) := by decide
      simp only [this, and_false, false_and, if_false]
      exact ⟨_, rfl, Or.inl rfl, fun h => absurd h (by decide)⟩
  · by_cases h2 : k.stickersPaddingLeft ≤ lx
    · have hx1 : wrap32 (lx - k.stickersPaddingLeft) = lx - k.stickersPaddingLeft :=
        wrap32_id _ (by omega) (by omega)
      obtain ⟨dc, -, -⟩ := div32_nonneg (lx - k.stickersPaddingLeft) k.stickersSizeWidth
        (by omega) (by omega) hW
      simp only [h1, h2, if_true, if_false, hx1, dc, Option.map, qFloor]
      have : ¬ ((0 : Int) ≤ -1) := by decide
      simp only [this, false_and, if_false]
      exact ⟨_, rfl, Or.inl rfl, fun h => absurd h (by decide)⟩
    · simp only [h1, h2, if_false]
      have : ¬ ((0 : Int) ≤ -1) := by decide
      simp only [this, false_and, if_false]
      exact ⟨_, rfl, Or.inl rfl, fun h => absurd h (by decide)⟩

theorem stickerFromGlobalPos_valid_index_witness :
    StickerSetInner.stickerFromGlobalPos sampleConstants false sampleWidget (146, 77) = some 7
      ∧ StickerSetInner.stickerFromGlobalPos sampleConstants true sampleWidget (146, 77)
          = some 7
      ∧ StickerSetInner.stickerFromGlobalPos sampleConstants false sampleWidget (146, 200)
          = some (-1)
      ∧ ∃ r, StickerSetInner.stickerFromGlobalPos sampleConstants false sampleWidget (146, 77)
            = some r ∧ (r = -1 ∨ (0 ≤ r ∧ r < sampleWidget._pack.length)) :=
  ⟨by decide, by decide, by decide,
    (stickerFromGlobalPos_valid_index sampleConstants false sampleWidget (146, 77)
      (by decide) (by decide) (by decide) (by decide) (by decide) (by decide)
      (by decide)).imp fun _ h => ⟨h.1, h.2.1⟩⟩

end StickerFromPos

/-! ## The size of the thumbnail of a row -/

section Thumbnail

theorem tdiv_le_of_le_mul (v b S : Int) (hb : 0 < b) (hS : 0 ≤ S) (h : v ≤ b * S) :
    Int.tdiv v b ≤ S := by
  by_cases hv : 0 ≤ v
  · rw [Int.tdiv_eq_ediv hv (le_of_lt hb)]
    apply Int.ediv_le_of_le_mul hb
    rw [mul_comm]
    exact h
  · have hn : 0 ≤ -v := by omega
    have h1 : Int.tdiv v b = -Int.tdiv (-v) b := by
      rw [Int.neg_tdiv, neg_neg]
    have h2 : 0 ≤ Int.tdiv (-v) b := Int.tdiv_nonneg hn (le_of_lt hb)
    omega

theorem tdiv_range (v b : Int) (hv : -2147483648 ≤ v ∧ v < 2147483648) (hb : 0 < b) :
    -2147483648 ≤ Int.tdiv v b ∧ Int.tdiv v b < 2147483648 := by
  by_cases h0 : 0 ≤ v
  · rw [Int.tdiv_eq_ediv h0 (le_of_lt hb)]
    have h1 : 0 ≤ v / b := Int.ediv_nonneg h0 (le_of_lt hb)
    have h2 : v / b ≤ v := Int.ediv_le_self b h0
    omega
  · have hn : 0 ≤ -v := by omega
    have h1 : Int.tdiv v b = -Int.tdiv (-v) b := by
      rw [Int.neg_tdiv, neg_neg]
    have h2 : 0 ≤ Int.tdiv (-v) b := Int.tdiv_nonneg hn (le_of_lt hb)
    have h3 : Int.tdiv (-v) b ≤ -v := by
      rw [Int.tdiv_eq_ediv hn (le_of_lt hb)]
      exact Int.ediv_le_self b hn
    omega

/-- The scaled side: the product is taken in 32 bits and divided by a positive side
that is larger than the photo size and not smaller than the other side. -/
theorem scaled_side (other larger S : Int) (hS : 0 < S) (ho : 0 ≤ other)
    (hl : S < larger) (hol : other ≤ larger) :
    div32 (wrap32 (other * S)) larger = some (Int.tdiv (wrap32 (other * S)) larger) ∧
      Int.tdiv (wrap32 (other * S)) larger ≤ S ∧
      (other * S < 2147483648 →
        Int.tdiv (wrap32 (other * S)) larger = other * S / larger ∧
        0 ≤ Int.tdiv (wrap32 (other * S)) larger) := by
  have hpos : 0 < larger := by omega
  have hne : larger ≠ 0 := ne_of_gt hpos
  have hprod : 0 ≤ other * S := mul_nonneg ho (le_of_lt hS)
  have hle : wrap32 (other * S) ≤ other * S := by
    unfold wrap32
    omega
  have hmul : other * S ≤ larger * S := mul_le_mul_of_nonneg_right hol (le_of_lt hS)
  refine ⟨?_, tdiv_le_of_le_mul _ _ _ hpos (le_of_lt hS) (le_trans hle hmul), ?_⟩
  · simp only [div32, hne, if_false]
    rw [wrap32_id _ (tdiv_range _ _ (wrap32_range _) hpos).1
      (tdiv_range _ _ (wrap32_range _) hpos).2]
  · intro hfit
    rw [wrap32_id _ (by omega) hfit, Int.tdiv_eq_ediv hprod (le_of_lt hpos)]
    exact ⟨rfl, Int.ediv_nonneg hprod (le_of_lt hpos)⟩


/-- C26: for every non-negative 32-bit width and height of the thumbnail and every
positive photo size `S`, the scaling in `StickersInner::rebuild` divides by no zero and
yields `pixw ≤ S` and `pixh ≤ S`.  Both are unchanged when both are at most `S`.
Otherwise the larger side becomes `S` (the height on a tie, and when only the height
exceeds `S`) and the other side is its product with `S`, taken in 32 bits, divided by the
larger side; when the product fits in 32 bits this is the integer quotient of the exact
product, which is not negative. -/
theorem thumbnail_fits_photo_size (k : Constants) (width height : Int)
    (hS : 0 < k.contactsPhotoSize)
    (hw : 0 ≤ width ∧ width < 2147483648) (hh : 0 ≤ height ∧ height < 2147483648) :
    ∃ pixw pixh, StickersInner.rebuild.pix k (some (width, height)) = some (pixw, pixh) ∧
      pixw ≤ k.contactsPhotoSize ∧ pixh ≤ k.contactsPhotoSize ∧
      (width ≤ k.contactsPhotoSize → height ≤ k.contactsPhotoSize →
        pixw = width ∧ pixh = height) ∧
      (k.contactsPhotoSize < width → height < width →
        pixw = k.contactsPhotoSize ∧
        pixh = Int.tdiv (wrap32 (height * k.contactsPhotoSize)) width ∧
        (height * k.contactsPhotoSize < 2147483648 →
          pixh = height * k.contactsPhotoSize / width ∧ 0 ≤ pixh)) ∧
      ((k.contactsPhotoSize < width ∨ k.contactsPhotoSize < height) → width ≤ height →
        pixh = k.contactsPhotoSize ∧
        pixw = Int.tdiv (wrap32 (width * k.contactsPhotoSize)) height ∧
        (width * k.contactsPhotoSize < 2147483648 →
          pixw = width * k.contactsPhotoSize / height ∧ 0 ≤ pixw)) := by
  by_cases h1 : k.contactsPhotoSize < width
  · by_cases h2 : height < width
    · obtain ⟨e, hb, hx⟩ := scaled_side height width k.contactsPhotoSize hS hh.1 h1
        (le_of_lt h2)
      have e1 : StickersInner.rebuild.pix k (some (width, height))
          = some (k.contactsPhotoSize,
              Int.tdiv (wrap32 (height * k.contactsPhotoSize)) width) := by
        unfold StickersInner.rebuild.pix
        simp only [gt_iff_lt, h1, h2, if_true, e, Option.map]
      exact ⟨_, _, e1, le_refl _, hb, fun h => absurd h (by omega),
        fun _ _ => ⟨rfl, rfl, hx⟩, fun _ h => absurd h (by omega)⟩
    · have h3 : width ≤ height := by omega
      obtain ⟨e, hb, hx⟩ := scaled_side width height k.contactsPhotoSize hS hw.1
        (by omega) h3
      have e1 : StickersInner.rebuild.pix k (some (width, height))
          = some (Int.tdiv (wrap32 (width * k.contactsPhotoSize)) height,
              k.contactsPhotoSize) := by
        unfold StickersInner.rebuild.pix
        simp only [gt_iff_lt, h1, h2, if_true, if_false, e, Option.map]
      exact ⟨_, _, e1, hb, le_refl _, fun h => absurd h (by omega),
        fun _ h => absurd h (by omega), fun _ _ => ⟨rfl, rfl, hx⟩⟩
  · by_cases h2 : k.contactsPhotoSize < height
    · have h3 : width ≤ height := by omega
      obtain ⟨e, hb, hx⟩ := scaled_side width height k.contactsPhotoSize hS hw.1 h2 h3
      have e1 : StickersInner.rebuild.pix k (some (width, height))
          = some (Int.tdiv (wrap32 (width * k.contactsPhotoSize)) height,
              k.contactsPhotoSize) := by
        unfold StickersInner.rebuild.pix
        simp only [gt_iff_lt, h1, h2, if_true, if_false, e, Option.map]
      exact ⟨_, _, e1, hb, le_refl _, fun _ h => absurd h (by omega),
        fun h => absurd h (by omega), fun _ _ => ⟨rfl, rfl, hx⟩⟩
    · have e1 : StickersInner.rebuild.pix k (some (width, height))
          = some (width, height) := by
        unfold StickersInner.rebuild.pix
        simp only [gt_iff_lt, h1, h2, if_false]
      exact ⟨_, _, e1, by omega, by omega, fun _ _ => ⟨rfl, rfl⟩,
        fun h => absurd h (by omega), fun h => absurd h (by omega)⟩

theorem thumbnail_fits_photo_size_witness :
    StickersInner.rebuild.pix sampleConstants (some (128, 96)) = some (42, 31)
      ∧ StickersInner.rebuild.pix sampleConstants (some (30, 90)) = some (14, 42)
      ∧ StickersInner.rebuild.pix sampleConstants (some (40, 20)) = some (40, 20)
      ∧ ∃ pixw pixh,
          StickersInner.rebuild.pix sampleConstants (some (128, 96)) = some (pixw, pixh) ∧
            pixw ≤ sampleConstants.contactsPhotoSize ∧
            pixh ≤ sampleConstants.contactsPhotoSize :=
  ⟨by decide, by decide, by decide,
    (thumbnail_fits_photo_size sampleConstants 128 96 (by decide) (by decide)
      (by decide)).imp fun _ h => h.imp fun _ h => ⟨h.1, h.2.1, h.2.2.1⟩⟩

end Thumbnail
